import Mathlib

/-!
# Telematics device: sentence capture, field parsers and window analyzer

A shallow embedding of `Core/Src/parse_NMEA.c` (`gps_fix_check`, `valid_data_check`,
`speed_data_check`, `GGA_analysis`, `RMC_analysis`), of the receive handler `usart2_call`
of `Core/Src/uart.c`, of `Core/Src/events.c` (`buf_analysis`, `goToAscii`,
`event_analysis`) and of the sampling loop of `Core/Src/main.c` (`MPU6050_Read_Accel`, the
`while (1)` loop of `main`), and theorems about them.

Conventions of the embedding:

* a `char` is its code, a natural number (`char` is unsigned on the ARM target);
* a `char *` argument is the list of the bytes of the array it points to; an access
  outside that list is undefined behaviour, rendered as `none`;
* `int` values are integers; where the source narrows to `int16_t` the wrap is explicit,
  and the unsigned counters are incremented modulo their width;
* `atoi` on a number outside `int` is undefined behaviour (`none`); `GGA_analysis_any` is
  `GGA_analysis` with that result left open, for statements about indices only;
* a `float` or `double` is the rational number it stands for; the altitude, speed and
  course conversions follow the `double` arithmetic of the source and its narrowing to
  `float`, each operation rounded to nearest (`to_double`, `to_float`); the latitude and
  longitude conversion is rendered in exact rational arithmetic, the value that the
  statements about those two fields speak of;
* the FatFs calls are recorded, in order, in a log of sink operations;
* the global variables are the fields of one state record, `Device`;
* the places (slot index, byte offset) that the receive handler stores to are listed by
  `usart2_stores`, whether or not they lie inside the slots.
-/

namespace Telematics

/-! ## Bytes and memory -/

/-- Bytes of a string literal, as `char` codes. -/
def bytes (s : String) : List Nat := s.toList.map Char.toNat

/-- The read `p[i]` through a `char *p`: `none` outside the array. -/
def rd (buf : List Nat) (i : Int) : Option Nat :=
  if 0 ≤ i then buf[i.toNat]? else none

/-- An `int` used as an array index: `none` (an access before the array) when negative. -/
def array_index (i : Int) : Option Nat :=
  if 0 ≤ i then some i.toNat else none

/-- A local `char buf[12] = {0}`. -/
def field_buffer_init : List Nat := List.replicate 12 0

/-! ## Library functions used by the parsers (`string.h`, `stdlib.h`, `math.h`) -/

/-- The C `strlen`: number of bytes before the first NUL; `none` when the array holds no NUL. -/
def strlen : List Nat → Option Nat
  | [] => none
  | c :: cs => if c = 0 then some 0 else (strlen cs).map (· + 1)

/-- The C `isspace` in the "C" locale. -/
def isspace (c : Nat) : Bool := c = 32 || (9 ≤ c && c ≤ 13)

/-- Digit run of `atoi`: accumulates decimal digits up to the first non-digit byte;
`none` when the array ends before a non-digit byte is met. -/
def atoi_digits : List Nat → Nat → Option Nat
  | [], _ => none
  | c :: cs, acc =>
    if 48 ≤ c ∧ c ≤ 57 then atoi_digits cs (acc * 10 + (c - 48)) else some acc

/-- Optional sign of `atoi`, then the digit run. -/
def atoi_sign : List Nat → Option Int
  | [] => none
  | c :: cs =>
    if c = 45 then (atoi_digits cs 0).map (fun v => -(v : Int))
    else if c = 43 then (atoi_digits cs 0).map (fun v => (v : Int))
    else (atoi_digits (c :: cs) 0).map (fun v => (v : Int))

/-- Leading white space of `atoi`, then sign and digits. -/
def atoi_space : List Nat → Option Int
  | [] => none
  | c :: cs => if isspace c then atoi_space cs else atoi_sign (c :: cs)

/-- Largest `int` of the 32-bit target. -/
def INT_MAX : Int := 2147483647

/-- Smallest `int` of the 32-bit target. -/
def INT_MIN : Int := -2147483648

/-- The C `atoi` on the bytes from the pointer on; a value outside `int` is undefined
behaviour (`none`). -/
def atoi (s : List Nat) : Option Int :=
  (atoi_space s).bind (fun v => if INT_MIN ≤ v ∧ v ≤ INT_MAX then some v else none)

/-- The call `pow(10, e)` for an integer exponent, as an exact rational. -/
def pow10 (e : Int) : ℚ :=
  if 0 ≤ e then (10 : ℚ) ^ e.toNat else 1 / (10 : ℚ) ^ (-e).toNat

/-- Conversion of an `int` to `int16_t` (wrap modulo 2^16). -/
def to_int16 (v : Int) : Int := (v + 32768) % 65536 - 32768

/-! ## Binary floating point (`float`, `double`) -/

/-- The power `2^e` for an integer exponent, as an exact rational. -/
def pow2 (e : Int) : ℚ :=
  if 0 ≤ e then (2 : ℚ) ^ e.toNat else 1 / (2 : ℚ) ^ (-e).toNat

/-- Number of halvings that bring `n` below 2; the first argument bounds the number of
halvings. -/
def log2_loop : Nat → Nat → Nat
  | 0, _ => 0
  | fuel + 1, n => if n < 2 then 0 else log2_loop fuel (n / 2) + 1

/-- The binary exponent of a rational other than 0: the `e` with `2^e ≤ |q| < 2^(e+1)`
(`binary_exponent_spec`). -/
def binary_exponent (q : ℚ) : Int :=
  let e : Int := (log2_loop q.num.natAbs q.num.natAbs : Int) - (log2_loop q.den q.den : Int)
  if |q| < pow2 e then e - 1 else e

/-- The integer nearest to `m`, the even one of the two when `m` lies half way. -/
def round_half_even (m : ℚ) : Int :=
  if m - ⌊m⌋ < 1 / 2 then ⌊m⌋
  else if 1 / 2 < m - ⌊m⌋ then ⌊m⌋ + 1
  else if ⌊m⌋ % 2 = 0 then ⌊m⌋ else ⌊m⌋ + 1

/-- The number with a significand of `p` bits that is nearest to `q`, ties to the even
significand: the rounding of the IEEE 754 arithmetic of the target. The exponent range is
not bounded: the numbers converted in `parse_NMEA.c` are sums and quotients of `int`
values and of powers of ten between `10^-12` and `10^12`, far inside the normal range of
`float` and of `double`. -/
def round_binary (p : Nat) (q : ℚ) : ℚ :=
  if q = 0 then 0
  else (round_half_even (q / pow2 (binary_exponent q - ((p : Int) - 1))) : ℚ)
    * pow2 (binary_exponent q - ((p : Int) - 1))

/-- The result of a `double` operation whose exact result is `q` (53-bit significand). -/
def to_double (q : ℚ) : ℚ := round_binary 53 q

/-- The conversion of a `double` to `float` (24-bit significand). -/
def to_float (q : ℚ) : ℚ := round_binary 24 q

/-- The expression `num + (dec / pow(10, declen))` assigned to a `float`: `pow` returns a
`double`, the `int` operands are converted to `double` without loss, the quotient and the
sum are `double` operations, and the assignment narrows the sum to `float`. -/
def float_sum (num dec declen : Int) : ℚ :=
  to_float (to_double ((num : ℚ) + to_double ((dec : ℚ) / to_double (pow10 declen))))

/-! ## `parse_NMEA.h` -/

/-- The macro `GMT`. -/
def GMT : Int := 500

/-- The record `GGASTRUCT`. -/
structure GGASTRUCT where
  latitude : ℚ
  NS : Nat
  longitude : ℚ
  EW : Nat
  hour : Int
  min : Int
  sec : Int
  fixbit_gga : Int
  altitude : ℚ
  unit : Nat
  numofsat : Int
deriving DecidableEq, Repr

/-- The record `RMCSTRUCT`. -/
structure RMCSTRUCT where
  Day : Int
  Mon : Int
  Yr : Int
  speed : ℚ
  course : ℚ
  fixbit_rmc : Int
deriving DecidableEq, Repr

/-! ## Persistence sink (FatFs), as a log of the calls made -/

/-- One FatFs call. `f_write_addr a n` is an `f_write` whose source pointer is the absolute
address `a` (the source passes a `char` where a pointer is expected). -/
inductive SinkOp where
  | f_mount
  | f_open (path : String)
  | f_lseek_end
  | f_puts (text : String)
  | f_write (data : List Nat)
  | f_write_addr (address : Nat) (count : Nat)
  | f_close
deriving DecidableEq, Repr

/-! ## `parse_NMEA.c` -/

/-- The macro `FIX_POS`. -/
def FIX_POS : Nat := 6

/-- The macro `VALID_POS`. -/
def VALID_POS : Nat := 2

/-- The macro `SPEED_POS`. -/
def SPEED_POS : Nat := 7

/-- The loop shared by `gps_fix_check`, `valid_data_check` and `speed_data_check`:
`for (i = ..; i < 60; i++)` counting commas, returning `i + 1` at comma number `pos`
and `-1` when the loop ends. The first argument is the number of iterations left. -/
def comma_loop (pos : Nat) (input_buffer : List Nat) : Nat → Nat → Nat → Option Int
  | 0, _, _ => some (-1)
  | n + 1, i, comma_count =>
    match input_buffer[i]? with
    | none => none
    | some c =>
      if c = 44 then
        if comma_count + 1 = pos then some ((i : Int) + 1)
        else comma_loop pos input_buffer n (i + 1) (comma_count + 1)
      else comma_loop pos input_buffer n (i + 1) comma_count

/-- The function `gps_fix_check`. -/
def gps_fix_check (input_buffer : List Nat) : Option Int :=
  comma_loop FIX_POS input_buffer 60 0 0

/-- The function `valid_data_check`. -/
def valid_data_check (input_buffer : List Nat) : Option Int :=
  comma_loop VALID_POS input_buffer 60 0 0

/-- The function `speed_data_check`. -/
def speed_data_check (input_buffer : List Nat) : Option Int :=
  comma_loop SPEED_POS input_buffer 60 0 0

/-- The loop `for (; input_buffer[index1] != ','; buf[i++] = input_buffer[index1++]);`.
The first argument bounds the number of iterations; a write outside `buf` is `none`. -/
def copy_loop (input_buffer : List Nat) : Nat → Nat → List Nat → Nat → Option (List Nat × Nat)
  | 0, _, _, _ => none
  | fuel + 1, index1, buf, i =>
    match input_buffer[index1]? with
    | none => none
    | some c =>
      if c = 44 then some (buf, index1)
      else if i < buf.length then
        copy_loop input_buffer fuel (index1 + 1) (buf.set i c) (i + 1)
      else none

/-- The copy loop started with `i = 0` on a fresh zeroed 12-byte buffer. Each iteration
advances `index1`, so `length + 1` iterations always suffice to leave the array. -/
def copy_field (input_buffer : List Nat) (index1 : Nat) : Option (List Nat × Nat) :=
  copy_loop input_buffer (input_buffer.length + 1) index1 field_buffer_init 0

/-- The loop `while (input_buffer[index1] != ',') index1++;`. -/
def skip_loop (input_buffer : List Nat) : Nat → Nat → Option Nat
  | 0, _ => none
  | fuel + 1, index1 =>
    match input_buffer[index1]? with
    | none => none
    | some c => if c = 44 then some index1 else skip_loop input_buffer fuel (index1 + 1)

/-- The skip loop with enough iterations to leave the array. -/
def skip_field (input_buffer : List Nat) (index1 : Nat) : Option Nat :=
  skip_loop input_buffer (input_buffer.length + 1) index1

/-- The loop `j = 0; while (buf[j] != '.') j++;`: `none` when the array holds no `'.'`. -/
def find_dot : List Nat → Option Nat
  | [] => none
  | c :: cs => if c = 46 then some 0 else (find_dot cs).map (· + 1)

/-- The expression `(buf[k] - '0') * 10 + (buf[k+1] - '0')` on a 12-byte field buffer. -/
def digit_pair (buf : List Nat) (k : Nat) : Int :=
  ((buf.getD k 0 : Int) - 48) * 10 + ((buf.getD (k + 1) 0 : Int) - 48)

/-- The latitude/longitude conversion block of `GGA_analysis`:
`num / 100.0 + dec / pow(10, declen + 2)`. -/
def degrees_value (buf : List Nat) : Option ℚ := do
  let num ← atoi buf
  let j ← find_dot buf
  let j := j + 1
  let len ← strlen buf
  let declen : Int := (len : Int) - (j : Int)
  let dec ← atoi (buf.drop j)
  pure ((num : ℚ) / 100 + (dec : ℚ) / pow10 (declen + 2))

/-- The altitude conversion block of `GGA_analysis` (lines 195-204):
`float lat = (num) + (dec / pow(10, (declen)))` with `int num`, stored into the `float`
field `gga->altitude`. -/
def altitude_value (buf : List Nat) : Option ℚ := do
  let num ← atoi buf
  let j ← find_dot buf
  let j := j + 1
  let len ← strlen buf
  let declen : Int := (len : Int) - (j : Int)
  let dec ← atoi (buf.drop j)
  pure (float_sum num dec declen)

/-- The speed/course conversion block of `RMC_analysis` (lines 324-333 and 347-356):
`float lat = num + (dec / pow(10, (declen)))` with `int16_t num`, stored into the `float`
field `rmc->speed` or `rmc->course`. -/
def knots_value (buf : List Nat) : Option ℚ := do
  let num ← (atoi buf).map to_int16
  let j ← find_dot buf
  let j := j + 1
  let len ← strlen buf
  let declen : Int := (len : Int) - (j : Int)
  let dec ← atoi (buf.drop j)
  pure (float_sum num dec declen)

/-- The file output at the end of `GGA_analysis` (lines 210-243). -/
def GGA_log (time_buffer latitude_buffer longitude_buffer satellite_buffer
    altitude_buffer : List Nat) (ns ew : Nat) : List SinkOp :=
  [SinkOp.f_mount, SinkOp.f_open "GGA_DATA.txt", SinkOp.f_lseek_end,
   SinkOp.f_puts "Timestamp: ", SinkOp.f_write time_buffer, SinkOp.f_puts "\n",
   SinkOp.f_puts "Latitude: ", SinkOp.f_write latitude_buffer, SinkOp.f_write_addr ns 1,
   SinkOp.f_puts "\n",
   SinkOp.f_puts "Longitude: ", SinkOp.f_write longitude_buffer, SinkOp.f_write_addr ew 1,
   SinkOp.f_puts "\n",
   SinkOp.f_puts "Number of satellites: ", SinkOp.f_write satellite_buffer, SinkOp.f_puts "\n",
   SinkOp.f_puts "Altitude: ", SinkOp.f_write altitude_buffer, SinkOp.f_puts "\n",
   SinkOp.f_close]

/-- The stores to `gga->hour`, `gga->min` and `gga->sec` (lines 117-119). -/
def store_time (gga : GGASTRUCT) (time_buffer : List Nat) : GGASTRUCT :=
  { gga with
    hour := digit_pair time_buffer 0 + GMT / 100 - 12
    min := digit_pair time_buffer 2 + GMT % 100
    sec := digit_pair time_buffer 4 }

/-- Lines 171-243 of `GGA_analysis`: satellite count, HDOP skip, altitude, unit and the
file output. `index1` is the index of the E/W letter. -/
def GGA_altitude (input_buffer : List Nat) (gga : GGASTRUCT) (sink : List SinkOp)
    (time_buffer latitude_buffer longitude_buffer : List Nat) (ns ew : Nat) (index1 : Nat) :
    Option (GGASTRUCT × List SinkOp) := do
  let (satellite_buffer, index1) ← copy_field input_buffer (index1 + 4)
  let sats ← atoi satellite_buffer
  let index1 ← skip_field input_buffer (index1 + 1)
  let (altitude_buffer, index1) ← copy_field input_buffer (index1 + 1)
  let alt ← altitude_value altitude_buffer
  let unit ← rd input_buffer (index1 + 1)
  pure ({ gga with numofsat := sats, altitude := alt, unit := unit },
    sink ++ GGA_log time_buffer latitude_buffer longitude_buffer
      satellite_buffer altitude_buffer ns ew)

/-- Lines 132-169 of `GGA_analysis`: latitude, N/S, longitude, E/W. `index1` is the index
of the comma that ends the latitude field. -/
def GGA_position (input_buffer : List Nat) (gga : GGASTRUCT) (sink : List SinkOp)
    (time_buffer latitude_buffer : List Nat) (index1 : Nat) :
    Option (GGASTRUCT × List SinkOp) := do
  let lat ← degrees_value latitude_buffer
  let store_index_NS := index1 + 1
  let ns ← rd input_buffer store_index_NS
  let (longitude_buffer, index1) ← copy_field input_buffer (store_index_NS + 2)
  let lon ← degrees_value longitude_buffer
  let store_index_EW := index1 + 1
  let ew ← rd input_buffer store_index_EW
  GGA_altitude input_buffer
    { gga with latitude := lat, NS := ns, longitude := lon, EW := ew } sink
    time_buffer latitude_buffer longitude_buffer ns ew store_index_EW

/-- The body of `GGA_analysis` after the fix check: lines 111-130 (time, latitude field,
length check), continued by `GGA_position` and `GGA_altitude`. -/
def GGA_fields (input_buffer : List Nat) (gga : GGASTRUCT) (sink : List SinkOp) :
    Option (GGASTRUCT × List SinkOp) := do
  let (time_buffer, index1) ← copy_field input_buffer 8
  let gga := store_time gga time_buffer
  let (latitude_buffer, index1) ← copy_field input_buffer (index1 + 1)
  let len ← strlen latitude_buffer
  if len < 6 then
    pure (gga, sink)
  else
    GGA_position input_buffer gga sink time_buffer latitude_buffer index1

/-- The function `GGA_analysis`. -/
def GGA_analysis (input_buffer : List Nat) (gga : GGASTRUCT) (sink : List SinkOp) :
    Option (GGASTRUCT × List SinkOp) := do
  let index1 ← gps_fix_check input_buffer
  let fix ← rd input_buffer index1
  if fix = 48 then
    pure ({ gga with fixbit_gga := 0 }, sink)
  else
    GGA_fields input_buffer { gga with fixbit_gga := 1 } sink

/-- The file output at the end of `RMC_analysis` (lines 373-394). -/
def RMC_log (speed_buffer course_buffer date_buffer : List Nat) : List SinkOp :=
  [SinkOp.f_mount, SinkOp.f_open "RMC_DATA.txt", SinkOp.f_lseek_end,
   SinkOp.f_puts "Speed: ", SinkOp.f_write speed_buffer, SinkOp.f_puts "\n",
   SinkOp.f_puts "Course: ", SinkOp.f_write course_buffer, SinkOp.f_puts "\n",
   SinkOp.f_puts "Date: ", SinkOp.f_write date_buffer, SinkOp.f_puts "\n",
   SinkOp.f_close]

/-- The `if (strlen(buf) > 0) ... else ... = 0` block of `RMC_analysis`. -/
def knots_or_zero (buf : List Nat) : Option ℚ := do
  let len ← strlen buf
  if 0 < len then knots_value buf else pure 0

/-- The stores to `rmc->speed`, `rmc->course`, `rmc->Day`, `rmc->Mon` and `rmc->Yr`
(lines 333-371), in one step. -/
def store_velocity (rmc : RMCSTRUCT) (speed course : ℚ) (date_buffer : List Nat) :
    RMCSTRUCT :=
  { rmc with
    speed := speed, course := course,
    Day := digit_pair date_buffer 0
    Mon := digit_pair date_buffer 2
    Yr := digit_pair date_buffer 4 }

/-- The body of `RMC_analysis` after the validity check (lines 314-394). -/
def RMC_fields (input_buffer : List Nat) (rmc : RMCSTRUCT) (sink : List SinkOp) :
    Option (RMCSTRUCT × List SinkOp) := do
  let index1 ← speed_data_check input_buffer
  let index1 ← array_index index1
  let (speed_buffer, index1) ← copy_field input_buffer index1
  let speed ← knots_or_zero speed_buffer
  let (course_buffer, index1) ← copy_field input_buffer (index1 + 1)
  let course ← knots_or_zero course_buffer
  let (date_buffer, _) ← copy_field input_buffer (index1 + 1)
  pure (store_velocity rmc speed course date_buffer,
    sink ++ RMC_log speed_buffer course_buffer date_buffer)

/-- The function `RMC_analysis`. -/
def RMC_analysis (input_buffer : List Nat) (rmc : RMCSTRUCT) (sink : List SinkOp) :
    Option (RMCSTRUCT × List SinkOp) := do
  let index1 ← valid_data_check input_buffer
  let valid ← rd input_buffer index1
  if valid = 65 then
    RMC_fields input_buffer { rmc with fixbit_rmc := 1 } sink
  else
    pure ({ rmc with fixbit_rmc := 0 }, sink)

/-! ## Sample data -/

/-- The position sentence of the scenario. -/
def gga_sample : List Nat :=
  bytes "$GPGGA,123519,4807.038,N,01131.000,E,1,08,0.9,545.4,M,46.9,M,,"

/-- A record holding zeros, the start value of the global `gnssTransfer.GGA`. -/
def gga_zero : GGASTRUCT :=
  ⟨0, 0, 0, 0, 0, 0, 0, 0, 0, 0, 0⟩

/-- A record holding zeros, the start value of the global `gnssTransfer.RMC`. -/
def rmc_zero : RMCSTRUCT :=
  ⟨0, 0, 0, 0, 0, 0⟩

/-- A field as it lies in a 12-byte field buffer after the copy loop: the field bytes, then
the zeros left from the initialiser. -/
def pad (fld : List Nat) : List Nat := fld ++ List.replicate (12 - fld.length) 0

/-- A byte is a decimal digit character. -/
def is_digit (c : Nat) : Prop := 48 ≤ c ∧ c ≤ 57

instance (c : Nat) : Decidable (is_digit c) := by unfold is_digit; infer_instance

/-- Decimal reading of a run of digit characters (the reference value of a digit string). -/
def digits_value (ds : List Nat) : Nat := ds.foldl (fun acc c => acc * 10 + (c - 48)) 0

/-- Decimal value of the text `ip.fp` (digits, a point, digits), as an exact rational. -/
def fixed_point_value (ip fp : List Nat) : ℚ :=
  (digits_value ip : ℚ) + (digits_value fp : ℚ) / (10 : ℚ) ^ fp.length

/-- The `float` that the altitude, speed and course conversions compute for the text
`ip.fp`: integer part plus fraction digits over `10^fractionLength`, as `float_sum`
rounds it. -/
def fixed_point_float (ip fp : List Nat) : ℚ :=
  float_sum (digits_value ip : Int) (digits_value fp : Int) (fp.length : Int)

/-- The text `fld` is `ip.fp`: a nonempty run of digits, a point, a nonempty run of digits. -/
def fixed_point_text (fld ip fp : List Nat) : Prop :=
  fld = ip ++ 46 :: fp ∧ ip ≠ [] ∧ fp ≠ [] ∧ (∀ c ∈ ip, is_digit c) ∧ (∀ c ∈ fp, is_digit c)

instance (fld ip fp : List Nat) : Decidable (fixed_point_text fld ip fp) := by
  unfold fixed_point_text; infer_instance


/-! ## Sentences as texts

The hypotheses of the theorems below describe a sentence by its comma-separated fields.
-/

/-- The bytes `$GPGGA,`. -/
def gga_header : List Nat := [36, 71, 80, 71, 71, 65, 44]

/-- A position sentence as it lies in the buffer handed to `GGA_analysis`. `lead` is what
lies before index 8 (the sentence header, after any byte that precedes the `$`), `time` the
bytes from index 8 up to the next comma; the other fields follow, one comma after each,
`ns`, `ew`, `fix` and `unit` being the one-byte fields. -/
structure GGAText where
  lead : List Nat
  time : List Nat
  lat : List Nat
  ns : Nat
  lon : List Nat
  ew : Nat
  fix : Nat
  sats : List Nat
  hdop : List Nat
  alt : List Nat
  unit : Nat
  rest : List Nat

/-- The part of a position sentence from the fix byte on. -/
def GGAText.tail (t : GGAText) : List Nat :=
  t.fix :: 44 :: (t.sats ++ 44 :: (t.hdop ++ 44 :: (t.alt ++ 44 :: t.unit :: t.rest)))

/-- The bytes of the buffer that holds a position sentence. -/
def GGAText.render (t : GGAText) : List Nat :=
  t.lead ++ (t.time ++ 44 :: (t.lat ++ 44 :: t.ns :: 44 :: (t.lon ++ 44 :: t.ew :: 44 :: t.tail)))

/-- The fields up to the fix byte are framed by the commas of the sentence: eight bytes with
one comma before index 8, no comma inside a field, each field fits its 12-byte buffer. -/
def GGAText.framed (t : GGAText) : Prop :=
  t.lead.length = 8 ∧ t.lead.count 44 = 1 ∧
  44 ∉ t.time ∧ t.time.length ≤ 12 ∧
  44 ∉ t.lat ∧ t.lat.length ≤ 11 ∧ t.ns ≠ 44 ∧
  44 ∉ t.lon ∧ t.lon.length ≤ 11 ∧ t.ew ≠ 44

instance (t : GGAText) : Decidable t.framed := by unfold GGAText.framed; infer_instance

/-- The fields after the fix byte are framed by the commas of the sentence. -/
def GGAText.tail_framed (t : GGAText) : Prop :=
  44 ∉ t.sats ∧ t.sats.length ≤ 11 ∧ 44 ∉ t.hdop ∧ 44 ∉ t.alt ∧ t.alt.length ≤ 11

instance (t : GGAText) : Decidable t.tail_framed := by
  unfold GGAText.tail_framed; infer_instance

/-- A velocity/date sentence as it lies in the buffer handed to `RMC_analysis`: `head` is
what precedes the first comma, `status` the byte after the second comma, and one comma
follows each field. -/
structure RMCText where
  head : List Nat
  time : List Nat
  status : Nat
  lat : List Nat
  ns : List Nat
  lon : List Nat
  ew : List Nat
  speed : List Nat
  course : List Nat
  date : List Nat
  rest : List Nat

/-- The part of a velocity/date sentence from the speed field on. -/
def RMCText.tail (t : RMCText) : List Nat :=
  t.speed ++ 44 :: (t.course ++ 44 :: (t.date ++ 44 :: t.rest))

/-- The bytes of the buffer that holds a velocity/date sentence. -/
def RMCText.render (t : RMCText) : List Nat :=
  t.head ++ 44 :: (t.time ++ 44 :: t.status :: 44 :: (t.lat ++ 44 :: (t.ns ++ 44 ::
    (t.lon ++ 44 :: (t.ew ++ 44 :: t.tail)))))

/-- The fields are framed by the commas of the sentence, the seventh comma lies in the
first 60 bytes, and the speed, course and date fields fit their 12-byte buffers. -/
def RMCText.framed (t : RMCText) : Prop :=
  44 ∉ t.head ∧ 44 ∉ t.time ∧ t.status ≠ 44 ∧ 44 ∉ t.lat ∧ 44 ∉ t.ns ∧ 44 ∉ t.lon ∧
  44 ∉ t.ew ∧
  t.head.length + t.time.length + t.lat.length + t.ns.length + t.lon.length
    + t.ew.length + 7 < 60 ∧
  44 ∉ t.speed ∧ t.speed.length ≤ 11 ∧ 44 ∉ t.course ∧ t.course.length ≤ 11 ∧
  44 ∉ t.date ∧ t.date.length ≤ 12

instance (t : RMCText) : Decidable t.framed := by unfold RMCText.framed; infer_instance

/-- A position sentence with a valid fix, every field well formed: latitude `lat_i.lat_f` of
6 to 11 characters, longitude `lon_i.lon_f`, a satellite count of 1 to 9 digits and an
unsigned altitude `alt_i.alt_f`. -/
def GGAText.well_formed (t : GGAText) (lat_i lat_f lon_i lon_f alt_i alt_f : List Nat) : Prop :=
  t.framed ∧ t.tail_framed ∧ t.fix ≠ 48 ∧
  fixed_point_text t.lat lat_i lat_f ∧ 6 ≤ t.lat.length ∧
  fixed_point_text t.lon lon_i lon_f ∧
  t.sats ≠ [] ∧ (∀ c ∈ t.sats, is_digit c) ∧ t.sats.length ≤ 9 ∧
  fixed_point_text t.alt alt_i alt_f

instance (t : GGAText) (lat_i lat_f lon_i lon_f alt_i alt_f : List Nat) :
    Decidable (t.well_formed lat_i lat_f lon_i lon_f alt_i alt_f) := by
  unfold GGAText.well_formed; infer_instance

/-- The fields of the scenario sentence, as the buffer holds it when the sentence starts at
byte offset 1 (after the byte `b`). -/
def gga_sample_text (b : Nat) : GGAText where
  lead := b :: gga_header
  time := bytes "123519"
  lat := bytes "4807.038"
  ns := 78
  lon := bytes "01131.000"
  ew := 69
  fix := 49
  sats := bytes "08"
  hdop := bytes "0.9"
  alt := bytes "545.4"
  unit := 77
  rest := bytes ",46.9,M,,"

/-- The scenario sentence with the altitude field replaced by `alt`. -/
def gga_sample_alt (alt : String) : List Nat :=
  bytes "$GPGGA,123519,4807.038,N,01131.000,E,1,08,0.9," ++ bytes alt ++ bytes ",M,46.9,M,,"

/-- The record that `GGA_analysis` leaves for the scenario sentence held from byte offset 0;
the altitude is the `float` nearest to 545.4, which is 4467917/8192 = 545.4000244140625. -/
def gga_sample_record : GGASTRUCT :=
  ⟨4807038 / 100000, 78, 1131 / 100, 69, 16, 51, 42, 1, 4467917 / 8192, 77, 8⟩

/-- The record that `GGA_analysis` leaves for the scenario sentence held from byte offset 1. -/
def gga_sample_record_slot : GGASTRUCT :=
  ⟨4807038 / 100000, 78, 1131 / 100, 69, 5, 35, 19, 1, 4467917 / 8192, 77, 8⟩

/-- A speed or course field: empty, or the text `ip.fp` (then `ip` and `fp` name its parts;
for the empty field both are empty). -/
def knots_text (fld ip fp : List Nat) : Prop :=
  (fld = [] ∧ ip = [] ∧ fp = []) ∨ fixed_point_text fld ip fp

instance (fld ip fp : List Nat) : Decidable (knots_text fld ip fp) := by
  unfold knots_text; infer_instance

/-- The velocity/date sentence used as sample, with the given speed and course fields. -/
def rmc_sample_text (speed course : String) : RMCText where
  head := bytes "$GPRMC"
  time := bytes "123519"
  status := 65
  lat := bytes "4807.038"
  ns := bytes "N"
  lon := bytes "01131.000"
  ew := bytes "E"
  speed := bytes speed
  course := bytes course
  date := bytes "230394"
  rest := bytes "003.1,W*6A"

/-- The sample velocity/date sentence. -/
def rmc_sample : List Nat :=
  bytes "$GPRMC,123519,A,4807.038,N,01131.000,E,022.4,084.4,230394,003.1,W*6A"

/-- The scenario sentence reporting no fix (fix byte `0`). -/
def gga_no_fix : List Nat :=
  bytes "$GPGGA,123519,4807.038,N,01131.000,E,0,00,,,M,,M,,"

/-- The fields of the scenario sentence with the latitude field cut to `48.03`. -/
def gga_short_text : GGAText :=
  { gga_sample_text 0 with lat := bytes "48.03" }

/-- The sample velocity/date sentence with the speed field `40000.5`. -/
def rmc_fast : List Nat :=
  bytes "$GPRMC,123519,A,4807.038,N,01131.000,E,40000.5,084.4,230394,003.1,W*6A"

/-! ## Global state

The global variables of `uart.c`, `events.c` and `main.c` that the receive handler and the
window analyzer use, the two switches of byte reception, and the persistence sink.
-/

/-- The record `GPSSTRUCT`. -/
structure GPSSTRUCT where
  GGA : GGASTRUCT
  RMC : RMCSTRUCT
deriving DecidableEq, Repr

/-- A parser call made by the receive handler: which parser, and the index `k` of the slot
`NMEA[k]` passed to it. -/
inductive ParserCall where
  | GGA_analysis (slot : Nat)
  | RMC_analysis (slot : Nat)
deriving DecidableEq, Repr

/-- The state of the device. `NMEA` holds the eight 100-byte arrays `GPRMC`, `GPVTG`,
`GPGGA`, `GPGSA`, `GPGSV1`, `GPGSV2`, `GPGSV3`, `GPGLL` in the order of the pointer table;
`usart2_ue` is bit 13 of `USART2->CR1`, `usart2_irq` the NVIC enable of `USART2_IRQn`;
`parser_calls` records, in order, the parser calls made so far (it is not a variable of
the program). -/
structure Device where
  NMEA : List (List Nat)
  buf_count : Int
  nmea_count : Nat
  uart_incr_ticks : Nat
  even_counter : Nat
  gnssTransfer : GPSSTRUCT
  systick_count : Int
  x_axis_buffer : List Int
  y_axis_buffer : List Int
  z_axis_buffer : List Int
  buff_incr : Nat
  char_buf_avg0 : List Nat
  char_buf_avg1 : List Nat
  char_buf_avg2 : List Nat
  buffer_average : List Int
  buffer_range : List Int
  lane_change : Nat
  irregular_accel : Nat
  rash_driving : Nat
  buffer_min : List Int
  buffer_max : List Int
  usart2_ue : Bool
  usart2_irq : Bool
  sink : List SinkOp
  parser_calls : List ParserCall

/-- The state at start-up: every global variable zero, byte reception off, nothing logged. -/
def Device.init : Device where
  NMEA := List.replicate 8 (List.replicate 100 0)
  buf_count := 0
  nmea_count := 0
  uart_incr_ticks := 0
  even_counter := 0
  gnssTransfer := ⟨gga_zero, rmc_zero⟩
  systick_count := 0
  x_axis_buffer := List.replicate 51 0
  y_axis_buffer := List.replicate 51 0
  z_axis_buffer := List.replicate 51 0
  buff_incr := 0
  char_buf_avg0 := List.replicate 20 0
  char_buf_avg1 := List.replicate 20 0
  char_buf_avg2 := List.replicate 20 0
  buffer_average := List.replicate 3 0
  buffer_range := List.replicate 3 0
  lane_change := 0
  irregular_accel := 0
  rash_driving := 0
  buffer_min := List.replicate 3 0
  buffer_max := List.replicate 3 0
  usart2_ue := false
  usart2_irq := false
  sink := []
  parser_calls := []

/-- The arrays of the sentence buffer set have their declared sizes: eight slots of 100
bytes. -/
def Device.slots_ok (s : Device) : Prop :=
  s.NMEA.length = 8 ∧ ∀ slot ∈ s.NMEA, slot.length = 100

instance (s : Device) : Decidable s.slots_ok := by unfold Device.slots_ok; infer_instance

/-! ## `uart.c` -/

/-- Largest `uint32_t` plus one. -/
def UINT32_MOD : Nat := 4294967296

/-- The store `NMEA[nmea_count][buf_count] = c`: `none` outside the pointer table or
outside the 100-byte array. -/
def slot_store (NMEA : List (List Nat)) (nmea_count : Nat) (buf_count : Int) (c : Nat) :
    Option (List (List Nat)) :=
  (array_index buf_count).bind fun i =>
    (NMEA[nmea_count]?).bind fun slot =>
      if i < slot.length then some (NMEA.set nmea_count (slot.set i c)) else none

/-- Lines 152-164 of `usart2_call`: the parser chosen by `even_counter` runs on its slot,
then `even_counter` and `systick_count` are set. -/
def usart2_dispatch (s : Device) : Option Device :=
  if s.even_counter % 2 = 0 then
    (s.NMEA[2]?).bind fun slot =>
      (GGA_analysis slot s.gnssTransfer.GGA s.sink).map fun r =>
        { s with
          gnssTransfer := { s.gnssTransfer with GGA := r.1 }
          sink := r.2
          even_counter := 1
          systick_count := 0
          parser_calls := s.parser_calls ++ [ParserCall.GGA_analysis 2] }
  else
    (s.NMEA[0]?).bind fun slot =>
      (RMC_analysis slot s.gnssTransfer.RMC s.sink).map fun r =>
        { s with
          gnssTransfer := { s.gnssTransfer with RMC := r.1 }
          sink := r.2
          even_counter := 0
          systick_count := 0
          parser_calls := s.parser_calls ++ [ParserCall.RMC_analysis 0] }

/-- Lines 134-168 of `usart2_call`, the branch taken when RXNE is set. `dr` is the value
of the data register `USART2->DR`, which both reads of the handler return. -/
def usart2_rx (dr : Nat) (s : Device) : Option Device :=
  (slot_store s.NMEA s.nmea_count s.buf_count (dr % 256)).bind fun stored =>
    if dr = 10 then
      (slot_store stored s.nmea_count s.buf_count 0).bind fun cut =>
        (slot_store cut s.nmea_count (s.buf_count - 1) 0).bind fun trimmed =>
          if (s.nmea_count + 1) % UINT32_MOD = 8 then
            usart2_dispatch
              { s with
                NMEA := trimmed
                buf_count := 0
                nmea_count := 0
                uart_incr_ticks := (s.uart_incr_ticks + 1) % UINT32_MOD
                usart2_ue := false
                usart2_irq := false }
          else
            some { s with
              NMEA := trimmed
              buf_count := 0 + 1
              nmea_count := (s.nmea_count + 1) % UINT32_MOD }
    else
      some { s with NMEA := stored, buf_count := s.buf_count + 1 }

/-- The function `usart2_call`: `sr_rxne` is the RXNE bit of `USART2->SR`; the TXE branch
is empty. -/
def usart2_call (sr_rxne : Bool) (dr : Nat) (s : Device) : Option Device :=
  if sr_rxne then usart2_rx dr s else some s

/-- The handler run once for each byte of a received stream, in order. -/
def usart2_run : List Nat → Device → Option Device
  | [], s => some s
  | dr :: rest, s => (usart2_call true dr s).bind (usart2_run rest)

/-- The parser calls of `k` completed rounds from start-up, as the source orders them:
`GGA_analysis(NMEA[2], ..)` on even rounds, `RMC_analysis(NMEA[0], ..)` on odd rounds. -/
def alternating_calls (k : Nat) : List ParserCall :=
  (List.range k).map fun i =>
    if i % 2 = 0 then ParserCall.GGA_analysis 2 else ParserCall.RMC_analysis 0

/-- The byte `NMEA[n][i]`. -/
def Device.slot_byte (s : Device) (n i : Nat) : Option Nat :=
  (s.NMEA[n]?).bind fun slot => slot[i]?

/-- The slots after the two stores of lines 139-140 (NUL at byte offsets `k` and `k - 1`
of slot `n`). -/
def trim_slots (NMEA : List (List Nat)) (n k : Nat) : List (List Nat) :=
  NMEA.set n (((NMEA.getD n []).set k 0).set (k - 1) 0)

/-- The state in which lines 152-164 run when a line feed completes a round: slots
trimmed, cursor and slot index reset, round counter incremented, reception off. -/
def Device.round_end (s : Device) : Device :=
  { s with
    NMEA := trim_slots s.NMEA s.nmea_count s.buf_count.toNat
    buf_count := 0
    nmea_count := 0
    uart_incr_ticks := (s.uart_incr_ticks + 1) % UINT32_MOD
    usart2_ue := false
    usart2_irq := false }

/-- The cursor lies inside the sentence buffer set: slot index 0..7, byte offset 0..99. -/
def Device.cursor_ok (s : Device) : Prop :=
  s.nmea_count < 8 ∧ 0 ≤ s.buf_count ∧ s.buf_count < 100

instance (s : Device) : Decidable s.cursor_ok := by unfold Device.cursor_ok; infer_instance

/-- A round of eight sentences, each ended by CR LF, as the receiver sends it: the
velocity/date sentence first, the position sentence third. -/
def round_stream : List Nat :=
  bytes "$GPRMC,123519,A,4807.038,N,01131.000,E,022.4,084.4,230394,003.1,W*6A\r\n"
  ++ bytes "$GPVTG,084.4,T,077.8,M,022.4,N,041.5,K\r\n"
  ++ bytes "$GPGGA,123519,4807.038,N,01131.000,E,1,08,0.9,545.4,M,46.9,M,,\r\n"
  ++ bytes "$GPGSA,A,3,04,05,,09,12,,,24,,,,,2.5,1.3,2.1\r\n"
  ++ bytes "$GPGSV,3,1,11,03,03,111,00,04,15,270,00\r\n"
  ++ bytes "$GPGSV,3,2,11,14,25,170,00,16,57,208,39\r\n"
  ++ bytes "$GPGSV,3,3,11,22,42,067,42,24,40,309,00\r\n"
  ++ bytes "$GPGLL,4807.038,N,01131.000,E,123519,A\r\n"

/-- What the capture cursor holds after `c` line feeds from start-up: the slot index, the
parser calls made and the alternation flag. -/
def Device.after_line_feeds (s : Device) (c : Nat) : Prop :=
  s.nmea_count = c % 8 ∧ s.parser_calls = alternating_calls (c / 8) ∧
  s.even_counter = (c / 8) % 2

/-- The start-up state with the cursor moved to slot `n`, byte offset `k`. -/
def cursor_at (n : Nat) (k : Int) : Device :=
  { Device.init with nmea_count := n, buf_count := k }

/-- The state just before the last line feed of a first round (`round_stream` without its
last byte received from start-up). -/
def round_pending : Device :=
  (usart2_run round_stream.dropLast Device.init).getD Device.init

/-- The state `round_pending` with the round counter at the largest `uint32_t`. -/
def round_pending_max : Device :=
  { round_pending with uart_incr_ticks := 4294967295 }

/-- The handler called once for each entry of a list of register readings
(`sr_rxne`, `dr`), in order. -/
def usart2_calls : List (Bool × Nat) → Device → Option Device
  | [], s => some s
  | step :: rest, s => (usart2_call step.1 step.2 s).bind (usart2_calls rest)

/-- The bytes received in a list of register readings: the data register where RXNE is
set. -/
def received (steps : List (Bool × Nat)) : List Nat :=
  (steps.filter fun step => step.1).map fun step => step.2

/-! ## `events.c` -/

/-- The macro `DATA_VALS`. -/
def DATA_VALS : Nat := 50

/-- The macro `X_HIGH`. -/
def X_HIGH : Int := -20

/-- The macro `X_LOW`. -/
def X_LOW : Int := -70

/-- The macro `Y_HIGH`. -/
def Y_HIGH : Int := -100

/-- The macro `Y_LOW`. -/
def Y_LOW : Int := -140

/-- Largest `uint16_t` plus one. -/
def UINT16_MOD : Nat := 65536

/-- A value of type `int16_t`. -/
def is_int16 (x : Int) : Prop := -32768 ≤ x ∧ x ≤ 32767

instance (x : Int) : Decidable (is_int16 x) := by unfold is_int16; infer_instance

/-- The loop of `buf_analysis` (lines 132-137) over an `int16_t` array: the first argument
is the number of iterations left, then `i`, `minimum_final`, `maximum_final` and `sum`.
The `int32_t` sum of 50 values of 16 bits cannot overflow. -/
def buf_loop (input_buffer : List Int) : Nat → Nat → Int → Int → Int → Option (Int × Int × Int)
  | 0, _, minimum_final, maximum_final, sum => some (minimum_final, maximum_final, sum)
  | n + 1, i, minimum_final, maximum_final, sum =>
    match input_buffer[i]? with
    | none => none
    | some x =>
      buf_loop input_buffer n (i + 1)
        (if minimum_final < x then minimum_final else x)
        (if maximum_final > x then maximum_final else x)
        (sum + x)

/-- The store `a[index] = v` into an `int16_t` array: `none` outside the array. -/
def stat_store (a : List Int) (index : Nat) (v : Int) : Option (List Int) :=
  if index < a.length then some (a.set index v) else none

/-- The function `buf_analysis`. The range and the average are narrowed to `int16_t` when
stored; the division of the sum is the C division, which truncates toward zero. -/
def buf_analysis (input_buffer : List Int) (index : Nat) (s : Device) : Option Device :=
  (input_buffer[0]?).bind fun first =>
    (buf_loop input_buffer DATA_VALS 0 first first 0).bind fun r =>
      (stat_store s.buffer_min index r.1).bind fun mins =>
        (stat_store s.buffer_max index r.2.1).bind fun maxs =>
          (stat_store s.buffer_range index (to_int16 (r.2.1 - r.1))).bind fun ranges =>
            (stat_store s.buffer_average index
                (to_int16 (Int.tdiv r.2.2 (DATA_VALS : Int)))).map fun averages =>
              { s with
                buffer_min := mins
                buffer_max := maxs
                buffer_range := ranges
                buffer_average := averages }

/-- The store `resBuf[i] = c` of `goToAscii`: `none` outside the array; the value is
narrowed to `char`. -/
def ascii_store (resBuf : List Nat) (i : Nat) (c : Int) : Option (List Nat) :=
  if i < resBuf.length then some (resBuf.set i (c % 256).toNat) else none

/-- The `do ... while (number > 0)` loop of `goToAscii` (lines 165-170); the first argument
bounds the number of iterations. Returns the buffer and `i`. -/
def ascii_digits : Nat → Int → List Nat → Nat → Option (List Nat × Nat)
  | 0, _, _, _ => none
  | fuel + 1, number, resBuf, i =>
    (ascii_store resBuf i (Int.tmod number 10 + 48)).bind fun written =>
      if Int.tdiv number 10 > 0 then ascii_digits fuel (Int.tdiv number 10) written (i + 1)
      else some (written, i + 1)

/-- The `while (start < end)` loop of `goToAscii` (lines 184-191); the first argument
bounds the number of iterations. -/
def ascii_reverse : Nat → List Nat → Int → Int → Option (List Nat)
  | 0, _, _, _ => none
  | fuel + 1, resBuf, start, stop =>
    if start < stop then
      (rd resBuf start).bind fun temp =>
        (rd resBuf stop).bind fun last =>
          (ascii_store resBuf start.toNat last).bind fun b1 =>
            (ascii_store b1 stop.toNat temp).bind fun b2 =>
              ascii_reverse fuel b2 (start + 1) (stop - 1)
    else some resBuf

/-- The function `goToAscii`. The negation of `number` is narrowed to `int16_t`. The digit
loop runs at most once per decimal digit, the reversal at most `i` times. -/
def goToAscii (number : Int) (resBuf : List Nat) : Option (List Nat) :=
  let qNegative : Bool := number < 0
  let number := if number < 0 then to_int16 (-number) else number
  (ascii_digits (number.toNat + 1) number resBuf 0).bind fun r =>
    (if qNegative then (ascii_store r.1 r.2 45).map (fun b => (b, r.2 + 1))
      else some (r.1, r.2)).bind fun q =>
      (ascii_store q.1 q.2 0).bind fun ended =>
        ascii_reverse (q.2 + 1) ended 0 ((q.2 : Int) - 1)

/-- The file output of `event_analysis` (lines 77-100). -/
def event_log (char_buf_avg0 char_buf_avg1 char_buf_avg2 : List Nat) : List SinkOp :=
  [SinkOp.f_mount, SinkOp.f_open "Blackbox_Data_Average.txt", SinkOp.f_lseek_end,
   SinkOp.f_puts "The average value over the past 5 seconds for x axis: ",
   SinkOp.f_write char_buf_avg0, SinkOp.f_puts "\n",
   SinkOp.f_puts "The average value over the past 5 seconds for y axis: ",
   SinkOp.f_write char_buf_avg1, SinkOp.f_puts "\n",
   SinkOp.f_puts "The average value over the past 5 seconds for z axis: ",
   SinkOp.f_write char_buf_avg2, SinkOp.f_puts "\n",
   SinkOp.f_close]

/-- Lines 68-70 of `event_analysis`: the three calls of `buf_analysis`. -/
def event_stats (xbuffer ybuffer zbuffer : List Int) (s : Device) : Option Device :=
  (buf_analysis xbuffer 0 s).bind fun s0 =>
    (buf_analysis ybuffer 1 s0).bind fun s1 =>
      buf_analysis zbuffer 2 s1

/-- Lines 72-100 of `event_analysis`: the three calls of `goToAscii` and the file output. -/
def event_strings (s : Device) : Option Device :=
  (s.buffer_average[0]?).bind fun a0 =>
    (s.buffer_average[1]?).bind fun a1 =>
      (s.buffer_average[2]?).bind fun a2 =>
        (goToAscii a0 s.char_buf_avg0).bind fun c0 =>
          (goToAscii a1 s.char_buf_avg1).bind fun c1 =>
            (goToAscii a2 s.char_buf_avg2).map fun c2 =>
              { s with
                char_buf_avg0 := c0
                char_buf_avg1 := c1
                char_buf_avg2 := c2
                sink := s.sink ++ event_log c0 c1 c2 }

/-- Lines 102-117 of `event_analysis`: the three threshold tests; each `uint16_t` counter
is incremented modulo 2^16. -/
def event_counters (s : Device) : Option Device :=
  (s.buffer_average[0]?).bind fun a0 =>
    (s.buffer_average[1]?).map fun a1 =>
      { s with
        lane_change :=
          if a0 > X_HIGH ∨ a0 < X_LOW then (s.lane_change + 1) % UINT16_MOD
          else s.lane_change
        irregular_accel :=
          if a1 > Y_HIGH ∨ a1 < Y_LOW then (s.irregular_accel + 1) % UINT16_MOD
          else s.irregular_accel
        rash_driving :=
          if (a0 > X_HIGH ∨ a0 < X_LOW) ∧ (a1 > Y_HIGH ∨ a1 < Y_LOW) then
            (s.rash_driving + 1) % UINT16_MOD
          else s.rash_driving }

/-- The function `event_analysis`. -/
def event_analysis (xbuffer ybuffer zbuffer : List Int) (s : Device) : Option Device :=
  (event_stats xbuffer ybuffer zbuffer s).bind fun s1 =>
    (event_strings s1).bind event_counters

/-- The statistics arrays and the text buffers of `events.c` have their declared sizes. -/
def Device.stats_ok (s : Device) : Prop :=
  s.buffer_average.length = 3 ∧ s.buffer_range.length = 3 ∧ s.buffer_min.length = 3 ∧
  s.buffer_max.length = 3 ∧ s.char_buf_avg0.length = 20 ∧ s.char_buf_avg1.length = 20 ∧
  s.char_buf_avg2.length = 20

instance (s : Device) : Decidable s.stats_ok := by unfold Device.stats_ok; infer_instance

/-- A batch as `buf_analysis` takes it: at least `DATA_VALS` readings, each an `int16_t`. -/
def is_batch (input_buffer : List Int) : Prop :=
  DATA_VALS ≤ input_buffer.length ∧ ∀ x ∈ input_buffer, is_int16 x

instance (input_buffer : List Int) : Decidable (is_batch input_buffer) := by
  unfold is_batch; infer_instance

/-- The readings that `buf_analysis` scans: the first `DATA_VALS` entries of the array. -/
def samples (input_buffer : List Int) : List Int := input_buffer.take DATA_VALS

/-- A batch of 49 readings -2 and one reading -1: sum -99. -/
def batch_minus_99 : List Int := List.replicate 49 (-2) ++ [-1]

/-- A batch of 49 readings 2 and one reading 1: sum 99. -/
def batch_plus_99 : List Int := List.replicate 49 2 ++ [1]

/-- A batch of mixed signs: 25 readings -300, 24 readings 200 and one reading 7. -/
def batch_mixed : List Int := List.replicate 25 (-300) ++ List.replicate 24 200 ++ [7]

/-- The truncated average of the scanned samples of a batch. -/
def window_average (input_buffer : List Int) : Int := (samples input_buffer).sum.tdiv 50

/-- A window of 50 readings -75 (average -75). -/
def window_minus_75 : List Int := List.replicate 50 (-75)

/-- A window of 50 readings -90 (average -90). -/
def window_minus_90 : List Int := List.replicate 50 (-90)

/-- The start-up state with the three event counters set. -/
def counters_at (lane irregular rash : Nat) : Device :=
  { Device.init with lane_change := lane, irregular_accel := irregular, rash_driving := rash }

/-! ## Further sample batches and states -/

/-- A window of 50 readings -120 (average -120, inside the idle band of the Y axis). -/
def window_minus_120 : List Int := List.replicate 50 (-120)

/-- A batch of 49 readings 20000 and one reading -20000: maximum - minimum is 40000. -/
def batch_swing : List Int := List.replicate 49 20000 ++ [-20000]

/-- The start-up state with the statistics arrays holding other values than zero. -/
def stale_stats : Device :=
  { Device.init with
    buffer_min := [5, -6, 7], buffer_max := [50, 60, 70], buffer_range := [1, 2, 3],
    buffer_average := [-4, 4, 44] }

/-! ## Decimal numerals -/

/-- The decimal digits of `m` as characters, least significant first: what the digit loop
of `goToAscii` writes for `m`. -/
def digit_chars (m : Nat) : List Nat :=
  if m = 0 then [48] else (Nat.digits 10 m).map (· + 48)

/-- A batch of 50 readings -32768, the least `int16_t`. -/
def window_floor : List Int := List.replicate 50 (-32768)

/-! ## Text lines in the sink -/

/-- A labelled, newline-terminated text line as the sink receives it: `f_puts` of the
label, the writes of the line body, `f_puts` of a line feed. -/
def text_line (label : String) (body : List SinkOp) : List SinkOp :=
  SinkOp.f_puts label :: body ++ [SinkOp.f_puts "\n"]

/-- The labels written in a run of sink operations: the texts of the `f_puts` calls other
than the line feeds. -/
def sink_labels (ops : List SinkOp) : List String :=
  ops.filterMap fun op =>
    match op with
    | SinkOp.f_puts text => if text = "\n" then none else some text
    | _ => none

/-- The number of line ends written in a run of sink operations. -/
def sink_line_ends (ops : List SinkOp) : Nat := ops.count (SinkOp.f_puts "\n")

/-! ## Sample slots and analyzer data -/

/-- A sentence slot as the receive handler leaves it: byte 0 untouched, the scenario
sentence from byte offset 1, zeros up to the 100 bytes of the array. -/
def slot_sample : List Nat := 0 :: gga_sample ++ List.replicate 37 0

/-- A 100-byte slot without any comma. -/
def slot_blank : List Nat := List.replicate 100 0

/-- The start-up state with analyzer data other than zero: batches, statistics and event
counters as a window analysis may have left them. -/
def analyzed : Device :=
  { Device.init with
    x_axis_buffer := List.replicate 51 (-75)
    y_axis_buffer := List.replicate 51 (-90)
    z_axis_buffer := List.replicate 51 2090
    buffer_min := [-75, -90, 2090], buffer_max := [-75, -90, 2090]
    buffer_range := [0, 0, 0], buffer_average := [-75, -90, 2090]
    lane_change := 3, irregular_accel := 2, rash_driving := 1 }

/-- The state `round_pending` (a first round received but for its last line feed) with
the analyzer data of `analyzed`. -/
def round_pending_analyzed : Device :=
  { round_pending with
    x_axis_buffer := analyzed.x_axis_buffer
    y_axis_buffer := analyzed.y_axis_buffer
    z_axis_buffer := analyzed.z_axis_buffer
    buffer_min := analyzed.buffer_min, buffer_max := analyzed.buffer_max
    buffer_range := analyzed.buffer_range, buffer_average := analyzed.buffer_average
    lane_change := 3, irregular_accel := 2, rash_driving := 1 }

/-- The analyzer data of a state: the three sample batches, the per-axis statistics and
the three event counters. -/
def Device.analyzer_data (s : Device) :
    (List Int × List Int × List Int) × (List Int × List Int × List Int × List Int)
      × (Nat × Nat × Nat) :=
  ((s.x_axis_buffer, s.y_axis_buffer, s.z_axis_buffer),
   (s.buffer_min, s.buffer_max, s.buffer_range, s.buffer_average),
   (s.lane_change, s.irregular_accel, s.rash_driving))

/-! ## Stores of the receive handler, sentences and rounds -/

/-- The places (slot index, byte offset) that one call of the handler with RXNE set stores
to: `NMEA[nmea_count][buf_count]` (line 136) and, on a line feed, `NMEA[nmea_count][buf_count]`
and `NMEA[nmea_count][buf_count - 1]` (lines 139-140). -/
def usart2_stores (dr : Nat) (s : Device) : List (Nat × Int) :=
  (s.nmea_count, s.buf_count) ::
    (if dr = 10 then [(s.nmea_count, s.buf_count), (s.nmea_count, s.buf_count - 1)] else [])

/-- The places stored to while the handler runs over a byte stream, up to the first call
that does not return. -/
def usart2_trace : List Nat → Device → List (Nat × Int)
  | [], _ => []
  | dr :: rest, s =>
    usart2_stores dr s ++
      (match usart2_call true dr s with
       | some s2 => usart2_trace rest s2
       | none => [])

/-- The body of a sentence (what precedes its CR LF) as the receiver sends it: no line
feed inside, 8-bit values, and short enough for the slot (with CR, LF and the offset 1 of
the slots 1..7 at most 100 bytes). -/
def sentence_ok (l : List Nat) : Prop :=
  10 ∉ l ∧ (∀ c ∈ l, c < 256) ∧ l.length ≤ 97

instance (l : List Nat) : Decidable (sentence_ok l) := by unfold sentence_ok; infer_instance

/-- The byte stream of a run of sentences, each followed by CR LF. -/
def round_bytes : List (List Nat) → List Nat
  | [] => []
  | l :: ls => l ++ 13 :: 10 :: round_bytes ls

/-- The byte offset at which the capture of a sentence starts in slot `n`, as the handler
leaves the cursor: 0 in slot 0 (after a completed round or at start-up), 1 in the slots
1..7. -/
def start_offset (n : Nat) : Nat := if n = 0 then 0 else 1

/-- The content of a slot after the capture of the sentence `l` from byte offset `k`: the
bytes before `k` kept, the sentence, two NUL (over CR and LF), the rest of the slot kept. -/
def captured (slot : List Nat) (k : Nat) (l : List Nat) : List Nat :=
  slot.take k ++ l ++ 0 :: 0 :: slot.drop (k + l.length + 2)

/-- The slots after the capture of the sentences `ls` in the slots `n`, `n + 1`, ... -/
def capture_slots (NMEA : List (List Nat)) : Nat → List (List Nat) → List (List Nat)
  | _, [] => NMEA
  | n, l :: ls =>
    capture_slots (NMEA.set n (captured (NMEA.getD n []) (start_offset n) l)) (n + 1) ls

/-- The state in which the parser dispatch runs at the end of a round that started in
state `s` and brought the sentences `ls`. -/
def round_state (s : Device) (ls : List (List Nat)) : Device :=
  { s with
    NMEA := capture_slots s.NMEA 0 ls
    buf_count := 0
    nmea_count := 0
    uart_incr_ticks := (s.uart_incr_ticks + 1) % UINT32_MOD
    usart2_ue := false
    usart2_irq := false }

/-- The byte stream of a run of rounds. -/
def stream_bytes : List (List (List Nat)) → List Nat
  | [] => []
  | r :: rs => round_bytes r ++ stream_bytes rs

/-- A round as the receiver sends it: eight sentences, each a sentence body as
`sentence_ok` describes. -/
def round_ok (r : List (List Nat)) : Prop := r.length = 8 ∧ ∀ l ∈ r, sentence_ok l

instance (r : List (List Nat)) : Decidable (round_ok r) := by unfold round_ok; infer_instance

/-- The eight sentence bodies of `round_stream`. -/
def sample_round : List (List Nat) :=
  [bytes "$GPRMC,123519,A,4807.038,N,01131.000,E,022.4,084.4,230394,003.1,W*6A",
   bytes "$GPVTG,084.4,T,077.8,M,022.4,N,041.5,K",
   bytes "$GPGGA,123519,4807.038,N,01131.000,E,1,08,0.9,545.4,M,46.9,M,,",
   bytes "$GPGSA,A,3,04,05,,09,12,,,24,,,,,2.5,1.3,2.1",
   bytes "$GPGSV,3,1,11,03,03,111,00,04,15,270,00",
   bytes "$GPGSV,3,2,11,14,25,170,00,16,57,208,39",
   bytes "$GPGSV,3,3,11,22,42,067,42,24,40,309,00",
   bytes "$GPGLL,4807.038,N,01131.000,E,123519,A"]

/-- The fields of the scenario sentence as slot 2 holds it after the capture of
`sample_round` from start-up: byte 0 of the slot, the sentence, the two NUL and the rest of
the slot. -/
def gga_captured_text : GGAText :=
  { gga_sample_text 0 with rest := bytes ",46.9,M,," ++ List.replicate 37 0 }

/-! ## `main.c` -/

/-- The function `MPU6050_Read_Accel` (lines 181-197); `Rx_data` is the array the sensor
read fills (six `uint8_t`). The stores `x_axis_buffer[buff_incr] = ..` are `none` outside
the 51-entry arrays; `systick_count` is an `int16_t`, `buff_incr` a `uint8_t`. The floats
`Ax`, `Ay`, `Az` are read nowhere and are left out. -/
def MPU6050_Read_Accel (Rx_data : List Nat) (s : Device) : Option Device :=
  (Rx_data[0]?).bind fun d0 =>
    (Rx_data[1]?).bind fun d1 =>
      (Rx_data[2]?).bind fun d2 =>
        (Rx_data[3]?).bind fun d3 =>
          (Rx_data[4]?).bind fun d4 =>
            (Rx_data[5]?).bind fun d5 =>
              let Accel_X_RAW := to_int16 (((d0 % 256) <<< 8 ||| (d1 % 256) : Nat) : Int)
              let Accel_Y_RAW := to_int16 (((d2 % 256) <<< 8 ||| (d3 % 256) : Nat) : Int)
              let Accel_Z_RAW := to_int16 (((d4 % 256) <<< 8 ||| (d5 % 256) : Nat) : Int)
              (stat_store s.x_axis_buffer s.buff_incr Accel_X_RAW).bind fun xs =>
                (stat_store s.y_axis_buffer s.buff_incr Accel_Y_RAW).bind fun ys =>
                  (stat_store s.z_axis_buffer s.buff_incr Accel_Z_RAW).map fun zs =>
                    { s with
                      systick_count := to_int16 (s.systick_count + 1)
                      x_axis_buffer := xs
                      y_axis_buffer := ys
                      z_axis_buffer := zs
                      buff_incr := (s.buff_incr + 1) % 256 }

/-- One pass of the `while (1)` loop of `main` (lines 130-142); `Rx_data` is what the
sensor returns in this pass. `delay_ms_systick` changes no variable of the state. -/
def main_loop (Rx_data : List Nat) (s : Device) : Option Device :=
  (if s.systick_count = 50 then
    (event_analysis s.x_axis_buffer s.y_axis_buffer s.z_axis_buffer s).map fun a =>
      { a with buff_incr := 0, usart2_ue := true, usart2_irq := true }
  else some s).bind (MPU6050_Read_Accel Rx_data)

/-! ## Executions of the sampling loop and the receive handler -/

/-- What happens next on the device: the main loop makes one pass, or the receiver
delivers one byte during the delay of the loop. -/
inductive LoopEvent where
  | pass (Rx_data : List Nat)
  | byte (dr : Nat)
deriving DecidableEq, Repr

/-- One event. A byte runs the handler when reception is on (USART enabled and its
interrupt enabled) and is lost otherwise. -/
def loop_event (e : LoopEvent) (s : Device) : Option Device :=
  match e with
  | LoopEvent.pass Rx_data => main_loop Rx_data s
  | LoopEvent.byte dr => if s.usart2_ue ∧ s.usart2_irq then usart2_call true dr s else some s

/-- The events of an execution, in order. -/
def loop_run : List LoopEvent → Device → Option Device
  | [], s => some s
  | e :: rest, s => (loop_event e s).bind (loop_run rest)

/-- The values of `buff_incr` at the calls of `event_analysis` made along an execution, in
order. -/
def analysis_indices : List LoopEvent → Device → List Nat
  | [], _ => []
  | e :: rest, s =>
    (match e with
      | LoopEvent.pass _ => if s.systick_count = 50 then [s.buff_incr] else []
      | LoopEvent.byte _ => []) ++
    match loop_event e s with
    | some s2 => analysis_indices rest s2
    | none => []

/-- The array indices at which `MPU6050_Read_Accel` stores along an execution, in order
(a store outside the array included). -/
def sample_indices : List LoopEvent → Device → List Nat
  | [], _ => []
  | e :: rest, s =>
    (match e with
      | LoopEvent.pass _ => [if s.systick_count = 50 then 0 else s.buff_incr]
      | LoopEvent.byte _ => []) ++
    match loop_event e s with
    | some s2 => sample_indices rest s2
    | none => []

/-- A sensor reading: X = -75, Y = -90, Z = 2090. -/
def sample_reading : List Nat := [255, 181, 255, 166, 8, 42]

/-- The loop makes `n` passes, each with the reading `sample_reading`. -/
def passes (n : Nat) : List LoopEvent := List.replicate n (LoopEvent.pass sample_reading)

/-- The receiver delivers the round `round_stream`. -/
def round_events : List LoopEvent := round_stream.map LoopEvent.byte

/-- The round completes after one sample of the second window. -/
def schedule_one : List LoopEvent := passes 51 ++ round_events ++ passes 51

/-- The bytes 96 i .. 96 i + 95 of the round, as the receiver delivers them during one
delay of the loop. -/
def round_chunk (i : Nat) : List LoopEvent :=
  ((round_stream.drop (96 * i)).take 96).map LoopEvent.byte

/-- The round arrives during four delays of the loop and completes after four samples of
the second window; `n` passes follow. -/
def schedule_two (n : Nat) : List LoopEvent :=
  passes 51 ++ round_chunk 0 ++ passes 1 ++ round_chunk 1 ++ passes 1 ++ round_chunk 2 ++
    passes 1 ++ round_chunk 3 ++ passes n

/-! ## Streams of lines, and further sample data -/

/-- The body of a line (the bytes before its line feed) of a stream in which a line, line
feed included, is 2 to 99 bytes long. -/
def line_ok (l : List Nat) : Prop := 10 ∉ l ∧ 1 ≤ l.length ∧ l.length ≤ 98

instance (l : List Nat) : Decidable (line_ok l) := by unfold line_ok; infer_instance

/-- The byte stream of a run of lines, each followed by its line feed. -/
def line_stream : List (List Nat) → List Nat
  | [] => []
  | l :: ls => l ++ 10 :: line_stream ls

/-- The eight lines of `round_stream`, each with its CR. -/
def sample_lines : List (List Nat) := sample_round.map fun l => l ++ [13]

/-- Every number that `atoi` reads in a 12-byte field buffer, from the start of the buffer
or from a later byte of it, is an `int`: no call of `atoi` on the buffer overflows. -/
def atoi_in_range (buf : List Nat) : Prop :=
  ∀ k ≤ 11, ∀ v ∈ atoi_space (buf.drop k), INT_MIN ≤ v ∧ v ≤ INT_MAX

instance (buf : List Nat) : Decidable (atoi_in_range buf) := by
  unfold atoi_in_range; infer_instance

/-- A slot that holds the short sentence `$GPGGA,123519` and its two NUL over the scenario
sentence of an earlier round, whose bytes from index 15 on are still there. -/
def slot_stale : List Nat :=
  bytes "$GPGGA,123519" ++ [0, 0] ++ gga_sample.drop 15 ++ List.replicate 38 0

/-- A slot that holds the short sentence `$GPGGA,123519` and NUL bytes after it. -/
def slot_fresh : List Nat := bytes "$GPGGA,123519" ++ List.replicate 87 0

/-- A window of 50 readings 2090 (the idle reading of the Z axis). -/
def window_2090 : List Int := List.replicate 50 2090

/-- The state `stale_stats` with the event counters 7, 8 and 9. -/
def stale_counters : Device :=
  { stale_stats with lane_change := 7, irregular_accel := 8, rash_driving := 9 }

/-! ## `GGA_analysis` with the overflow of `atoi` left open -/

/-- The library function `atoi` with its result for a number outside `int` left open: C
leaves that result undefined, and `ovf` stands for whatever `int` the library gives for
the number `v` read. The scan of the bytes is that of `atoi`. -/
def atoi_any (ovf : Int → Int) (s : List Nat) : Option Int :=
  (atoi_space s).map fun v => if INT_MIN ≤ v ∧ v ≤ INT_MAX then v else ovf v

/-- The latitude/longitude conversion block, as `degrees_value`, with `atoi_any`. -/
def degrees_value_any (ovf : Int → Int) (buf : List Nat) : Option ℚ := do
  let num ← atoi_any ovf buf
  let j ← find_dot buf
  let j := j + 1
  let len ← strlen buf
  let declen : Int := (len : Int) - (j : Int)
  let dec ← atoi_any ovf (buf.drop j)
  pure ((num : ℚ) / 100 + (dec : ℚ) / pow10 (declen + 2))

/-- The altitude conversion block, as `altitude_value`, with `atoi_any`. -/
def altitude_value_any (ovf : Int → Int) (buf : List Nat) : Option ℚ := do
  let num ← atoi_any ovf buf
  let j ← find_dot buf
  let j := j + 1
  let len ← strlen buf
  let declen : Int := (len : Int) - (j : Int)
  let dec ← atoi_any ovf (buf.drop j)
  pure (float_sum num dec declen)

/-- Lines 171-243 of `GGA_analysis`, as `GGA_altitude`, with `atoi_any`. -/
def GGA_altitude_any (ovf : Int → Int) (input_buffer : List Nat) (gga : GGASTRUCT)
    (sink : List SinkOp) (time_buffer latitude_buffer longitude_buffer : List Nat)
    (ns ew : Nat) (index1 : Nat) : Option (GGASTRUCT × List SinkOp) := do
  let (satellite_buffer, index1) ← copy_field input_buffer (index1 + 4)
  let sats ← atoi_any ovf satellite_buffer
  let index1 ← skip_field input_buffer (index1 + 1)
  let (altitude_buffer, index1) ← copy_field input_buffer (index1 + 1)
  let alt ← altitude_value_any ovf altitude_buffer
  let unit ← rd input_buffer (index1 + 1)
  pure ({ gga with numofsat := sats, altitude := alt, unit := unit },
    sink ++ GGA_log time_buffer latitude_buffer longitude_buffer
      satellite_buffer altitude_buffer ns ew)

/-- Lines 132-169 of `GGA_analysis`, as `GGA_position`, with `atoi_any`. -/
def GGA_position_any (ovf : Int → Int) (input_buffer : List Nat) (gga : GGASTRUCT)
    (sink : List SinkOp) (time_buffer latitude_buffer : List Nat) (index1 : Nat) :
    Option (GGASTRUCT × List SinkOp) := do
  let lat ← degrees_value_any ovf latitude_buffer
  let store_index_NS := index1 + 1
  let ns ← rd input_buffer store_index_NS
  let (longitude_buffer, index1) ← copy_field input_buffer (store_index_NS + 2)
  let lon ← degrees_value_any ovf longitude_buffer
  let store_index_EW := index1 + 1
  let ew ← rd input_buffer store_index_EW
  GGA_altitude_any ovf input_buffer
    { gga with latitude := lat, NS := ns, longitude := lon, EW := ew } sink
    time_buffer latitude_buffer longitude_buffer ns ew store_index_EW

/-- The body of `GGA_analysis` after the fix check, as `GGA_fields`, with `atoi_any`. -/
def GGA_fields_any (ovf : Int → Int) (input_buffer : List Nat) (gga : GGASTRUCT)
    (sink : List SinkOp) : Option (GGASTRUCT × List SinkOp) := do
  let (time_buffer, index1) ← copy_field input_buffer 8
  let gga := store_time gga time_buffer
  let (latitude_buffer, index1) ← copy_field input_buffer (index1 + 1)
  let len ← strlen latitude_buffer
  if len < 6 then
    pure (gga, sink)
  else
    GGA_position_any ovf input_buffer gga sink time_buffer latitude_buffer index1

/-- The function `GGA_analysis` with the result of an overflowing `atoi` left open: the
same statements in the same order as `GGA_analysis`, every array access `none` outside
its array, and `atoi_any ovf` where the source calls `atoi`. It has a result exactly when
every index used is inside its array and every loop ends; where `GGA_analysis` has a
result it has the same one (`GGA_analysis_any_extends`). -/
def GGA_analysis_any (ovf : Int → Int) (input_buffer : List Nat) (gga : GGASTRUCT)
    (sink : List SinkOp) : Option (GGASTRUCT × List SinkOp) := do
  let index1 ← gps_fix_check input_buffer
  let fix ← rd input_buffer index1
  if fix = 48 then
    pure ({ gga with fixbit_gga := 0 }, sink)
  else
    GGA_fields_any ovf input_buffer { gga with fixbit_gga := 1 } sink

/-- The fields of the scenario sentence with the satellite field `99999999999`, a number
outside `int`. -/
def gga_overflow_text : GGAText :=
  { gga_sample_text 0 with sats := bytes "99999999999" }

/-! ## Lemmas on the memory model -/

theorem drop_head {l : List Nat} {k c : Nat} {t : List Nat} (h : l.drop k = c :: t) :
    l[k]? = some c ∧ l.drop (k + 1) = t := by
  constructor
  · have := List.getElem?_drop l k 0
    rw [h] at this
    simpa using this.symm
  · have : l.drop (k + 1) = (l.drop k).drop 1 := by rw [List.drop_drop]
    rw [this, h]; rfl

theorem drop_append_len {l : List Nat} {k : Nat} {a b : List Nat} (h : l.drop k = a ++ b) :
    l.drop (k + a.length) = b := by
  have : l.drop (k + a.length) = (l.drop k).drop a.length := by rw [List.drop_drop]
  rw [this, h]; simp

theorem copy_loop_spec (input rest : List Nat) (fld : List Nat) :
    ∀ (fuel index1 : Nat) (pre zs : List Nat), 44 ∉ fld →
      input.drop index1 = fld ++ 44 :: rest → fld.length < fuel → fld.length ≤ zs.length →
      copy_loop input fuel index1 (pre ++ zs) pre.length
        = some (pre ++ fld ++ zs.drop fld.length, index1 + fld.length) := by
  induction fld with
  | nil =>
    intro fuel index1 pre zs _ hd hf _
    obtain ⟨n, rfl⟩ : ∃ n, fuel = n + 1 := ⟨fuel - 1, by simp at hf; omega⟩
    have h := (drop_head (by simpa using hd)).1
    simp [copy_loop, h]
  | cons c cs ih =>
    intro fuel index1 pre zs h44 hd hf hz
    obtain ⟨n, rfl⟩ : ∃ n, fuel = n + 1 := ⟨fuel - 1, by simp at hf; omega⟩
    have hc : c ≠ 44 := fun e => h44 (by simp [e])
    have h44t : 44 ∉ cs := fun e => h44 (by simp [e])
    obtain ⟨h1, h2⟩ := drop_head (by simpa using hd)
    cases zs with
    | nil => simp at hz
    | cons z zs =>
      have hset : (pre ++ z :: zs).set pre.length c = (pre ++ [c]) ++ zs := by
        simp [List.set_append]
      have hlen : pre.length < (pre ++ z :: zs).length := by simp
      rw [copy_loop]
      simp only [h1, hc, if_false, hlen, if_true, hset]
      have := ih n (index1 + 1) (pre ++ [c]) zs h44t h2 (by simp at hf; omega)
        (by simp at hz; omega)
      simp only [List.length_append, List.length_singleton] at this
      rw [this]
      simp [Nat.add_assoc, Nat.add_comm 1]

theorem copy_field_spec {input : List Nat} {index1 : Nat} {fld rest : List Nat}
    (hd : input.drop index1 = fld ++ 44 :: rest) (h44 : 44 ∉ fld) (hlen : fld.length ≤ 12) :
    copy_field input index1 = some (pad fld, index1 + fld.length) := by
  have hl : fld.length < input.length + 1 := by
    have := congrArg List.length hd
    simp at this; omega
  have := copy_loop_spec input rest fld (input.length + 1) index1 [] field_buffer_init h44 hd hl
    (by simp [field_buffer_init]; exact hlen)
  simp only [List.length_nil, List.nil_append] at this
  rw [copy_field, this, pad]
  simp only [field_buffer_init, List.drop_replicate]

theorem skip_loop_spec (input rest : List Nat) (fld : List Nat) :
    ∀ (fuel index1 : Nat), 44 ∉ fld →
      input.drop index1 = fld ++ 44 :: rest → fld.length < fuel →
      skip_loop input fuel index1 = some (index1 + fld.length) := by
  induction fld with
  | nil =>
    intro fuel index1 _ hd hf
    obtain ⟨n, rfl⟩ : ∃ n, fuel = n + 1 := ⟨fuel - 1, by simp at hf; omega⟩
    have h := (drop_head (by simpa using hd)).1
    simp [skip_loop, h]
  | cons c cs ih =>
    intro fuel index1 h44 hd hf
    obtain ⟨n, rfl⟩ : ∃ n, fuel = n + 1 := ⟨fuel - 1, by simp at hf; omega⟩
    have hc : c ≠ 44 := fun e => h44 (by simp [e])
    have h44t : 44 ∉ cs := fun e => h44 (by simp [e])
    obtain ⟨h1, h2⟩ := drop_head (by simpa using hd)
    rw [skip_loop]
    simp only [h1, hc, if_false]
    rw [ih n (index1 + 1) h44t h2 (by simp at hf; omega)]
    simp [Nat.add_assoc, Nat.add_comm 1]

theorem skip_field_spec {input : List Nat} {index1 : Nat} {fld rest : List Nat}
    (hd : input.drop index1 = fld ++ 44 :: rest) (h44 : 44 ∉ fld) :
    skip_field input index1 = some (index1 + fld.length) := by
  have hl : fld.length < input.length + 1 := by
    have := congrArg List.length hd
    simp at this; omega
  exact skip_loop_spec input rest fld _ index1 h44 hd hl

theorem comma_loop_spec (pos : Nat) (input rest : List Nat) (p : List Nat) :
    ∀ (n i cc : Nat), input.drop i = p ++ 44 :: rest → p.count 44 + cc + 1 = pos →
      p.length < n →
      comma_loop pos input n i cc = some ((i : Int) + p.length + 1) := by
  induction p with
  | nil =>
    intro n i cc hd hc hn
    obtain ⟨m, rfl⟩ : ∃ m, n = m + 1 := ⟨n - 1, by simp at hn; omega⟩
    have h := (drop_head (by simpa using hd)).1
    have : cc + 1 = pos := by simpa using hc
    simp [comma_loop, h, this]
  | cons c cs ih =>
    intro n i cc hd hc hn
    obtain ⟨m, rfl⟩ : ∃ m, n = m + 1 := ⟨n - 1, by simp at hn; omega⟩
    obtain ⟨h1, h2⟩ := drop_head (by simpa using hd)
    rw [comma_loop]
    simp only [h1]
    by_cases hc44 : c = 44
    · subst hc44
      have hcnt : cs.count 44 + (cc + 1) + 1 = pos := by
        simp [List.count_cons] at hc; omega
      have hne : ¬ cc + 1 = pos := by omega
      simp only [if_true, hne, if_false]
      rw [ih m (i + 1) (cc + 1) h2 hcnt (by simp at hn; omega)]
      simp; ring
    · have hcnt : cs.count 44 + cc + 1 = pos := by
        simp [List.count_cons, hc44] at hc; omega
      simp only [hc44, if_false]
      rw [ih m (i + 1) cc h2 hcnt (by simp at hn; omega)]
      simp; ring

/-! ## Lemmas on the library functions -/

theorem pad_eq {fld : List Nat} (h : fld.length ≤ 11) :
    pad fld = fld ++ 0 :: List.replicate (11 - fld.length) 0 := by
  have : 12 - fld.length = (11 - fld.length) + 1 := by omega
  rw [pad, this, List.replicate_succ]

theorem pad_length {fld : List Nat} (h : fld.length ≤ 12) : (pad fld).length = 12 := by
  simp [pad]; omega

theorem strlen_spec (fld t : List Nat) (h0 : 0 ∉ fld) :
    strlen (fld ++ 0 :: t) = some fld.length := by
  induction fld with
  | nil => simp [strlen]
  | cons c cs ih =>
    have hc : c ≠ 0 := fun e => h0 (by simp [e])
    have h0t : 0 ∉ cs := fun e => h0 (by simp [e])
    simp [strlen, hc, ih h0t]

theorem strlen_le (fld t : List Nat) :
    ∃ n, strlen (fld ++ 0 :: t) = some n ∧ n ≤ fld.length := by
  induction fld with
  | nil => exact ⟨0, by simp [strlen]⟩
  | cons c cs ih =>
    obtain ⟨n, hn, hle⟩ := ih
    by_cases hc : c = 0
    · exact ⟨0, by simp [strlen, hc]⟩
    · exact ⟨n + 1, by simp [strlen, hc, hn], by simp; omega⟩

theorem find_dot_spec (ip t : List Nat) (h : 46 ∉ ip) :
    find_dot (ip ++ 46 :: t) = some ip.length := by
  induction ip with
  | nil => simp [find_dot]
  | cons c cs ih =>
    have hc : c ≠ 46 := fun e => h (by simp [e])
    have ht : 46 ∉ cs := fun e => h (by simp [e])
    simp [find_dot, hc, ih ht]

theorem atoi_digits_spec (ds : List Nat) (x : Nat) (t : List Nat)
    (hd : ∀ c ∈ ds, is_digit c) (hx : ¬ is_digit x) :
    ∀ acc, atoi_digits (ds ++ x :: t) acc
      = some (ds.foldl (fun acc c => acc * 10 + (c - 48)) acc) := by
  induction ds with
  | nil =>
    intro acc
    have : ¬ (48 ≤ x ∧ x ≤ 57) := hx
    simp [atoi_digits, this]
  | cons c cs ih =>
    intro acc
    have hc : 48 ≤ c ∧ c ≤ 57 := hd c (by simp)
    have := ih (fun d hd2 => hd d (by simp [hd2])) (acc * 10 + (c - 48))
    simp [atoi_digits, hc, this]

theorem foldl_digits_lt (ds : List Nat) (hd : ∀ c ∈ ds, is_digit c) :
    ∀ acc, ds.foldl (fun acc c => acc * 10 + (c - 48)) acc < (acc + 1) * 10 ^ ds.length := by
  induction ds with
  | nil => intro acc; simp
  | cons c cs ih =>
    intro acc
    have hc : 48 ≤ c ∧ c ≤ 57 := hd c (by simp)
    have h1 := ih (fun d hd2 => hd d (by simp [hd2])) (acc * 10 + (c - 48))
    simp only [List.foldl_cons, List.length_cons]
    have h2 : (acc * 10 + (c - 48) + 1) * 10 ^ cs.length ≤ (acc + 1) * 10 ^ (cs.length + 1) := by
      have h3 : acc * 10 + (c - 48) + 1 ≤ (acc + 1) * 10 := by omega
      calc (acc * 10 + (c - 48) + 1) * 10 ^ cs.length
          ≤ ((acc + 1) * 10) * 10 ^ cs.length := Nat.mul_le_mul_right _ h3
        _ = (acc + 1) * 10 ^ (cs.length + 1) := by ring
    omega

theorem digits_value_lt (ds : List Nat) (hd : ∀ c ∈ ds, is_digit c) :
    digits_value ds < 10 ^ ds.length := by
  have := foldl_digits_lt ds hd 0
  simpa [digits_value] using this

theorem digits_value_le_int_max (ds : List Nat) (hd : ∀ c ∈ ds, is_digit c)
    (hlen : ds.length ≤ 9) : (digits_value ds : Int) ≤ INT_MAX := by
  have h1 := digits_value_lt ds hd
  have h2 : 10 ^ ds.length ≤ 10 ^ 9 := Nat.pow_le_pow_right (by norm_num) hlen
  have h3 : digits_value ds < 10 ^ 9 := lt_of_lt_of_le h1 h2
  have h4 : (10 : Nat) ^ 9 = 1000000000 := by norm_num
  unfold INT_MAX
  omega

/-- On a nonempty digit run ended by a non-digit byte, `atoi` returns its decimal reading. -/
theorem atoi_digit_run (ds : List Nat) (x : Nat) (t : List Nat) (hne : ds ≠ [])
    (hd : ∀ c ∈ ds, is_digit c) (hx : ¬ is_digit x) (hlen : ds.length ≤ 9) :
    atoi (ds ++ x :: t) = some (digits_value ds : Int) := by
  cases ds with
  | nil => exact absurd rfl hne
  | cons c cs =>
    have hc : 48 ≤ c ∧ c ≤ 57 := hd c (by simp)
    have hsp : isspace c = false := by
      simp [isspace]; omega
    have h45 : c ≠ 45 := by omega
    have h43 : c ≠ 43 := by omega
    have hrun := atoi_digits_spec (c :: cs) x t hd hx 0
    have hmax := digits_value_le_int_max (c :: cs) hd hlen
    have hmin : INT_MIN ≤ (digits_value (c :: cs) : Int) := by
      unfold INT_MIN; omega
    have hs : atoi_space ((c :: cs) ++ x :: t) = some (digits_value (c :: cs) : Int) := by
      show atoi_space (c :: (cs ++ x :: t)) = _
      rw [atoi_space]
      simp only [hsp, Bool.false_eq_true, if_false]
      rw [atoi_sign]
      simp only [h45, h43, if_false]
      have hrun2 : atoi_digits (c :: (cs ++ x :: t)) 0 = some (digits_value (c :: cs)) := hrun
      rw [hrun2]
      rfl
    unfold atoi
    rw [hs]
    simp [hmax, hmin]

/-- On a field buffer that starts with NUL (an empty field), `atoi` returns 0. -/
theorem atoi_nul (t : List Nat) : atoi (0 :: t) = some 0 := by
  simp [atoi, atoi_space, isspace, atoi_sign, atoi_digits, INT_MIN, INT_MAX]

/-! ## Symbolic runs of the parsers -/

theorem rd_nat (buf : List Nat) (n : Nat) : rd buf (n : Int) = buf[n]? := by
  simp [rd]

theorem rd_succ (buf : List Nat) (n : Nat) : rd buf ((n : Int) + 1) = buf[n + 1]? := by
  have : ((n : Int) + 1) = ((n + 1 : Nat) : Int) := by simp
  rw [this, rd_nat]

theorem GGA_altitude_run {input : List Nat} {index1 : Nat} {ew fix unit : Nat}
    {sats hdop alt rest : List Nat} {n : Int} {al : ℚ}
    (hd : input.drop index1
      = ew :: 44 :: fix :: 44 :: (sats ++ 44 :: (hdop ++ 44 :: (alt ++ 44 :: unit :: rest))))
    (hs : 44 ∉ sats) (hsl : sats.length ≤ 12) (hh : 44 ∉ hdop)
    (ha : 44 ∉ alt) (hal : alt.length ≤ 12)
    (hn : atoi (pad sats) = some n) (hv : altitude_value (pad alt) = some al)
    (gga : GGASTRUCT) (sink : List SinkOp) (tb lab lob : List Nat) (ns ew2 : Nat) :
    GGA_altitude input gga sink tb lab lob ns ew2 index1
      = some ({ gga with numofsat := n, altitude := al, unit := unit },
          sink ++ GGA_log tb lab lob (pad sats) (pad alt) ns ew2) := by
  have h1 := (drop_head hd).2
  have h2 := (drop_head h1).2
  have h3 := (drop_head h2).2
  have h4 := (drop_head h3).2
  have c1 := copy_field_spec h4 hs hsl
  have h5 := (drop_head (drop_append_len h4)).2
  have c2 := skip_field_spec h5 hh
  have h6 := (drop_head (drop_append_len h5)).2
  have c3 := copy_field_spec h6 ha hal
  have h7 := (drop_head (drop_append_len h6)).2
  have c4 := (drop_head h7).1
  simp only [Nat.add_assoc] at c1 c2 c3 c4
  simp only [GGA_altitude, Nat.add_assoc, Nat.reduceAdd, c1, c2, c3, hn, hv, rd_succ, rd_nat,
    Option.bind_eq_bind, Option.some_bind, Option.pure_def]
  rw [c4]
  rfl

theorem GGA_position_run {input : List Nat} {index1 : Nat} {ns ew fix unit : Nat}
    {lon sats hdop alt rest : List Nat} {lo al : ℚ} {n : Int} (la : ℚ) (lab : List Nat)
    (hd : input.drop index1 = 44 :: ns :: 44 :: (lon ++ 44 :: ew :: 44 :: fix :: 44 ::
      (sats ++ 44 :: (hdop ++ 44 :: (alt ++ 44 :: unit :: rest)))))
    (hla : degrees_value lab = some la)
    (hl : 44 ∉ lon) (hll : lon.length ≤ 12) (hlo : degrees_value (pad lon) = some lo)
    (hs : 44 ∉ sats) (hsl : sats.length ≤ 12) (hh : 44 ∉ hdop)
    (ha : 44 ∉ alt) (hal : alt.length ≤ 12)
    (hn : atoi (pad sats) = some n) (hv : altitude_value (pad alt) = some al)
    (gga : GGASTRUCT) (sink : List SinkOp) (tb : List Nat) :
    GGA_position input gga sink tb lab index1
      = some ({ gga with latitude := la, NS := ns, longitude := lo, EW := ew,
                         numofsat := n, altitude := al, unit := unit },
          sink ++ GGA_log tb lab (pad lon) (pad sats) (pad alt) ns ew) := by
  have h1 := drop_head hd
  have h2 := drop_head h1.2
  have h3 := (drop_head h2.2).2
  have c1 := copy_field_spec h3 hl hll
  have h4 := drop_head (drop_append_len h3)
  have h5 := drop_head h4.2
  have run := GGA_altitude_run h4.2 hs hsl hh ha hal hn hv
    { gga with latitude := la, NS := ns, longitude := lo, EW := ew } sink tb lab (pad lon) ns ew
  simp only [GGA_position, hla, rd_nat, h2.1, c1, hlo, h5.1, run,
    Option.bind_eq_bind, Option.some_bind, Option.pure_def]

theorem GGA_fields_run {input : List Nat} {ns ew fix unit : Nat}
    {time lat lon sats hdop alt rest : List Nat} {la lo al : ℚ} {n : Int}
    (hd : input.drop 8 = time ++ 44 :: (lat ++ 44 :: ns :: 44 :: (lon ++ 44 :: ew :: 44 ::
      fix :: 44 :: (sats ++ 44 :: (hdop ++ 44 :: (alt ++ 44 :: unit :: rest))))))
    (ht : 44 ∉ time) (htl : time.length ≤ 12)
    (hlt : 44 ∉ lat) (hltl : lat.length ≤ 12)
    (hlen : ∃ k, strlen (pad lat) = some k ∧ 6 ≤ k)
    (hla : degrees_value (pad lat) = some la)
    (hl : 44 ∉ lon) (hll : lon.length ≤ 12) (hlo : degrees_value (pad lon) = some lo)
    (hs : 44 ∉ sats) (hsl : sats.length ≤ 12) (hh : 44 ∉ hdop)
    (ha : 44 ∉ alt) (hal : alt.length ≤ 12)
    (hn : atoi (pad sats) = some n) (hv : altitude_value (pad alt) = some al)
    (gga : GGASTRUCT) (sink : List SinkOp) :
    GGA_fields input gga sink
      = some ({ store_time gga (pad time) with
                  latitude := la, NS := ns, longitude := lo, EW := ew,
                  numofsat := n, altitude := al, unit := unit },
          sink ++ GGA_log (pad time) (pad lat) (pad lon) (pad sats) (pad alt) ns ew) := by
  have c1 := copy_field_spec hd ht htl
  have h1 := (drop_head (drop_append_len hd)).2
  have c2 := copy_field_spec h1 hlt hltl
  have h2 := drop_append_len h1
  obtain ⟨k, hk, hk6⟩ := hlen
  have hnot : ¬ k < 6 := by omega
  have run := GGA_position_run la (pad lat) h2 hla hl hll hlo hs hsl hh ha hal hn hv
    (store_time gga (pad time)) sink (pad time)
  simp only [GGA_fields, c1, c2, hk, hnot, if_false, run,
    Option.bind_eq_bind, Option.some_bind, Option.pure_def]

/-- When the latitude field is shorter than six bytes, the body stops after the time
stores. -/
theorem GGA_fields_short {input : List Nat} {time lat rest : List Nat}
    (hd : input.drop 8 = time ++ 44 :: (lat ++ 44 :: rest))
    (ht : 44 ∉ time) (htl : time.length ≤ 12)
    (hlt : 44 ∉ lat) (hltl : lat.length < 6)
    (gga : GGASTRUCT) (sink : List SinkOp) :
    GGA_fields input gga sink = some (store_time gga (pad time), sink) := by
  have c1 := copy_field_spec hd ht htl
  have h1 := (drop_head (drop_append_len hd)).2
  have c2 := copy_field_spec h1 hlt (by omega)
  obtain ⟨k, hk, hkle⟩ := strlen_le lat (List.replicate (11 - lat.length) 0)
  rw [← pad_eq (by omega)] at hk
  have hlt6 : k < 6 := by omega
  simp only [GGA_fields, c1, c2, hk, hlt6, if_true,
    Option.bind_eq_bind, Option.some_bind, Option.pure_def]

/-- The comma search on a buffer whose comma number `pos` lies at index `pre.length < 60`:
it returns the index after that comma, where the byte `b` is read. -/
theorem comma_check_spec (pos : Nat) {input pre rest : List Nat} {b : Nat}
    (hin : input = pre ++ 44 :: b :: rest) (hc : pre.count 44 + 1 = pos)
    (hl : pre.length < 60) :
    comma_loop pos input 60 0 0 = some ((pre.length : Int) + 1) ∧
      rd input ((pre.length : Int) + 1) = some b := by
  have hd : input.drop 0 = pre ++ 44 :: (b :: rest) := by simp [hin]
  constructor
  · have := comma_loop_spec pos input (b :: rest) pre 60 0 0 hd (by omega) hl
    simpa using this
  · rw [rd_succ]
    have h1 := drop_append_len hd
    have h2 := (drop_head h1).2
    have h3 := (drop_head h2).1
    simpa using h3

/-- The entry of `GGA_analysis` (lines 99-109) on a buffer whose sixth comma lies in the
first 60 bytes and is followed by the byte `b`. -/
theorem GGA_analysis_entry {input pre rest : List Nat} {b : Nat}
    (hin : input = pre ++ 44 :: b :: rest) (hc : pre.count 44 = 5) (hl : pre.length < 60)
    (gga : GGASTRUCT) (sink : List SinkOp) :
    GGA_analysis input gga sink =
      if b = 48 then some ({ gga with fixbit_gga := 0 }, sink)
      else GGA_fields input { gga with fixbit_gga := 1 } sink := by
  obtain ⟨h1, h2⟩ := comma_check_spec FIX_POS hin (by simp [hc, FIX_POS]) hl
  simp only [GGA_analysis, gps_fix_check, h1, h2, Option.bind_eq_bind, Option.some_bind,
    Option.pure_def]

theorem GGA_altitude_fixbit {input : List Nat} {gga : GGASTRUCT} {sink : List SinkOp}
    {tb lab lob : List Nat} {ns ew index1 : Nat} {r : GGASTRUCT × List SinkOp}
    (h : GGA_altitude input gga sink tb lab lob ns ew index1 = some r) :
    r.1.fixbit_gga = gga.fixbit_gga := by
  simp only [GGA_altitude, Option.bind_eq_bind, Option.bind_eq_some, Option.pure_def,
    Option.some.injEq] at h
  obtain ⟨_, _, _, _, _, _, _, _, _, _, _, _, h⟩ := h
  rw [← h]

theorem GGA_position_fixbit {input : List Nat} {gga : GGASTRUCT} {sink : List SinkOp}
    {tb lab : List Nat} {index1 : Nat} {r : GGASTRUCT × List SinkOp}
    (h : GGA_position input gga sink tb lab index1 = some r) :
    r.1.fixbit_gga = gga.fixbit_gga := by
  simp only [GGA_position, Option.bind_eq_bind, Option.bind_eq_some, Option.pure_def] at h
  obtain ⟨_, _, _, _, _, _, _, _, _, _, h⟩ := h
  have := GGA_altitude_fixbit h
  exact this

/-- The body of `GGA_analysis` never writes `fixbit_gga`. -/
theorem GGA_fields_fixbit {input : List Nat} {gga : GGASTRUCT} {sink : List SinkOp}
    {r : GGASTRUCT × List SinkOp} (h : GGA_fields input gga sink = some r) :
    r.1.fixbit_gga = gga.fixbit_gga := by
  simp only [GGA_fields, Option.bind_eq_bind, Option.bind_eq_some, Option.pure_def] at h
  obtain ⟨_, _, _, _, k, _, h⟩ := h
  by_cases hk : k < 6
  · simp only [hk, if_true, Option.some.injEq] at h
    rw [← h]; rfl
  · simp only [hk, if_false] at h
    have := GGA_position_fixbit h
    rw [this]; rfl

/-! ## Rounding to `float` and `double` -/

theorem pow10_nat (n : Nat) : pow10 (n : Int) = (10 : ℚ) ^ n := by
  simp [pow10]

theorem pow2_zpow (e : Int) : pow2 e = (2 : ℚ) ^ e := by
  unfold pow2
  split
  · rename_i h
    rw [← zpow_natCast, Int.toNat_of_nonneg h]
  · rename_i h
    have h2 : 0 ≤ -e := by omega
    rw [← zpow_natCast, Int.toNat_of_nonneg h2, zpow_neg, one_div, inv_inv]

theorem pow2_pos (e : Int) : 0 < pow2 e := by
  rw [pow2_zpow]
  positivity

theorem round_half_even_error (m : ℚ) : |(round_half_even m : ℚ) - m| ≤ 1 / 2 := by
  have h1 := Int.floor_le m
  have h2 := Int.lt_floor_add_one m
  unfold round_half_even
  rw [abs_le]
  split_ifs <;> push_cast <;> constructor <;> linarith

theorem log2_loop_spec : ∀ (fuel n : Nat), 0 < n → n ≤ fuel →
    2 ^ log2_loop fuel n ≤ n ∧ n < 2 ^ (log2_loop fuel n + 1) := by
  intro fuel
  induction fuel with
  | zero => intro n h0 h; omega
  | succ fuel ih =>
    intro n h0 h
    rw [log2_loop]
    by_cases h2 : n < 2
    · rw [if_pos h2]
      have : n = 1 := by omega
      subst this
      simp
    · rw [if_neg h2]
      obtain ⟨a, b⟩ := ih (n / 2) (by omega) (by omega)
      constructor
      · rw [pow_succ]; omega
      · rw [pow_succ]; omega

/-- The binary exponent brackets the magnitude: `2^e ≤ |q| < 2^(e+1)`. -/
theorem binary_exponent_spec (q : ℚ) (hq : q ≠ 0) :
    pow2 (binary_exponent q) ≤ |q| ∧ |q| < pow2 (binary_exponent q + 1) := by
  have hnum : 0 < q.num.natAbs := Int.natAbs_pos.2 (Rat.num_ne_zero.2 hq)
  have hden : 0 < q.den := q.den_pos
  obtain ⟨a1, a2⟩ := log2_loop_spec q.num.natAbs q.num.natAbs hnum (le_refl _)
  obtain ⟨b1, b2⟩ := log2_loop_spec q.den q.den hden (le_refl _)
  have habs : |q| = (q.num.natAbs : ℚ) / (q.den : ℚ) := by
    conv_lhs => rw [← Rat.num_div_den q]
    rw [abs_div, Nat.abs_cast, Nat.cast_natAbs, Int.cast_abs]
  set la := log2_loop q.num.natAbs q.num.natAbs
  set lb := log2_loop q.den q.den
  have a1q : (2 : ℚ) ^ la ≤ (q.num.natAbs : ℚ) := by exact_mod_cast a1
  have a2q : (q.num.natAbs : ℚ) < (2 : ℚ) ^ (la + 1) := by exact_mod_cast a2
  have b1q : (2 : ℚ) ^ lb ≤ (q.den : ℚ) := by exact_mod_cast b1
  have b2q : (q.den : ℚ) < (2 : ℚ) ^ (lb + 1) := by exact_mod_cast b2
  have hdq : (0 : ℚ) < (q.den : ℚ) := by exact_mod_cast hden
  have lower : pow2 ((la : Int) - (lb : Int) - 1) ≤ |q| := by
    rw [pow2_zpow, habs, le_div_iff₀ hdq]
    have e : (2 : ℚ) ^ ((la : Int) - (lb : Int) - 1) * (2 : ℚ) ^ (lb + 1) = (2 : ℚ) ^ la := by
      rw [← zpow_natCast (2 : ℚ) (lb + 1), ← zpow_add₀ (by norm_num : (2 : ℚ) ≠ 0),
        ← zpow_natCast (2 : ℚ) la]
      congr 1
      push_cast
      ring
    calc (2 : ℚ) ^ ((la : Int) - (lb : Int) - 1) * (q.den : ℚ)
        ≤ (2 : ℚ) ^ ((la : Int) - (lb : Int) - 1) * (2 : ℚ) ^ (lb + 1) :=
          mul_le_mul_of_nonneg_left b2q.le (by positivity)
      _ = (2 : ℚ) ^ la := e
      _ ≤ _ := a1q
  have upper : |q| < pow2 ((la : Int) - (lb : Int) + 1) := by
    rw [pow2_zpow, habs, div_lt_iff₀ hdq]
    have e : (2 : ℚ) ^ ((la : Int) - (lb : Int) + 1) * (2 : ℚ) ^ lb = (2 : ℚ) ^ (la + 1) := by
      rw [← zpow_natCast (2 : ℚ) lb, ← zpow_add₀ (by norm_num : (2 : ℚ) ≠ 0),
        ← zpow_natCast (2 : ℚ) (la + 1)]
      congr 1
      push_cast
      ring
    calc (q.num.natAbs : ℚ) < (2 : ℚ) ^ (la + 1) := a2q
      _ = (2 : ℚ) ^ ((la : Int) - (lb : Int) + 1) * (2 : ℚ) ^ lb := e.symm
      _ ≤ (2 : ℚ) ^ ((la : Int) - (lb : Int) + 1) * (q.den : ℚ) :=
          mul_le_mul_of_nonneg_left b1q (by positivity)
  show pow2 (if |q| < pow2 ((la : Int) - (lb : Int)) then (la : Int) - (lb : Int) - 1
      else (la : Int) - (lb : Int)) ≤ |q| ∧
    |q| < pow2 ((if |q| < pow2 ((la : Int) - (lb : Int)) then (la : Int) - (lb : Int) - 1
      else (la : Int) - (lb : Int)) + 1)
  by_cases h : |q| < pow2 ((la : Int) - (lb : Int))
  · rw [if_pos h]
    refine ⟨lower, ?_⟩
    rw [show (la : Int) - (lb : Int) - 1 + 1 = (la : Int) - (lb : Int) by ring]
    exact h
  · rw [if_neg h]
    exact ⟨not_lt.1 h, upper⟩

/-- Rounding to `p` significant bits moves a number by at most `2^-p` of its magnitude
(half a unit in the last place). -/
theorem round_binary_error (p : Nat) (q : ℚ) :
    |round_binary p q - q| ≤ |q| / 2 ^ p := by
  unfold round_binary
  by_cases hq : q = 0
  · rw [if_pos hq, hq]; simp
  · rw [if_neg hq]
    set u := pow2 (binary_exponent q - ((p : Int) - 1)) with hu
    have hupos : 0 < u := pow2_pos _
    have herr := round_half_even_error (q / u)
    have e1 : (round_half_even (q / u) : ℚ) * u - q = ((round_half_even (q / u) : ℚ) - q / u) * u := by
      field_simp
    have e2 : u / 2 = pow2 (binary_exponent q) / 2 ^ p := by
      rw [hu, pow2_zpow, pow2_zpow, show binary_exponent q - ((p : Int) - 1)
        = binary_exponent q + (-(p : Int)) + 1 by ring, zpow_add₀ (by norm_num : (2 : ℚ) ≠ 0),
        zpow_add₀ (by norm_num : (2 : ℚ) ≠ 0), zpow_neg, zpow_natCast]
      field_simp
      ring
    rw [e1, abs_mul, abs_of_pos hupos]
    calc |(round_half_even (q / u) : ℚ) - q / u| * u ≤ 1 / 2 * u :=
          mul_le_mul_of_nonneg_right herr hupos.le
      _ = pow2 (binary_exponent q) / 2 ^ p := by rw [← e2]; ring
      _ ≤ |q| / 2 ^ p := by
          apply div_le_div_of_nonneg_right (binary_exponent_spec q hq).1
          positivity

/-- A rounded number is at most `1 + 2^-p` times the magnitude of the number. -/
theorem round_binary_le (p : Nat) (q : ℚ) :
    |round_binary p q| ≤ |q| * (1 + 1 / 2 ^ p) := by
  have h := round_binary_error p q
  have t : |round_binary p q| ≤ |round_binary p q - q| + |q| := by
    have := abs_add (round_binary p q - q) q
    simpa using this
  calc |round_binary p q| ≤ |round_binary p q - q| + |q| := t
    _ ≤ |q| / 2 ^ p + |q| := by linarith
    _ = |q| * (1 + 1 / 2 ^ p) := by ring

/-- The sum `n + x` of a natural number and a fraction that is not negative, computed as
the code does (quotient rounded to `double`, sum rounded to `double`, result narrowed to
`float`), lies within `2^-23` of the exact sum, relative to it. -/
theorem float_sum_error (n : Nat) (x : ℚ) (hx : 0 ≤ x) :
    |round_binary 24 (round_binary 53 ((n : ℚ) + round_binary 53 x)) - ((n : ℚ) + x)|
      ≤ ((n : ℚ) + x) / 2 ^ 23 := by
  set v := (n : ℚ) + x with hv
  have hn : (0 : ℚ) ≤ (n : ℚ) := Nat.cast_nonneg n
  have hv0 : 0 ≤ v := by rw [hv]; linarith
  set d1 := round_binary 53 x
  set s := (n : ℚ) + d1 with hs
  set d2 := round_binary 53 s
  set f := round_binary 24 d2
  have e1 : |s - v| ≤ v / 2 ^ 53 := by
    have := round_binary_error 53 x
    rw [abs_of_nonneg hx] at this
    have e : s - v = d1 - x := by rw [hs, hv]; ring
    rw [e]
    calc |d1 - x| ≤ x / 2 ^ 53 := this
      _ ≤ v / 2 ^ 53 := by
        apply div_le_div_of_nonneg_right _ (by positivity)
        rw [hv]; linarith
  have e2 : |s| ≤ v * (1 + 1 / 2 ^ 53) := by
    have t : |s| ≤ |s - v| + |v| := by
      have := abs_add (s - v) v
      simpa using this
    rw [abs_of_nonneg hv0] at t
    calc |s| ≤ |s - v| + v := t
      _ ≤ v / 2 ^ 53 + v := by linarith
      _ = v * (1 + 1 / 2 ^ 53) := by ring
  have e3 : |d2 - s| ≤ |s| / 2 ^ 53 := round_binary_error 53 s
  have e4 : |d2| ≤ |s| * (1 + 1 / 2 ^ 53) := round_binary_le 53 s
  have e5 : |f - d2| ≤ |d2| / 2 ^ 24 := round_binary_error 24 d2
  have t : |f - v| ≤ |f - d2| + |d2 - s| + |s - v| := by
    have h1 := abs_add (f - d2) (d2 - s)
    have h2 := abs_add (f - d2 + (d2 - s)) (s - v)
    have e : f - d2 + (d2 - s) + (s - v) = f - v := by ring
    rw [e] at h2
    linarith
  have b2 : |d2| ≤ v * (1 + 1 / 2 ^ 53) * (1 + 1 / 2 ^ 53) := by
    calc |d2| ≤ |s| * (1 + 1 / 2 ^ 53) := e4
      _ ≤ v * (1 + 1 / 2 ^ 53) * (1 + 1 / 2 ^ 53) :=
        mul_le_mul_of_nonneg_right e2 (by positivity)
  have b3 : |d2 - s| ≤ v * (1 + 1 / 2 ^ 53) / 2 ^ 53 :=
    le_trans e3 (div_le_div_of_nonneg_right e2 (by positivity))
  have b5 : |f - d2| ≤ v * (1 + 1 / 2 ^ 53) * (1 + 1 / 2 ^ 53) / 2 ^ 24 :=
    le_trans e5 (div_le_div_of_nonneg_right b2 (by positivity))
  calc |f - v| ≤ |f - d2| + |d2 - s| + |s - v| := t
    _ ≤ v * (1 + 1 / 2 ^ 53) * (1 + 1 / 2 ^ 53) / 2 ^ 24
        + v * (1 + 1 / 2 ^ 53) / 2 ^ 53 + v / 2 ^ 53 := by linarith
    _ = v * ((1 + 1 / 2 ^ 53) * (1 + 1 / 2 ^ 53) / 2 ^ 24
        + (1 + 1 / 2 ^ 53) / 2 ^ 53 + 1 / 2 ^ 53) := by ring
    _ ≤ v * (1 / 2 ^ 23) := by
        apply mul_le_mul_of_nonneg_left _ hv0
        norm_num
    _ = v / 2 ^ 23 := by ring

/-- The powers of ten up to `10^12` are `double` numbers. -/
theorem round_binary_pow10 (k : Nat) (hk : k ≤ 12) :
    round_binary 53 ((10 : ℚ) ^ k) = (10 : ℚ) ^ k := by
  interval_cases k <;> with_unfolding_all rfl

set_option maxRecDepth 1000000 in
/-- The `float` computed for an empty integer part and an empty fraction is 0. -/
theorem fixed_point_float_empty : fixed_point_float [] [] = 0 := by
  with_unfolding_all rfl

/-- The `float` computed for the text `ip.fp` lies within `2^-23` of the decimal value of
the text, relative to that value. -/
theorem fixed_point_float_error (ip fp : List Nat) (hk : fp.length ≤ 12) :
    |fixed_point_float ip fp - fixed_point_value ip fp| ≤ fixed_point_value ip fp / 2 ^ 23 := by
  have h := float_sum_error (digits_value ip) ((digits_value fp : ℚ) / (10 : ℚ) ^ fp.length)
    (by positivity)
  unfold fixed_point_float float_sum to_float to_double fixed_point_value
  rw [pow10_nat, round_binary_pow10 _ hk]
  simpa using h

/-! ## Values of fixed-point fields -/

theorem not_digit_dot : ¬ is_digit 46 := by decide

theorem not_digit_nul : ¬ is_digit 0 := by decide

/-- What the conversion blocks read off a 12-byte buffer that holds the text `ip.fp`. -/
theorem fixed_point_parts {fld ip fp : List Nat} (h : fixed_point_text fld ip fp)
    (hl : fld.length ≤ 11) :
    atoi (pad fld) = some (digits_value ip : Int) ∧
    find_dot (pad fld) = some ip.length ∧
    strlen (pad fld) = some fld.length ∧
    atoi ((pad fld).drop (ip.length + 1)) = some (digits_value fp : Int) ∧
    fld.length = ip.length + 1 + fp.length := by
  obtain ⟨rfl, hip, hfp, hdi, hdf⟩ := h
  have hlen : (ip ++ 46 :: fp).length = ip.length + 1 + fp.length := by
    simp; omega
  have hfp1 : 1 ≤ fp.length := by
    cases fp with
    | nil => exact absurd rfl hfp
    | cons _ _ => simp
  have hip1 : 1 ≤ ip.length := by
    cases ip with
    | nil => exact absurd rfl hip
    | cons _ _ => simp
  rw [hlen] at hl
  have hp : pad (ip ++ 46 :: fp)
      = ip ++ 46 :: (fp ++ 0 :: List.replicate (11 - (ip ++ 46 :: fp).length) 0) := by
    rw [pad_eq (by rw [hlen]; exact hl)]
    simp
  have h46 : 46 ∉ ip := fun hm => not_digit_dot (hdi 46 hm)
  have h0 : 0 ∉ ip ++ 46 :: fp := by
    intro hm
    rcases List.mem_append.1 hm with hm | hm
    · exact not_digit_nul (hdi 0 hm)
    · rcases List.mem_cons.1 hm with hm | hm
      · omega
      · exact not_digit_nul (hdf 0 hm)
  refine ⟨?_, ?_, ?_, ?_, hlen⟩
  · rw [hp]
    exact atoi_digit_run ip 46 _ hip hdi not_digit_dot (by omega)
  · rw [hp]
    exact find_dot_spec ip _ h46
  · rw [pad_eq (by rw [hlen]; exact hl)]
    exact strlen_spec _ _ h0
  · rw [hp]
    have hdrop : (ip ++ 46 :: (fp ++ 0 :: List.replicate (11 - (ip ++ 46 :: fp).length) 0)).drop
        (ip.length + 1) = fp ++ 0 :: List.replicate (11 - (ip ++ 46 :: fp).length) 0 := by
      have e : ip ++ 46 :: (fp ++ 0 :: List.replicate (11 - (ip ++ 46 :: fp).length) 0)
          = (ip ++ [46]) ++ (fp ++ 0 :: List.replicate (11 - (ip ++ 46 :: fp).length) 0) := by
        simp
      have l : (ip ++ [46]).length = ip.length + 1 := by simp
      rw [e, ← l, List.drop_left]
    rw [hdrop]
    exact atoi_digit_run fp 0 _ hfp hdf not_digit_nul (by omega)

theorem degrees_value_fixed {fld ip fp : List Nat} (h : fixed_point_text fld ip fp)
    (hl : fld.length ≤ 11) :
    degrees_value (pad fld)
      = some ((digits_value ip : ℚ) / 100 + (digits_value fp : ℚ) / (10 : ℚ) ^ (fp.length + 2)) := by
  obtain ⟨h1, h2, h3, h4, h5⟩ := fixed_point_parts h hl
  have e : ((fld.length : Int) - ((ip.length + 1 : Nat) : Int) + 2) = ((fp.length + 2 : Nat) : Int) := by
    rw [h5]; push_cast; ring
  simp only [degrees_value, h1, h2, h3, h4, Option.bind_eq_bind, Option.some_bind,
    Option.pure_def, e, pow10_nat]
  simp

theorem altitude_value_fixed {fld ip fp : List Nat} (h : fixed_point_text fld ip fp)
    (hl : fld.length ≤ 11) :
    altitude_value (pad fld) = some (fixed_point_float ip fp) := by
  obtain ⟨h1, h2, h3, h4, h5⟩ := fixed_point_parts h hl
  have e : ((fld.length : Int) - ((ip.length + 1 : Nat) : Int)) = ((fp.length : Nat) : Int) := by
    rw [h5]; push_cast; ring
  simp only [altitude_value, h1, h2, h3, h4, Option.bind_eq_bind, Option.some_bind,
    Option.pure_def, e, fixed_point_float]

theorem knots_value_fixed {fld ip fp : List Nat} (h : fixed_point_text fld ip fp)
    (hl : fld.length ≤ 11) :
    knots_value (pad fld)
      = some (float_sum (to_int16 (digits_value ip)) (digits_value fp) fp.length) := by
  obtain ⟨h1, h2, h3, h4, h5⟩ := fixed_point_parts h hl
  have e : ((fld.length : Int) - ((ip.length + 1 : Nat) : Int)) = ((fp.length : Nat) : Int) := by
    rw [h5]; push_cast; ring
  simp only [knots_value, h1, h2, h3, h4, Option.bind_eq_bind, Option.some_bind,
    Option.pure_def, e, Option.map_some']

theorem to_int16_small {v : Nat} (h : v ≤ 32767) : to_int16 (v : Int) = (v : Int) := by
  unfold to_int16
  omega

theorem knots_or_zero_fixed {fld ip fp : List Nat} (h : fixed_point_text fld ip fp)
    (hl : fld.length ≤ 11) :
    knots_or_zero (pad fld)
      = some (float_sum (to_int16 (digits_value ip)) (digits_value fp) fp.length) := by
  obtain ⟨_, _, h3, _, h5⟩ := fixed_point_parts h hl
  have hpos : 0 < fld.length := by omega
  simp only [knots_or_zero, h3, hpos, if_true, Option.bind_eq_bind, Option.some_bind,
    knots_value_fixed h hl]

theorem knots_or_zero_empty : knots_or_zero (pad []) = some 0 := by
  simp [knots_or_zero, pad, strlen, List.replicate]

/-! ## Runs on whole sentences -/

theorem GGAText.render_split (t : GGAText) :
    t.render = (t.lead ++ (t.time ++ 44 :: (t.lat ++ 44 :: t.ns :: 44 :: (t.lon ++ [44, t.ew]))))
      ++ 44 :: t.fix :: (44 :: (t.sats ++ 44 :: (t.hdop ++ 44 :: (t.alt ++ 44 :: t.unit :: t.rest)))) := by
  simp [GGAText.render, GGAText.tail]

theorem GGAText.sixth_comma (t : GGAText) (hf : t.framed) :
    (t.lead ++ (t.time ++ 44 :: (t.lat ++ 44 :: t.ns :: 44 :: (t.lon ++ [44, t.ew])))).count 44 = 5
    ∧ (t.lead ++ (t.time ++ 44 :: (t.lat ++ 44 :: t.ns :: 44 :: (t.lon ++ [44, t.ew])))).length < 60 := by
  obtain ⟨h1, h2, h3, h4, h5, h6, h7, h8, h9, h10⟩ := hf
  constructor
  · simp [List.count_append, List.count_cons, h2, List.count_eq_zero_of_not_mem h3,
      List.count_eq_zero_of_not_mem h5, List.count_eq_zero_of_not_mem h8, h7, h10]
  · simp; omega

theorem GGAText.drop_eight (t : GGAText) (hf : t.framed) :
    t.render.drop 8 = t.time ++ 44 :: (t.lat ++ 44 :: t.ns :: 44 :: (t.lon ++ 44 :: t.ew :: 44 ::
      t.fix :: 44 :: (t.sats ++ 44 :: (t.hdop ++ 44 :: (t.alt ++ 44 :: t.unit :: t.rest))))) := by
  rw [GGAText.render, ← hf.1, List.drop_left]
  rfl

/-- The run of `GGA_analysis` on a framed position sentence with a valid fix, in terms of
the values of the conversion blocks. -/
theorem GGA_analysis_text (t : GGAText) (hf : t.framed) (ht : t.tail_framed)
    (hfix : t.fix ≠ 48) {la lo al : ℚ} {n : Int}
    (hlen : ∃ k, strlen (pad t.lat) = some k ∧ 6 ≤ k)
    (hla : degrees_value (pad t.lat) = some la) (hlo : degrees_value (pad t.lon) = some lo)
    (hn : atoi (pad t.sats) = some n) (hv : altitude_value (pad t.alt) = some al)
    (gga : GGASTRUCT) (sink : List SinkOp) :
    GGA_analysis t.render gga sink
      = some ({ store_time { gga with fixbit_gga := 1 } (pad t.time) with
                  latitude := la, NS := t.ns, longitude := lo, EW := t.ew,
                  numofsat := n, altitude := al, unit := t.unit },
          sink ++ GGA_log (pad t.time) (pad t.lat) (pad t.lon) (pad t.sats) (pad t.alt)
            t.ns t.ew) := by
  obtain ⟨hc, hl⟩ := t.sixth_comma hf
  rw [GGA_analysis_entry t.render_split hc hl, if_neg hfix]
  obtain ⟨_, _, h3, h4, h5, h6, _, h8, h9, _⟩ := hf
  obtain ⟨t1, t2, t3, t4, t5⟩ := ht
  exact GGA_fields_run (t.drop_eight ⟨‹_›, ‹_›, h3, h4, h5, h6, ‹_›, h8, h9, ‹_›⟩) h3 h4 h5
    (by omega) hlen hla h8 (by omega) hlo t1 (by omega) t3 t4 (by omega) hn hv _ sink

/-- The run of `GGA_analysis` on a well-formed position sentence with a valid fix. -/
theorem GGA_analysis_well_formed (t : GGAText) {lat_i lat_f lon_i lon_f alt_i alt_f : List Nat}
    (h : t.well_formed lat_i lat_f lon_i lon_f alt_i alt_f)
    (gga : GGASTRUCT) (sink : List SinkOp) :
    GGA_analysis t.render gga sink
      = some ({ store_time { gga with fixbit_gga := 1 } (pad t.time) with
                  latitude := (digits_value lat_i : ℚ) / 100
                    + (digits_value lat_f : ℚ) / (10 : ℚ) ^ (lat_f.length + 2),
                  NS := t.ns,
                  longitude := (digits_value lon_i : ℚ) / 100
                    + (digits_value lon_f : ℚ) / (10 : ℚ) ^ (lon_f.length + 2),
                  EW := t.ew,
                  numofsat := (digits_value t.sats : Int),
                  altitude := fixed_point_float alt_i alt_f, unit := t.unit },
          sink ++ GGA_log (pad t.time) (pad t.lat) (pad t.lon) (pad t.sats) (pad t.alt)
            t.ns t.ew) := by
  obtain ⟨hf, ht, hfix, hlat, hlat6, hlon, hs1, hs2, hs3, halt⟩ := h
  have hlatl : t.lat.length ≤ 11 := hf.2.2.2.2.2.1
  have hlonl : t.lon.length ≤ 11 := hf.2.2.2.2.2.2.2.2.1
  have haltl : t.alt.length ≤ 11 := ht.2.2.2.2
  have hsats : atoi (pad t.sats) = some (digits_value t.sats : Int) := by
    rw [pad_eq (by omega)]
    exact atoi_digit_run t.sats 0 _ hs1 hs2 not_digit_nul hs3
  exact GGA_analysis_text t hf ht hfix
    ⟨t.lat.length, (fixed_point_parts hlat hlatl).2.2.1, hlat6⟩
    (degrees_value_fixed hlat hlatl) (degrees_value_fixed hlon hlonl) hsats
    (altitude_value_fixed halt haltl) gga sink

/-- The run of `GGA_analysis` on a framed sentence with a valid fix whose latitude field is
shorter than six bytes. -/
theorem GGA_analysis_short (t : GGAText) (hf : t.framed) (hfix : t.fix ≠ 48)
    (hlat : t.lat.length < 6) (gga : GGASTRUCT) (sink : List SinkOp) :
    GGA_analysis t.render gga sink
      = some (store_time { gga with fixbit_gga := 1 } (pad t.time), sink) := by
  obtain ⟨hc, hl⟩ := t.sixth_comma hf
  rw [GGA_analysis_entry t.render_split hc hl, if_neg hfix]
  have hd := t.drop_eight hf
  obtain ⟨_, _, h3, h4, h5, _, _, _, _, _⟩ := hf
  exact GGA_fields_short hd h3 h4 h5 hlat _ sink

/-! ## Runs on the scenario sentence -/

set_option maxRecDepth 1000000 in
theorem gga_sample_run (gga : GGASTRUCT) (sink : List SinkOp) :
    GGA_analysis gga_sample gga sink
      = some (gga_sample_record, sink ++ GGA_log (pad (bytes "23519")) (pad (bytes "4807.038"))
          (pad (bytes "01131.000")) (pad (bytes "08")) (pad (bytes "545.4")) 78 69) := by
  with_unfolding_all rfl

set_option maxRecDepth 1000000 in
theorem gga_sample_run_slot (gga : GGASTRUCT) (sink : List SinkOp) :
    GGA_analysis (0 :: gga_sample) gga sink
      = some (gga_sample_record_slot, sink ++ GGA_log (pad (bytes "123519"))
          (pad (bytes "4807.038")) (pad (bytes "01131.000")) (pad (bytes "08"))
          (pad (bytes "545.4")) 78 69) := by
  with_unfolding_all rfl

theorem gga_sample_text_render (b : Nat) : (gga_sample_text b).render = b :: gga_sample := by
  rfl

/-! ## Runs of `RMC_analysis` -/

/-- The entry of `RMC_analysis` (lines 302-312) on a buffer whose second comma lies in the
first 60 bytes and is followed by the byte `b`. -/
theorem RMC_analysis_entry {input pre rest : List Nat} {b : Nat}
    (hin : input = pre ++ 44 :: b :: rest) (hc : pre.count 44 = 1) (hl : pre.length < 60)
    (rmc : RMCSTRUCT) (sink : List SinkOp) :
    RMC_analysis input rmc sink =
      if b = 65 then RMC_fields input { rmc with fixbit_rmc := 1 } sink
      else some ({ rmc with fixbit_rmc := 0 }, sink) := by
  obtain ⟨h1, h2⟩ := comma_check_spec VALID_POS hin (by simp [hc, VALID_POS]) hl
  simp only [RMC_analysis, valid_data_check, h1, h2, Option.bind_eq_bind, Option.some_bind,
    Option.pure_def]

/-- The body of `RMC_analysis` never writes `fixbit_rmc`. -/
theorem RMC_fields_fixbit {input : List Nat} {rmc : RMCSTRUCT} {sink : List SinkOp}
    {r : RMCSTRUCT × List SinkOp} (h : RMC_fields input rmc sink = some r) :
    r.1.fixbit_rmc = rmc.fixbit_rmc := by
  simp only [RMC_fields, Option.bind_eq_bind, Option.bind_eq_some, Option.pure_def,
    Option.some.injEq] at h
  obtain ⟨_, _, _, _, _, _, _, _, _, _, _, _, _, _, h⟩ := h
  rw [← h]; rfl

theorem RMC_fields_run {input pre : List Nat} {speed course date rest : List Nat}
    {sp co : ℚ}
    (hin : input = pre ++ 44 :: (speed ++ 44 :: (course ++ 44 :: (date ++ 44 :: rest))))
    (hc : pre.count 44 = 6) (hl : pre.length < 60)
    (hs : 44 ∉ speed) (hsl : speed.length ≤ 12) (hsp : knots_or_zero (pad speed) = some sp)
    (hk : 44 ∉ course) (hkl : course.length ≤ 12) (hco : knots_or_zero (pad course) = some co)
    (hd : 44 ∉ date) (hdl : date.length ≤ 12)
    (rmc : RMCSTRUCT) (sink : List SinkOp) :
    RMC_fields input rmc sink
      = some (store_velocity rmc sp co (pad date),
          sink ++ RMC_log (pad speed) (pad course) (pad date)) := by
  have h0 : input.drop 0
      = pre ++ 44 :: (speed ++ 44 :: (course ++ 44 :: (date ++ 44 :: rest))) := by simp [hin]
  have c0 := comma_loop_spec SPEED_POS input _ pre 60 0 0 h0 (by simp [hc, SPEED_POS]) hl
  have e0 : ((0 : Nat) : Int) + (pre.length : Int) + 1 = ((pre.length + 1 : Nat) : Int) := by
    simp
  rw [e0] at c0
  have h1 := (drop_head (drop_append_len h0)).2
  simp only [Nat.zero_add] at h1
  have c1 := copy_field_spec h1 hs hsl
  have h2 := (drop_head (drop_append_len h1)).2
  have c2 := copy_field_spec h2 hk hkl
  have h3 := (drop_head (drop_append_len h2)).2
  have c3 := copy_field_spec h3 hd hdl
  have hnn : array_index ((pre.length + 1 : Nat) : Int) = some (pre.length + 1) := by
    simp [array_index]
    omega
  simp only [RMC_fields, speed_data_check, c0, hnn, c1, hsp, c2, hco,
    c3, Option.bind_eq_bind, Option.some_bind, Option.pure_def]

theorem RMCText.render_second (t : RMCText) :
    t.render = (t.head ++ 44 :: t.time) ++ 44 :: t.status :: (44 :: (t.lat ++ 44 :: (t.ns ++ 44 ::
      (t.lon ++ 44 :: (t.ew ++ 44 :: t.tail))))) := by
  simp [RMCText.render]

theorem RMCText.render_seventh (t : RMCText) :
    t.render = (t.head ++ 44 :: (t.time ++ 44 :: t.status :: 44 :: (t.lat ++ 44 :: (t.ns ++ 44 ::
      (t.lon ++ 44 :: t.ew))))) ++ 44 :: (t.speed ++ 44 :: (t.course ++ 44 :: (t.date ++ 44 :: t.rest))) := by
  simp [RMCText.render, RMCText.tail]

/-- The run of `RMC_analysis` on a framed velocity/date sentence with status `A`, in terms
of the values of the conversion blocks. -/
theorem RMC_analysis_text (t : RMCText) (hf : t.framed) (hst : t.status = 65) {sp co : ℚ}
    (hsp : knots_or_zero (pad t.speed) = some sp)
    (hco : knots_or_zero (pad t.course) = some co)
    (rmc : RMCSTRUCT) (sink : List SinkOp) :
    RMC_analysis t.render rmc sink
      = some (store_velocity { rmc with fixbit_rmc := 1 } sp co (pad t.date),
          sink ++ RMC_log (pad t.speed) (pad t.course) (pad t.date)) := by
  obtain ⟨h1, h2, h3, h4, h5, h6, h7, h8, h9, h10, h11, h12, h13, h14⟩ := hf
  have hc2 : (t.head ++ 44 :: t.time).count 44 = 1 := by
    simp [List.count_append, List.count_cons, List.count_eq_zero_of_not_mem h1,
      List.count_eq_zero_of_not_mem h2]
  have hl2 : (t.head ++ 44 :: t.time).length < 60 := by simp; omega
  rw [RMC_analysis_entry t.render_second hc2 hl2, if_pos hst]
  have hc7 : (t.head ++ 44 :: (t.time ++ 44 :: t.status :: 44 :: (t.lat ++ 44 :: (t.ns ++ 44 ::
      (t.lon ++ 44 :: t.ew))))).count 44 = 6 := by
    simp [List.count_append, List.count_cons, List.count_eq_zero_of_not_mem h1,
      List.count_eq_zero_of_not_mem h2, List.count_eq_zero_of_not_mem h4,
      List.count_eq_zero_of_not_mem h5, List.count_eq_zero_of_not_mem h6,
      List.count_eq_zero_of_not_mem h7, h3]
  have hl7 : (t.head ++ 44 :: (t.time ++ 44 :: t.status :: 44 :: (t.lat ++ 44 :: (t.ns ++ 44 ::
      (t.lon ++ 44 :: t.ew))))).length < 60 := by simp; omega
  exact RMC_fields_run t.render_seventh hc7 hl7 h9 (by omega) hsp h11 (by omega) hco h13 h14 _ sink

set_option maxRecDepth 1000000 in
theorem knots_text_value {fld ip fp : List Nat} (h : knots_text fld ip fp)
    (hl : fld.length ≤ 11) :
    knots_or_zero (pad fld)
      = some (float_sum (to_int16 (digits_value ip)) (digits_value fp) fp.length) := by
  rcases h with ⟨rfl, rfl, rfl⟩ | h
  · rw [knots_or_zero_empty]
    exact congrArg some (by with_unfolding_all rfl)
  · exact knots_or_zero_fixed h hl

theorem rmc_sample_text_render : (rmc_sample_text "022.4" "084.4").render = rmc_sample := by
  rfl

theorem digit_pair_pad (ds : List Nat) (k : Nat) (a b : Nat)
    (ha : ds[k]? = some a) (hb : ds[k + 1]? = some b) (hda : is_digit a) (hdb : is_digit b) :
    digit_pair (pad ds) k = (digits_value [a, b] : Int) := by
  have hk : k + 1 < ds.length := by
    by_contra hn
    rw [List.getElem?_eq_none (by omega)] at hb
    exact absurd hb (by simp)
  have e1 : (pad ds)[k]? = some a := by
    rw [pad, List.getElem?_append_left (by omega)]; exact ha
  have e2 : (pad ds)[k + 1]? = some b := by
    rw [pad, List.getElem?_append_left hk]; exact hb
  unfold is_digit at hda hdb
  simp only [digit_pair, List.getD_eq_getElem?_getD, e1, e2, Option.getD_some, digits_value,
    List.foldl_cons, List.foldl_nil]
  omega

/-! ## The claims -/

/-- C2, counterexample. On a buffer that begins at the `$` of the scenario sentence (time
field 123519) `GGA_analysis` stores hour 16, minute 51 and second 42, not hour 5 and
minute 19; held from byte offset 1 the sentence gives minute 35, not 19. -/
theorem C2_counterexample :
    (∃ r, GGA_analysis gga_sample gga_zero [] = some r ∧
      r.1.hour = 16 ∧ r.1.min = 51 ∧ r.1.sec = 42 ∧ ¬ (r.1.hour = 5 ∧ r.1.min = 19)) ∧
    (∃ r, GGA_analysis (0 :: gga_sample) gga_zero [] = some r ∧
      r.1.min = 35 ∧ ¬ (r.1.hour = 5 ∧ r.1.min = 19)) :=
  ⟨⟨_, gga_sample_run gga_zero [], rfl, rfl, rfl, by decide⟩,
   ⟨_, gga_sample_run_slot gga_zero [], rfl, by decide⟩⟩

/-- C2, amended. For every well-formed position sentence with a valid fix that lies in the
buffer from byte offset 1 (one byte `b`, then `$GPGGA,`, so that the time field starts at
index 8) and whose time field is the six digits HHMMSS, `GGA_analysis` stores
hour = HH + GMT/100 - 12, minute = MM + GMT%100 and second = SS. -/
theorem C2_time_fields (t : GGAText) (b h1 h2 m1 m2 s1 s2 : Nat)
    (lat_i lat_f lon_i lon_f alt_i alt_f : List Nat)
    (hwf : t.well_formed lat_i lat_f lon_i lon_f alt_i alt_f)
    (hlead : t.lead = b :: gga_header)
    (htime : t.time = [h1, h2, m1, m2, s1, s2])
    (hdig : ∀ c ∈ [h1, h2, m1, m2, s1, s2], is_digit c)
    (gga : GGASTRUCT) (sink : List SinkOp) :
    ∃ r, GGA_analysis t.render gga sink = some r ∧
      t.render = b :: (gga_header ++ t.time ++ 44 :: (t.render.drop (8 + 6 + 1))) ∧
      r.1.hour = (digits_value [h1, h2] : Int) + GMT / 100 - 12 ∧
      r.1.min = (digits_value [m1, m2] : Int) + GMT % 100 ∧
      r.1.sec = (digits_value [s1, s2] : Int) := by
  refine ⟨_, GGA_analysis_well_formed t hwf gga sink, ?_, ?_, ?_, ?_⟩
  · simp [GGAText.render, hlead, htime, gga_header]
  · show digit_pair (pad t.time) 0 + GMT / 100 - 12 = _
    rw [htime, digit_pair_pad _ 0 h1 h2 rfl rfl (hdig _ (by simp)) (hdig _ (by simp))]
  · show digit_pair (pad t.time) 2 + GMT % 100 = _
    rw [htime, digit_pair_pad _ 2 m1 m2 rfl rfl (hdig _ (by simp)) (hdig _ (by simp))]
  · show digit_pair (pad t.time) 4 = _
    rw [htime, digit_pair_pad _ 4 s1 s2 rfl rfl (hdig _ (by simp)) (hdig _ (by simp))]

/-- C2, witness: the scenario sentence held from byte offset 1 (time field 123519) gives
hour 5, minute 35 and second 19. -/
theorem C2_time_fields_witness :
    (gga_sample_text 0).well_formed (bytes "4807") (bytes "038") (bytes "01131") (bytes "000")
        (bytes "545") (bytes "4") ∧
      (∀ c ∈ [49, 50, 51, 53, 49, 57], is_digit c) ∧
      ∃ r, GGA_analysis (gga_sample_text 0).render gga_zero [] = some r ∧
        r.1.hour = 5 ∧ r.1.min = 35 ∧ r.1.sec = 19 := by
  refine ⟨by decide, by decide, ?_⟩
  obtain ⟨r, hr, _, h1, h2, h3⟩ := C2_time_fields (gga_sample_text 0) 0 49 50 51 53 49 57
    (bytes "4807") (bytes "038") (bytes "01131") (bytes "000") (bytes "545") (bytes "4")
    (by decide) rfl rfl (by decide) gga_zero []
  exact ⟨r, hr, h1.trans (by decide), h2.trans (by decide), h3.trans (by decide)⟩

set_option maxRecDepth 1000000 in
/-- C3. For the scenario sentence, held from byte offset 0 or from byte offset 1 of the
buffer, `GGA_analysis` stores fix validity 1, NS = `N` (78), EW = `E` (69), satellite
count 8 (the field after the fix-quality field), altitude 545.4 (the field after the HDOP
field) and altitude unit `M` (77). The altitude field is a `float`: it holds the `float`
545.4, that is the `float` nearest to 545.4, whose value is 4467917/8192. -/
theorem C3_sample_fields (gga : GGASTRUCT) (sink : List SinkOp) :
    (∃ r, GGA_analysis gga_sample gga sink = some r ∧
      r.1.fixbit_gga = 1 ∧ r.1.NS = 78 ∧ r.1.EW = 69 ∧ r.1.numofsat = 8 ∧
      r.1.altitude = to_float (5454 / 10) ∧ r.1.altitude = 4467917 / 8192 ∧ r.1.unit = 77) ∧
    (∃ r, GGA_analysis (0 :: gga_sample) gga sink = some r ∧
      r.1.fixbit_gga = 1 ∧ r.1.NS = 78 ∧ r.1.EW = 69 ∧ r.1.numofsat = 8 ∧
      r.1.altitude = to_float (5454 / 10) ∧ r.1.altitude = 4467917 / 8192 ∧ r.1.unit = 77) := by
  have e : (4467917 / 8192 : ℚ) = to_float (5454 / 10) := by with_unfolding_all rfl
  exact ⟨⟨_, gga_sample_run gga sink, rfl, rfl, rfl, rfl, e, rfl, rfl⟩,
    ⟨_, gga_sample_run_slot gga sink, rfl, rfl, rfl, rfl, e, rfl, rfl⟩⟩

set_option maxRecDepth 1000000 in
/-- C5, evaluation at the failing inputs. With the altitude field `-12.5` the scenario
sentence leaves altitude -11.5, and with `-0.5` it leaves altitude 0.5: the fraction is
added to the integer part whatever the sign. -/
theorem C5_negative_altitude :
    (∃ r, GGA_analysis (gga_sample_alt "-12.5") gga_zero [] = some r ∧
      r.1.altitude = -(115 / 10) ∧ r.1.altitude ≠ -(125 / 10)) ∧
    (∃ r, GGA_analysis (gga_sample_alt "-0.5") gga_zero [] = some r ∧
      r.1.altitude = 5 / 10 ∧ r.1.altitude ≠ -(5 / 10)) := by
  have e1 : (GGA_analysis (gga_sample_alt "-12.5") gga_zero []).map (fun r => r.1.altitude)
      = some (-(115 / 10)) := by with_unfolding_all rfl
  have e2 : (GGA_analysis (gga_sample_alt "-0.5") gga_zero []).map (fun r => r.1.altitude)
      = some (5 / 10) := by with_unfolding_all rfl
  obtain ⟨r1, hr1, v1⟩ := Option.map_eq_some'.1 e1
  obtain ⟨r2, hr2, v2⟩ := Option.map_eq_some'.1 e2
  exact ⟨⟨r1, hr1, v1, by rw [v1]; norm_num⟩, ⟨r2, hr2, v2, by rw [v2]; norm_num⟩⟩

/-- C6. For every buffer whose sixth comma lies in the first 60 bytes (at index
`pre.length`) and is followed by the byte `b`: when `b` is `0` (48) `GGA_analysis` returns
at once with `fixbit_gga = 0`, every other field of the record and the sink unchanged;
for any other byte it sets `fixbit_gga = 1` and goes on with the body, which never writes
`fixbit_gga`; so a run that returns leaves `fixbit_gga = 0` exactly when `b` is `0`. -/
theorem C6_fix_check (input pre rest : List Nat) (b : Nat)
    (hin : input = pre ++ 44 :: b :: rest) (hc : pre.count 44 = 5) (hl : pre.length < 60)
    (gga : GGASTRUCT) (sink : List SinkOp) :
    (b = 48 → GGA_analysis input gga sink = some ({ gga with fixbit_gga := 0 }, sink)) ∧
    (b ≠ 48 →
      GGA_analysis input gga sink = GGA_fields input { gga with fixbit_gga := 1 } sink ∧
      ∀ r, GGA_analysis input gga sink = some r → r.1.fixbit_gga = 1) ∧
    ((∃ r, GGA_analysis input gga sink = some r ∧ r.1.fixbit_gga = 0) ↔ b = 48) := by
  have entry := GGA_analysis_entry hin hc hl gga sink
  have h1 : b ≠ 48 → ∀ r, GGA_analysis input gga sink = some r → r.1.fixbit_gga = 1 := by
    intro hb r hr
    rw [entry, if_neg hb] at hr
    have := GGA_fields_fixbit hr
    exact this
  refine ⟨fun hb => by rw [entry, if_pos hb], fun hb => ⟨by rw [entry, if_neg hb], h1 hb⟩, ?_⟩
  constructor
  · rintro ⟨r, hr, h0⟩
    by_contra hb
    have := h1 hb r hr
    omega
  · intro hb
    exact ⟨_, by rw [entry, if_pos hb], rfl⟩

/-- C6, witness: the scenario sentence reporting no fix. -/
theorem C6_fix_check_witness :
    (gga_no_fix = bytes "$GPGGA,123519,4807.038,N,01131.000,E" ++ 44 :: 48 :: bytes ",00,,,M,,M,,"
      ∧ (bytes "$GPGGA,123519,4807.038,N,01131.000,E").count 44 = 5
      ∧ (bytes "$GPGGA,123519,4807.038,N,01131.000,E").length < 60) ∧
    GGA_analysis gga_no_fix gga_zero [] = some ({ gga_zero with fixbit_gga := 0 }, []) :=
  ⟨⟨by decide, by decide, by decide⟩,
   (C6_fix_check gga_no_fix (bytes "$GPGGA,123519,4807.038,N,01131.000,E") (bytes ",00,,,M,,M,,")
      48 (by decide) (by decide) (by decide) gga_zero []).1 rfl⟩

/-- The early return of `GGA_analysis`: for every framed position sentence with a valid fix
whose latitude field has fewer than 6 characters, `GGA_analysis` returns with the sink
unchanged and with latitude, NS, longitude, EW, numofsat, altitude and unit unchanged; it
leaves `fixbit_gga = 1`, where the same sentence with fix byte `0` leaves
`fixbit_gga = 0`. -/
theorem GGA_analysis_short_outcome (t : GGAText) (hf : t.framed) (hfix : t.fix ≠ 48)
    (hlat : t.lat.length < 6) (gga : GGASTRUCT) (sink : List SinkOp) :
    ∃ r, GGA_analysis t.render gga sink = some r ∧ r.2 = sink ∧
      r.1.latitude = gga.latitude ∧ r.1.NS = gga.NS ∧ r.1.longitude = gga.longitude ∧
      r.1.EW = gga.EW ∧ r.1.numofsat = gga.numofsat ∧ r.1.altitude = gga.altitude ∧
      r.1.unit = gga.unit ∧ r.1.fixbit_gga = 1 ∧
      ∃ r0, GGA_analysis ({ t with fix := 48 } : GGAText).render gga sink = some r0 ∧
        r0.1.fixbit_gga = 0 ∧ r ≠ r0 := by
  refine ⟨_, GGA_analysis_short t hf hfix hlat gga sink, rfl, rfl, rfl, rfl, rfl, rfl, rfl, rfl,
    rfl, ?_⟩
  have hf0 : ({ t with fix := 48 } : GGAText).framed := hf
  obtain ⟨hc, hl⟩ := GGAText.sixth_comma _ hf0
  have run0 := GGA_analysis_entry (GGAText.render_split _) hc hl gga sink
  rw [if_pos rfl] at run0
  refine ⟨_, run0, rfl, ?_⟩
  intro h
  have := congrArg (fun r => r.1.fixbit_gga) h
  simp [store_time] at this

/-- C8. For every buffer whose second comma lies in the first 60 bytes (at index
`pre.length`) and is followed by the byte `b`: when `b` is not `A` (65) `RMC_analysis`
returns at once with `fixbit_rmc = 0`, with Day, Mon, Yr, speed and course and the sink
unchanged; when `b` is `A` it sets `fixbit_rmc = 1` and goes on with the body, which never
writes `fixbit_rmc`; so a run that returns leaves `fixbit_rmc = 1` exactly when `b`
is `A`. -/
theorem C8_validity_check (input pre rest : List Nat) (b : Nat)
    (hin : input = pre ++ 44 :: b :: rest) (hc : pre.count 44 = 1) (hl : pre.length < 60)
    (rmc : RMCSTRUCT) (sink : List SinkOp) :
    (b ≠ 65 → RMC_analysis input rmc sink = some ({ rmc with fixbit_rmc := 0 }, sink)) ∧
    (b = 65 →
      RMC_analysis input rmc sink = RMC_fields input { rmc with fixbit_rmc := 1 } sink) ∧
    (∀ r, RMC_analysis input rmc sink = some r → (r.1.fixbit_rmc = 1 ↔ b = 65)) := by
  have entry := RMC_analysis_entry hin hc hl rmc sink
  refine ⟨fun hb => by rw [entry, if_neg hb], fun hb => by rw [entry, if_pos hb], ?_⟩
  intro r hr
  by_cases hb : b = 65
  · rw [entry, if_pos hb] at hr
    have := RMC_fields_fixbit hr
    exact ⟨fun _ => hb, fun _ => this⟩
  · rw [entry, if_neg hb, Option.some.injEq] at hr
    subst hr
    simp [hb]

/-- C8, witness: the sample velocity/date sentence with status `V`. -/
theorem C8_validity_check_witness :
    (bytes "$GPRMC,123519,V,,,,,,,230394,,W" = bytes "$GPRMC,123519" ++ 44 :: 86 :: bytes ",,,,,,,230394,,W"
      ∧ (bytes "$GPRMC,123519").count 44 = 1 ∧ (bytes "$GPRMC,123519").length < 60) ∧
    RMC_analysis (bytes "$GPRMC,123519,V,,,,,,,230394,,W") rmc_zero []
      = some ({ rmc_zero with fixbit_rmc := 0 }, []) :=
  ⟨⟨by decide, by decide, by decide⟩,
   (C8_validity_check (bytes "$GPRMC,123519,V,,,,,,,230394,,W") (bytes "$GPRMC,123519")
      (bytes ",,,,,,,230394,,W") 86 (by decide) (by decide) (by decide) rmc_zero []).1
      (by decide)⟩

set_option maxRecDepth 1000000 in
/-- C9, counterexample. With the speed field `40000.5`, of the form digits, point, digits,
the sample sentence leaves speed -25535.5, not 40000.5: the integer part passes through
an `int16_t`. -/
theorem C9_counterexample :
    fixed_point_text (bytes "40000.5") (bytes "40000") (bytes "5") ∧
    ∃ r, RMC_analysis rmc_fast rmc_zero [] = some r ∧
      r.1.speed = -(255355 / 10) ∧
      r.1.speed ≠ fixed_point_value (bytes "40000") (bytes "5") := by
  have e : (RMC_analysis rmc_fast rmc_zero []).map (fun r => r.1.speed)
      = some (-(255355 / 10)) := by with_unfolding_all rfl
  obtain ⟨r, hr, v⟩ := Option.map_eq_some'.1 e
  have e1 : digits_value (bytes "40000") = 40000 := by decide
  have e2 : digits_value (bytes "5") = 5 := by decide
  have l1 : (bytes "5").length = 1 := by decide
  refine ⟨by decide, r, hr, v, ?_⟩
  rw [v, fixed_point_value, e1, e2, l1]
  norm_num

/-- C9, amended. For every framed velocity/date sentence with status `A`, whose speed field
(the field after the 7th comma) and course field (the next field) are each empty or of the
form `ip.fp` with an integer part of at most 32767 (the range of `int16_t`), `RMC_analysis`
stores as speed and course the `float` computed as
integerPart + fractionDigits/10^fractionLength (quotient and sum in `double`, the result
narrowed to `float`), which lies within `2^-23` of the decimal value of the field,
relative to it, and 0 for an empty field. -/
theorem C9_speed_course (t : RMCText) (sp_i sp_f co_i co_f : List Nat)
    (hf : t.framed) (hst : t.status = 65)
    (hsp : knots_text t.speed sp_i sp_f) (hco : knots_text t.course co_i co_f)
    (hsr : digits_value sp_i ≤ 32767) (hcr : digits_value co_i ≤ 32767)
    (rmc : RMCSTRUCT) (sink : List SinkOp) :
    ∃ r, RMC_analysis t.render rmc sink = some r ∧
      r.1.speed = fixed_point_float sp_i sp_f ∧
      r.1.course = fixed_point_float co_i co_f ∧
      |r.1.speed - fixed_point_value sp_i sp_f| ≤ fixed_point_value sp_i sp_f / 2 ^ 23 ∧
      |r.1.course - fixed_point_value co_i co_f| ≤ fixed_point_value co_i co_f / 2 ^ 23 ∧
      (t.speed = [] → r.1.speed = 0) ∧ (t.course = [] → r.1.course = 0) := by
  have hsl : t.speed.length ≤ 11 := hf.2.2.2.2.2.2.2.2.2.1
  have hcl : t.course.length ≤ 11 := hf.2.2.2.2.2.2.2.2.2.2.2.1
  have run := RMC_analysis_text t hf hst (knots_text_value hsp hsl) (knots_text_value hco hcl)
    rmc sink
  have vs : float_sum (to_int16 (digits_value sp_i)) (digits_value sp_f) sp_f.length
      = fixed_point_float sp_i sp_f := by
    rw [to_int16_small hsr, fixed_point_float]
  have vc : float_sum (to_int16 (digits_value co_i)) (digits_value co_f) co_f.length
      = fixed_point_float co_i co_f := by
    rw [to_int16_small hcr, fixed_point_float]
  have short : ∀ fld ip fp : List Nat, knots_text fld ip fp → fld.length ≤ 11 →
      fp.length ≤ 12 := by
    intro fld ip fp h hl
    rcases h with ⟨_, _, rfl⟩ | ⟨h, _⟩
    · simp
    · rw [h] at hl
      simp only [List.length_append, List.length_cons] at hl
      omega
  have empty : ∀ fld ip fp : List Nat, knots_text fld ip fp → fld = [] →
      fixed_point_float ip fp = 0 := by
    intro fld ip fp h he
    rcases h with ⟨_, rfl, rfl⟩ | ⟨h, _⟩
    · exact fixed_point_float_empty
    · rw [he] at h; simp at h
  refine ⟨_, run, vs, vc, ?_, ?_, fun he => ?_, fun he => ?_⟩
  · show |float_sum (to_int16 (digits_value sp_i)) (digits_value sp_f) sp_f.length - _| ≤ _
    rw [vs]
    exact fixed_point_float_error sp_i sp_f (short _ _ _ hsp hsl)
  · show |float_sum (to_int16 (digits_value co_i)) (digits_value co_f) co_f.length - _| ≤ _
    rw [vc]
    exact fixed_point_float_error co_i co_f (short _ _ _ hco hcl)
  · exact vs.trans (empty _ _ _ hsp he)
  · exact vc.trans (empty _ _ _ hco he)

set_option maxRecDepth 1000000 in
/-- C9, witness: the sample sentence, where 022.4 gives the `float` 22.4 (11744051/524288)
and 084.4 gives the `float` 84.4 (11062477/131072). -/
theorem C9_speed_course_witness :
    ((rmc_sample_text "022.4" "084.4").framed ∧ (rmc_sample_text "022.4" "084.4").status = 65 ∧
      knots_text (bytes "022.4") (bytes "022") (bytes "4") ∧
      knots_text (bytes "084.4") (bytes "084") (bytes "4") ∧
      digits_value (bytes "022") ≤ 32767 ∧ digits_value (bytes "084") ≤ 32767) ∧
    ∃ r, RMC_analysis (rmc_sample_text "022.4" "084.4").render rmc_zero [] = some r ∧
      r.1.speed = to_float (224 / 10) ∧ r.1.speed = 11744051 / 524288 ∧
      r.1.course = to_float (844 / 10) ∧ r.1.course = 11062477 / 131072 := by
  refine ⟨⟨by decide, by decide, by decide, by decide, by decide, by decide⟩, ?_⟩
  obtain ⟨r, hr, h1, h2, _⟩ := C9_speed_course (rmc_sample_text "022.4" "084.4")
    (bytes "022") (bytes "4") (bytes "084") (bytes "4")
    (by decide) (by decide) (by decide) (by decide) (by decide) (by decide) rmc_zero []
  have e1 : fixed_point_float (bytes "022") (bytes "4") = 11744051 / 524288 := by
    with_unfolding_all rfl
  have e2 : fixed_point_float (bytes "084") (bytes "4") = 11062477 / 131072 := by
    with_unfolding_all rfl
  have e3 : to_float (224 / 10) = 11744051 / 524288 := by with_unfolding_all rfl
  have e4 : to_float (844 / 10) = 11062477 / 131072 := by with_unfolding_all rfl
  exact ⟨r, hr, h1.trans (e1.trans e3.symm), h1.trans e1, h2.trans (e2.trans e4.symm),
    h2.trans e2⟩

/-- C10. For every framed velocity/date sentence with status `A`, whose speed and course
fields are each empty or of the form digits, point, digits, and whose field after the
course field is the six digits DDMMYY, `RMC_analysis` stores Day = DD, Mon = MM and
Yr = YY. -/
theorem C10_date (t : RMCText) (d1 d2 m1 m2 y1 y2 : Nat) (sp_i sp_f co_i co_f : List Nat)
    (hf : t.framed) (hst : t.status = 65)
    (hsp : knots_text t.speed sp_i sp_f) (hco : knots_text t.course co_i co_f)
    (hdate : t.date = [d1, d2, m1, m2, y1, y2])
    (hdig : ∀ c ∈ [d1, d2, m1, m2, y1, y2], is_digit c)
    (rmc : RMCSTRUCT) (sink : List SinkOp) :
    ∃ r, RMC_analysis t.render rmc sink = some r ∧
      r.1.Day = (digits_value [d1, d2] : Int) ∧
      r.1.Mon = (digits_value [m1, m2] : Int) ∧
      r.1.Yr = (digits_value [y1, y2] : Int) := by
  have hsl : t.speed.length ≤ 11 := hf.2.2.2.2.2.2.2.2.2.1
  have hcl : t.course.length ≤ 11 := hf.2.2.2.2.2.2.2.2.2.2.2.1
  have run := RMC_analysis_text t hf hst (knots_text_value hsp hsl) (knots_text_value hco hcl)
    rmc sink
  refine ⟨_, run, ?_, ?_, ?_⟩
  · show digit_pair (pad t.date) 0 = _
    rw [hdate, digit_pair_pad _ 0 d1 d2 rfl rfl (hdig _ (by simp)) (hdig _ (by simp))]
  · show digit_pair (pad t.date) 2 = _
    rw [hdate, digit_pair_pad _ 2 m1 m2 rfl rfl (hdig _ (by simp)) (hdig _ (by simp))]
  · show digit_pair (pad t.date) 4 = _
    rw [hdate, digit_pair_pad _ 4 y1 y2 rfl rfl (hdig _ (by simp)) (hdig _ (by simp))]

/-- C10, witness: the sample sentence with empty speed and course fields, where 230394
gives Day 23, Mon 3 and Yr 94. -/
theorem C10_date_witness :
    ((rmc_sample_text "" "").framed ∧ (rmc_sample_text "" "").status = 65 ∧
      knots_text (bytes "") [] [] ∧
      (rmc_sample_text "" "").date = [50, 51, 48, 51, 57, 52] ∧
      (∀ c ∈ [50, 51, 48, 51, 57, 52], is_digit c)) ∧
    ∃ r, RMC_analysis (rmc_sample_text "" "").render rmc_zero [] = some r ∧
      r.1.Day = 23 ∧ r.1.Mon = 3 ∧ r.1.Yr = 94 := by
  refine ⟨⟨by decide, by decide, by decide, by decide, by decide⟩, ?_⟩
  obtain ⟨r, hr, h1, h2, h3⟩ := C10_date (rmc_sample_text "" "") 50 51 48 51 57 52 [] [] [] []
    (by decide) (by decide) (by decide) (by decide) (by decide) (by decide) rmc_zero []
  exact ⟨r, hr, h1.trans (by decide), h2.trans (by decide), h3.trans (by decide)⟩

/-! ## The receive handler, one byte at a time -/

theorem slots_get {s : Device} (hs : s.slots_ok) {n : Nat} (hn : n < 8) :
    ∃ slot, s.NMEA[n]? = some slot ∧ slot.length = 100 := by
  have hlt : n < s.NMEA.length := by rw [hs.1]; exact hn
  exact ⟨s.NMEA[n], List.getElem?_eq_getElem hlt, hs.2 _ (List.getElem_mem hlt)⟩

theorem slot_store_eq {NMEA : List (List Nat)} {n : Nat} {i : Int} {slot : List Nat} (c : Nat)
    (hs : NMEA[n]? = some slot) (h0 : 0 ≤ i) (h1 : i.toNat < slot.length) :
    slot_store NMEA n i c = some (NMEA.set n (slot.set i.toNat c)) := by
  simp [slot_store, array_index, h0, hs, h1]

theorem set_get_self {α : Type} {l : List α} {n : Nat} {a x : α} (h : l[n]? = some a) :
    (l.set n x)[n]? = some x := by
  have hlt : n < l.length := by
    by_contra hn
    rw [List.getElem?_eq_none (by omega)] at h
    exact absurd h (by simp)
  simp [List.getElem?_set_self hlt]

/-- A call without RXNE changes nothing. -/
theorem usart2_call_idle (dr : Nat) (s : Device) : usart2_call false dr s = some s := by
  simp [usart2_call]

/-- The handler on a byte other than line feed, cursor inside the slots. -/
theorem usart2_rx_byte {s : Device} {dr : Nat} {slot : List Nat}
    (hslot : s.NMEA[s.nmea_count]? = some slot) (h0 : 0 ≤ s.buf_count)
    (h1 : s.buf_count.toNat < slot.length) (hdr : dr ≠ 10) :
    usart2_call true dr s
      = some { s with
          NMEA := s.NMEA.set s.nmea_count (slot.set s.buf_count.toNat (dr % 256))
          buf_count := s.buf_count + 1 } := by
  simp [usart2_call, usart2_rx, slot_store_eq _ hslot h0 h1, hdr]

/-- The three stores of a line feed at byte offset `k ≥ 1` leave the trimmed slots. -/
theorem line_feed_stores {s : Device} {slot : List Nat}
    (hslot : s.NMEA[s.nmea_count]? = some slot) (h0 : 1 ≤ s.buf_count)
    (h1 : s.buf_count.toNat < slot.length) :
    ((slot_store s.NMEA s.nmea_count s.buf_count (10 % 256)).bind fun stored =>
      (slot_store stored s.nmea_count s.buf_count 0).bind fun cut =>
        slot_store cut s.nmea_count (s.buf_count - 1) 0)
      = some (trim_slots s.NMEA s.nmea_count s.buf_count.toNat) := by
  have hk : (s.buf_count - 1).toNat = s.buf_count.toNat - 1 := by omega
  have e1 := slot_store_eq (10 % 256) hslot (by omega) h1
  have g1 := set_get_self (x := slot.set s.buf_count.toNat (10 % 256)) hslot
  have e2 := slot_store_eq 0 g1 (by omega : (0 : Int) ≤ s.buf_count) (by simpa using h1)
  have g2 := set_get_self (x := (slot.set s.buf_count.toNat (10 % 256)).set s.buf_count.toNat 0) g1
  have e3 := slot_store_eq 0 g2 (by omega : (0 : Int) ≤ s.buf_count - 1)
    (by rw [hk]; simp; omega)
  rw [e1, Option.some_bind, e2, Option.some_bind, e3, hk]
  simp [trim_slots, hslot, List.set_set]

/-- The handler on a line feed, cursor at byte offset `k ≥ 1` inside the slots. -/
theorem usart2_rx_line_feed {s : Device} {slot : List Nat}
    (hslot : s.NMEA[s.nmea_count]? = some slot) (h0 : 1 ≤ s.buf_count)
    (h1 : s.buf_count.toNat < slot.length) (hn : s.nmea_count < 8) :
    usart2_call true 10 s =
      if s.nmea_count = 7 then usart2_dispatch s.round_end
      else some { s with
        NMEA := trim_slots s.NMEA s.nmea_count s.buf_count.toNat
        buf_count := 1
        nmea_count := s.nmea_count + 1 } := by
  have hst := line_feed_stores hslot h0 h1
  have hmod : (s.nmea_count + 1) % UINT32_MOD = s.nmea_count + 1 := by
    unfold UINT32_MOD; omega
  unfold usart2_call usart2_rx
  simp only [if_true]
  cases h1s : slot_store s.NMEA s.nmea_count s.buf_count (10 % 256) with
  | none => rw [h1s] at hst; simp at hst
  | some stored =>
    rw [h1s, Option.some_bind] at hst
    rw [Option.some_bind]
    cases h2s : slot_store stored s.nmea_count s.buf_count 0 with
    | none => rw [h2s] at hst; simp at hst
    | some cut =>
      rw [h2s, Option.some_bind] at hst
      rw [Option.some_bind, hst, Option.some_bind, hmod]
      by_cases h7 : s.nmea_count = 7
      · simp [h7, Device.round_end]
      · have : ¬ s.nmea_count + 1 = 8 := by omega
        simp [h7, this]

/-- The parser call that lines 152-164 make in state `t`. -/
theorem usart2_dispatch_effect {t t2 : Device} (h : usart2_dispatch t = some t2) :
    t2.NMEA = t.NMEA ∧ t2.buf_count = t.buf_count ∧ t2.nmea_count = t.nmea_count ∧
    t2.uart_incr_ticks = t.uart_incr_ticks ∧ t2.usart2_ue = t.usart2_ue ∧
    t2.usart2_irq = t.usart2_irq ∧ t2.systick_count = 0 ∧
    t2.even_counter = (if t.even_counter % 2 = 0 then 1 else 0) ∧
    t2.parser_calls = t.parser_calls ++
      [if t.even_counter % 2 = 0 then ParserCall.GGA_analysis 2 else ParserCall.RMC_analysis 0] := by
  unfold usart2_dispatch at h
  by_cases he : t.even_counter % 2 = 0
  · simp only [he, if_true, Option.bind_eq_some, Option.map_eq_some'] at h
    obtain ⟨_, _, _, _, rfl⟩ := h
    simp [he]
  · simp only [he, if_false, Option.bind_eq_some, Option.map_eq_some'] at h
    obtain ⟨_, _, _, _, rfl⟩ := h
    simp [he]

/-- Lines 152-164 return exactly when the chosen parser returns on its slot. -/
theorem usart2_dispatch_returns {t : Device} {g r : List Nat}
    (hg : t.NMEA[2]? = some g) (hr : t.NMEA[0]? = some r) :
    (usart2_dispatch t).isSome =
      if t.even_counter % 2 = 0 then (GGA_analysis g t.gnssTransfer.GGA t.sink).isSome
      else (RMC_analysis r t.gnssTransfer.RMC t.sink).isSome := by
  unfold usart2_dispatch
  by_cases he : t.even_counter % 2 = 0
  · simp only [he, if_true, hg, Option.some_bind, Option.isSome_map']
  · simp only [he, if_false, hr, Option.some_bind, Option.isSome_map']

/-- The three ways a handled byte changes the state. -/
theorem usart2_rx_cases {dr : Nat} {s s2 : Device} (h : usart2_call true dr s = some s2) :
    (dr ≠ 10 ∧ ∃ stored, s2 = { s with NMEA := stored, buf_count := s.buf_count + 1 }) ∨
    (dr = 10 ∧ (s.nmea_count + 1) % UINT32_MOD ≠ 8 ∧ ∃ trimmed,
      s2 = { s with NMEA := trimmed, buf_count := 0 + 1,
                    nmea_count := (s.nmea_count + 1) % UINT32_MOD }) ∨
    (dr = 10 ∧ (s.nmea_count + 1) % UINT32_MOD = 8 ∧ ∃ trimmed,
      usart2_dispatch { s with
        NMEA := trimmed, buf_count := 0, nmea_count := 0,
        uart_incr_ticks := (s.uart_incr_ticks + 1) % UINT32_MOD,
        usart2_ue := false, usart2_irq := false } = some s2) := by
  unfold usart2_call usart2_rx at h
  simp only [if_true, Option.bind_eq_some] at h
  obtain ⟨stored, _, h⟩ := h
  by_cases hdr : dr = 10
  · simp only [hdr, if_true, Option.bind_eq_some] at h
    obtain ⟨_, _, trimmed, _, h⟩ := h
    by_cases h8 : (s.nmea_count + 1) % UINT32_MOD = 8
    · simp only [h8, if_true] at h
      exact Or.inr (Or.inr ⟨hdr, h8, trimmed, h⟩)
    · simp only [h8, if_false, Option.some.injEq] at h
      exact Or.inr (Or.inl ⟨hdr, h8, trimmed, h.symm⟩)
  · simp only [hdr, if_false, Option.some.injEq] at h
    exact Or.inl ⟨hdr, stored, h.symm⟩

/-! ## The receive handler over a byte stream -/

theorem alternating_calls_succ (k : Nat) :
    alternating_calls (k + 1) = alternating_calls k ++
      [if k % 2 = 0 then ParserCall.GGA_analysis 2 else ParserCall.RMC_analysis 0] := by
  simp [alternating_calls, List.range_succ]

theorem alternating_calls_length (k : Nat) : (alternating_calls k).length = k := by
  simp [alternating_calls]

/-- One handled byte keeps the relation between the cursor and the number of line feeds
received: a line feed counts one more, any other byte none. -/
theorem usart2_call_line_feeds {dr : Nat} {s s2 : Device} {c : Nat}
    (h : usart2_call true dr s = some s2) (hi : s.after_line_feeds c) :
    s2.after_line_feeds (c + if dr = 10 then 1 else 0) := by
  obtain ⟨h1, h2, h3⟩ := hi
  rcases usart2_rx_cases h with ⟨hdr, _, rfl⟩ | ⟨hdr, h8, _, rfl⟩ | ⟨hdr, h8, _, hd⟩
  · simp only [hdr, if_false, Nat.add_zero]
    exact ⟨h1, h2, h3⟩
  · have hlt : s.nmea_count + 1 < 8 := by
      unfold UINT32_MOD at h8; omega
    have hm : (s.nmea_count + 1) % UINT32_MOD = s.nmea_count + 1 := by
      unfold UINT32_MOD; omega
    have hq : (c + 1) / 8 = c / 8 := by omega
    simp only [hdr, if_true]
    refine ⟨?_, ?_, ?_⟩
    · show (s.nmea_count + 1) % UINT32_MOD = (c + 1) % 8
      rw [hm]; omega
    · show s.parser_calls = alternating_calls ((c + 1) / 8)
      rw [hq]; exact h2
    · show s.even_counter = (c + 1) / 8 % 2
      rw [hq]; exact h3
  · have h7 : s.nmea_count = 7 := by
      unfold UINT32_MOD at h8; omega
    have hq : (c + 1) / 8 = c / 8 + 1 := by omega
    obtain ⟨_, _, e3, _, _, _, _, e8, e9⟩ := usart2_dispatch_effect hd
    simp only [hdr, if_true]
    refine ⟨?_, ?_, ?_⟩
    · rw [e3]; show 0 = (c + 1) % 8
      omega
    · rw [e9, hq, alternating_calls_succ]
      show s.parser_calls ++ [if s.even_counter % 2 = 0 then _ else _] = _
      rw [h2, h3]
      simp
    · rw [e8, hq]
      show (if s.even_counter % 2 = 0 then 1 else 0) = _
      rw [h3]
      rcases Nat.mod_two_eq_zero_or_one (c / 8) with e | e
      · simp [e]; omega
      · simp [e]; omega

theorem init_after_line_feeds : Device.init.after_line_feeds 0 := by
  refine ⟨rfl, rfl, rfl⟩

/-- After a stream `bs` the cursor is the one of `c + (number of line feeds in bs)` line
feeds. -/
theorem usart2_run_line_feeds (bs : List Nat) :
    ∀ (s s2 : Device) (c : Nat), usart2_run bs s = some s2 → s.after_line_feeds c →
      s2.after_line_feeds (c + bs.count 10) := by
  induction bs with
  | nil =>
    intro s s2 c h hi
    simp only [usart2_run, Option.some.injEq] at h
    subst h
    simpa using hi
  | cons b rest ih =>
    intro s s2 c h hi
    simp only [usart2_run, Option.bind_eq_some] at h
    obtain ⟨s1, h1, h2⟩ := h
    have := ih s1 s2 _ h2 (usart2_call_line_feeds h1 hi)
    by_cases hb : b = 10
    · subst hb
      simp only [if_true] at this
      simp only [List.count_cons_self]
      rw [show c + (List.count 10 rest + 1) = c + 1 + List.count 10 rest by omega]
      exact this
    · simp only [hb, if_false, Nat.add_zero] at this
      rw [List.count_cons_of_ne (fun e => hb e.symm)]
      exact this

theorem usart2_run_append (p q : List Nat) (s : Device) :
    usart2_run (p ++ q) s = (usart2_run p s).bind (usart2_run q) := by
  induction p generalizing s with
  | nil => simp [usart2_run]
  | cons b rest ih =>
    simp only [List.cons_append, usart2_run]
    cases usart2_call true b s with
    | none => simp
    | some s1 => simp [ih]

/-! ## The claims on the receive handler -/

theorem trim_slots_byte {s : Device} {slot : List Nat}
    (hslot : s.NMEA[s.nmea_count]? = some slot) (h0 : 1 ≤ s.buf_count)
    (h1 : s.buf_count.toNat < slot.length) (t : Device)
    (ht : t.NMEA = trim_slots s.NMEA s.nmea_count s.buf_count.toNat) :
    t.slot_byte s.nmea_count s.buf_count.toNat = some 0 ∧
    t.slot_byte s.nmea_count (s.buf_count.toNat - 1) = some 0 ∧
    ∀ j, j < s.buf_count.toNat - 1 →
      t.slot_byte s.nmea_count j = s.slot_byte s.nmea_count j := by
  have hk : 1 ≤ s.buf_count.toNat := by omega
  have hget : (trim_slots s.NMEA s.nmea_count s.buf_count.toNat)[s.nmea_count]?
      = some ((slot.set s.buf_count.toNat 0).set (s.buf_count.toNat - 1) 0) := by
    unfold trim_slots
    rw [set_get_self hslot]
    simp [hslot]
  unfold Device.slot_byte
  rw [ht, hget, hslot]
  simp only [Option.some_bind]
  refine ⟨?_, ?_, ?_⟩
  · rw [List.getElem?_set_ne (by omega), List.getElem?_set_self h1]
  · rw [List.getElem?_set_self (by simp; omega)]
  · intro j hj
    rw [List.getElem?_set_ne (by omega), List.getElem?_set_ne (by omega)]

/-- C11, counterexample. From start-up, after the stream `ab`, CR, LF (a line feed handled
at slot index 0) the byte offset is 1, not 0; the next byte `c` is stored at offset 1 of
slot 1, offset 0 of that slot keeping its old content. -/
theorem C11_counterexample :
    (usart2_run (bytes "ab\r\n") Device.init).map (fun s => (s.nmea_count, s.buf_count))
      = some (1, 1) ∧
    (usart2_run (bytes "ab\r\nc") Device.init).map
        (fun s => (s.slot_byte 1 0, s.slot_byte 1 1, s.buf_count))
      = some (some 0, some 99, 2) := by
  constructor <;> decide

/-- C11, amended. For every state with the cursor inside the slots at a byte offset of at
least 1: after a line feed handled at slot index 0..6 the byte offset is 1 (the reset to 0
is followed by the increment common to all bytes), and the slot index is one more; after a
line feed handled at slot index 7, which dispatches a parser, the byte offset is 0 and the
slot index 0 in every state the handler returns. -/
theorem C11_offset_after_line_feed (s : Device) (hs : s.slots_ok) (hc : s.cursor_ok)
    (hk : 1 ≤ s.buf_count) :
    (s.nmea_count < 7 → ∃ s2, usart2_call true 10 s = some s2 ∧ s2.buf_count = 1 ∧
      s2.nmea_count = s.nmea_count + 1) ∧
    (s.nmea_count = 7 → usart2_call true 10 s = usart2_dispatch s.round_end ∧
      ∀ s2, usart2_call true 10 s = some s2 → s2.buf_count = 0 ∧ s2.nmea_count = 0) := by
  obtain ⟨hn, h0, h100⟩ := hc
  obtain ⟨slot, hslot, hlen⟩ := slots_get hs hn
  have step := usart2_rx_line_feed hslot hk (by omega) hn
  constructor
  · intro h7
    rw [if_neg (by omega)] at step
    exact ⟨_, step, rfl, rfl⟩
  · intro h7
    rw [if_pos h7] at step
    refine ⟨step, fun s2 h2 => ?_⟩
    rw [step] at h2
    obtain ⟨_, e2, e3, _⟩ := usart2_dispatch_effect h2
    exact ⟨e2, e3⟩

/-- C11, witness: the start-up state with the cursor at byte offset 3 of slot 0. -/
theorem C11_offset_after_line_feed_witness :
    ((cursor_at 0 3).slots_ok ∧ (cursor_at 0 3).cursor_ok ∧ 1 ≤ (cursor_at 0 3).buf_count) ∧
    ∃ s2, usart2_call true 10 (cursor_at 0 3) = some s2 ∧ s2.buf_count = 1 ∧
      s2.nmea_count = (cursor_at 0 3).nmea_count + 1 :=
  ⟨⟨by decide, by decide, by decide⟩,
   (C11_offset_after_line_feed (cursor_at 0 3) (by decide) (by decide) (by decide)).1
     (by decide)⟩

/-- C12. For every state with the cursor inside the slots at byte offset `k ≥ 1`, a line
feed leaves NUL at offsets `k` and `k - 1` of the active slot, keeps every earlier byte of
that slot, and advances the slot index by one, to 0 from 7. At slot index 0..6 the handler
always returns; at slot index 7 it goes on with the parser dispatch in the trimmed state. -/
theorem C12_line_feed_trim (s : Device) (hs : s.slots_ok) (hc : s.cursor_ok)
    (hk : 1 ≤ s.buf_count) :
    (s.nmea_count < 7 → (usart2_call true 10 s).isSome = true) ∧
    (s.nmea_count = 7 → usart2_call true 10 s = usart2_dispatch s.round_end) ∧
    ∀ s2, usart2_call true 10 s = some s2 →
      s2.slot_byte s.nmea_count s.buf_count.toNat = some 0 ∧
      s2.slot_byte s.nmea_count (s.buf_count.toNat - 1) = some 0 ∧
      (∀ j, j < s.buf_count.toNat - 1 →
        s2.slot_byte s.nmea_count j = s.slot_byte s.nmea_count j) ∧
      s2.nmea_count = (s.nmea_count + 1) % 8 := by
  obtain ⟨hn, h0, h100⟩ := hc
  obtain ⟨slot, hslot, hlen⟩ := slots_get hs hn
  have hlt : s.buf_count.toNat < slot.length := by omega
  have step := usart2_rx_line_feed hslot hk hlt hn
  refine ⟨fun h7 => ?_, fun h7 => ?_, fun s2 h2 => ?_⟩
  · rw [step, if_neg (by omega)]; rfl
  · rw [step, if_pos h7]
  · rw [step] at h2
    by_cases h7 : s.nmea_count = 7
    · rw [if_pos h7] at h2
      obtain ⟨e1, _, e3, _⟩ := usart2_dispatch_effect h2
      obtain ⟨b1, b2, b3⟩ := trim_slots_byte hslot hk hlt s2 e1
      refine ⟨b1, b2, b3, ?_⟩
      rw [e3, h7]; rfl
    · rw [if_neg h7, Option.some.injEq] at h2
      have hN : s2.NMEA = trim_slots s.NMEA s.nmea_count s.buf_count.toNat := by rw [← h2]
      have hc : s2.nmea_count = s.nmea_count + 1 := by rw [← h2]
      obtain ⟨b1, b2, b3⟩ := trim_slots_byte hslot hk hlt s2 hN
      refine ⟨b1, b2, b3, ?_⟩
      rw [hc]
      omega

set_option maxRecDepth 1000000 in
/-- C12, witness: the last line feed of a first round (slot index 7), where the handler
returns with slot index 0. -/
theorem C12_line_feed_trim_witness :
    (round_pending.slots_ok ∧ round_pending.cursor_ok ∧ 1 ≤ round_pending.buf_count) ∧
    ∃ s2, usart2_call true 10 round_pending = some s2 ∧
      s2.slot_byte 7 round_pending.buf_count.toNat = some 0 ∧
      s2.slot_byte 7 (round_pending.buf_count.toNat - 1) = some 0 ∧ s2.nmea_count = 0 := by
  refine ⟨⟨by decide, by decide, by decide⟩, ?_⟩
  have hsome : (usart2_call true 10 round_pending).isSome = true := by decide
  obtain ⟨s2, h2⟩ := Option.isSome_iff_exists.1 hsome
  obtain ⟨b1, b2, _, b4⟩ :=
    (C12_line_feed_trim round_pending (by decide) (by decide) (by decide)).2.2 s2 h2
  have e7 : round_pending.nmea_count = 7 := by decide
  rw [e7] at b1 b2 b4
  exact ⟨s2, h2, b1, b2, b4⟩

theorem usart2_calls_received (steps : List (Bool × Nat)) :
    ∀ s, usart2_calls steps s = usart2_run (received steps) s := by
  induction steps with
  | nil => intro s; rfl
  | cons step rest ih =>
    intro s
    obtain ⟨rx, dr⟩ := step
    cases rx with
    | false =>
      simp only [usart2_calls, usart2_call_idle, Option.some_bind, ih]
      rfl
    | true =>
      have e : received ((true, dr) :: rest) = dr :: received rest := rfl
      rw [e]
      simp only [usart2_calls, usart2_run]
      cases usart2_call true dr s with
      | none => rfl
      | some s1 => simp [ih]

/-- C13. For every state with the cursor inside the slots and every received byte other
than line feed, `usart2_call` returns: it has stored the byte in the active slot at the
current byte offset and increased the byte offset by one; the slot index, the round
counter, the alternation flag, the elapsed-sample counter, every other slot and every
other byte of the active slot are unchanged, and no parser has run (no parser call, the
parsed records and the sink unchanged). -/
theorem C13_byte_store (s : Device) (dr : Nat) (hs : s.slots_ok) (hc : s.cursor_ok)
    (hdr : dr ≠ 10) (hb : dr < 256) :
    ∃ s2, usart2_call true dr s = some s2 ∧
      s2.slot_byte s.nmea_count s.buf_count.toNat = some dr ∧
      s2.buf_count = s.buf_count + 1 ∧
      s2.nmea_count = s.nmea_count ∧ s2.uart_incr_ticks = s.uart_incr_ticks ∧
      s2.even_counter = s.even_counter ∧ s2.systick_count = s.systick_count ∧
      (∀ m, m ≠ s.nmea_count → s2.NMEA[m]? = s.NMEA[m]?) ∧
      (∀ j, j ≠ s.buf_count.toNat →
        s2.slot_byte s.nmea_count j = s.slot_byte s.nmea_count j) ∧
      s2.parser_calls = s.parser_calls ∧ s2.gnssTransfer = s.gnssTransfer ∧
      s2.sink = s.sink := by
  obtain ⟨hn, h0, h100⟩ := hc
  obtain ⟨slot, hslot, hlen⟩ := slots_get hs hn
  have hlt : s.buf_count.toNat < slot.length := by omega
  have hmod : dr % 256 = dr := Nat.mod_eq_of_lt hb
  refine ⟨_, usart2_rx_byte hslot h0 hlt hdr, ?_, rfl, rfl, rfl, rfl, rfl, ?_, ?_, rfl, rfl, rfl⟩
  · show ((s.NMEA.set s.nmea_count (slot.set s.buf_count.toNat (dr % 256)))[s.nmea_count]?).bind
      (fun slot => slot[s.buf_count.toNat]?) = some dr
    rw [set_get_self hslot, Option.some_bind, List.getElem?_set_self hlt, hmod]
  · intro m hm
    show (s.NMEA.set s.nmea_count (slot.set s.buf_count.toNat (dr % 256)))[m]? = s.NMEA[m]?
    rw [List.getElem?_set_ne (fun e => hm e.symm)]
  · intro j hj
    show ((s.NMEA.set s.nmea_count (slot.set s.buf_count.toNat (dr % 256)))[s.nmea_count]?).bind
      (fun slot => slot[j]?) = (s.NMEA[s.nmea_count]?).bind (fun slot => slot[j]?)
    rw [set_get_self hslot, hslot, Option.some_bind, Option.some_bind,
      List.getElem?_set_ne (fun e => hj e.symm)]

/-- C13, witness: the byte `A` received with the cursor at byte offset 3 of slot 2. -/
theorem C13_byte_store_witness :
    ((cursor_at 2 3).slots_ok ∧ (cursor_at 2 3).cursor_ok ∧ (65 : Nat) ≠ 10 ∧ (65 : Nat) < 256) ∧
    ∃ s2, usart2_call true 65 (cursor_at 2 3) = some s2 ∧ s2.slot_byte 2 3 = some 65 ∧
      s2.buf_count = 4 ∧ s2.nmea_count = 2 := by
  refine ⟨⟨by decide, by decide, by decide, by decide⟩, ?_⟩
  obtain ⟨s2, h, b1, b2, b3, _⟩ :=
    C13_byte_store (cursor_at 2 3) 65 (by decide) (by decide) (by decide) (by decide)
  exact ⟨s2, h, b1, b2, b3⟩

/-- C14. In every state reached from start-up by a sequence of `usart2_call` steps, with
or without a received byte, the slot index lies in 0..7 and the alternation flag is 0
or 1. -/
theorem C14_reachable_cursor (steps : List (Bool × Nat)) (s : Device)
    (h : usart2_calls steps Device.init = some s) :
    s.nmea_count < 8 ∧ (s.even_counter = 0 ∨ s.even_counter = 1) := by
  rw [usart2_calls_received] at h
  obtain ⟨h1, _, h3⟩ := usart2_run_line_feeds _ _ _ 0 h init_after_line_feeds
  constructor
  · rw [h1]; omega
  · rw [h3]; omega

set_option maxRecDepth 1000000 in
/-- C14, witness: a whole round received from start-up. -/
theorem C14_reachable_cursor_witness :
    ∃ s, usart2_calls (round_stream.map fun dr => (true, dr)) Device.init = some s ∧
      s.nmea_count < 8 ∧ (s.even_counter = 0 ∨ s.even_counter = 1) := by
  have hsome : (usart2_calls (round_stream.map fun dr => (true, dr)) Device.init).isSome
      = true := by decide
  obtain ⟨s, h⟩ := Option.isSome_iff_exists.1 hsome
  exact ⟨s, h, C14_reachable_cursor _ s h⟩

set_option maxRecDepth 1000000 in
theorem round_pending_run :
    usart2_run round_stream.dropLast Device.init = some round_pending := by
  have hsome : (usart2_run round_stream.dropLast Device.init).isSome = true := by decide
  obtain ⟨s, h⟩ := Option.isSome_iff_exists.1 hsome
  rw [round_pending, h]
  rfl

/-- C15. From start-up, after any received stream `p` that the handler has processed, the
number of parser calls made is the number of completed rounds (line feeds in `p` divided
by 8); and handling one more byte `b` makes exactly one parser call when `b` is a line
feed that is the 8th, 16th, 24th, ... of the stream, and none for any other byte. -/
theorem C15_dispatch_positions (p : List Nat) (b : Nat) (s s2 : Device)
    (hp : usart2_run p Device.init = some s) (hb : usart2_call true b s = some s2) :
    s.parser_calls.length = p.count 10 / 8 ∧
    ((b = 10 ∧ (p.count 10 + 1) % 8 = 0) → ∃ call, s2.parser_calls = s.parser_calls ++ [call]) ∧
    (¬ (b = 10 ∧ (p.count 10 + 1) % 8 = 0) → s2.parser_calls = s.parser_calls) := by
  have hi := usart2_run_line_feeds _ _ _ 0 hp init_after_line_feeds
  simp only [Nat.zero_add] at hi
  have hi2 := usart2_call_line_feeds hb hi
  obtain ⟨_, c2, _⟩ := hi
  obtain ⟨_, d2, _⟩ := hi2
  refine ⟨by rw [c2, alternating_calls_length], ?_, ?_⟩
  · rintro ⟨hb10, h8⟩
    simp only [hb10, if_true] at d2
    have hq : (p.count 10 + 1) / 8 = p.count 10 / 8 + 1 := by omega
    rw [hq, alternating_calls_succ, ← c2] at d2
    exact ⟨_, d2⟩
  · intro hn
    by_cases hb10 : b = 10
    · have h8 : ¬ (p.count 10 + 1) % 8 = 0 := fun h => hn ⟨hb10, h⟩
      simp only [hb10, if_true] at d2
      have hq : (p.count 10 + 1) / 8 = p.count 10 / 8 := by omega
      rw [hq, ← c2] at d2
      exact d2
    · simp only [hb10, if_false, Nat.add_zero] at d2
      rw [← c2] at d2
      exact d2

set_option maxRecDepth 1000000 in
/-- C15, witness: the last line feed of a first round, the 8th of the stream, on which the
first parser call is made. -/
theorem C15_dispatch_positions_witness :
    usart2_run round_stream.dropLast Device.init = some round_pending ∧
    (round_stream.dropLast.count 10 + 1) % 8 = 0 ∧
    ∃ s2 call, usart2_call true 10 round_pending = some s2 ∧
      round_pending.parser_calls = [] ∧ s2.parser_calls = [call] := by
  have hsome : (usart2_call true 10 round_pending).isSome = true := by decide
  obtain ⟨s2, h2⟩ := Option.isSome_iff_exists.1 hsome
  have hc : (round_stream.dropLast.count 10 + 1) % 8 = 0 := by decide
  have he : round_pending.parser_calls = [] := by decide
  obtain ⟨_, hcall, _⟩ :=
    C15_dispatch_positions round_stream.dropLast 10 round_pending s2 round_pending_run h2
  obtain ⟨call, hcall⟩ := hcall ⟨rfl, hc⟩
  rw [he] at hcall
  exact ⟨round_pending_run, hc, s2, call, h2, he, hcall⟩

/-- C16. From start-up, after any received stream that the handler has processed, with
`k` completed rounds: the parser calls made are, in order, `GGA_analysis` on slot 2 for
the even rounds 0, 2, ... and `RMC_analysis` on slot 0 for the odd rounds 1, 3, ..., and
the alternation flag is `k % 2`, toggled once per completed round. In every dispatch the
chosen parser runs on that slot and gives the new record and sink. -/
theorem C16_alternation (p : List Nat) (s : Device)
    (hp : usart2_run p Device.init = some s) :
    s.parser_calls = alternating_calls (p.count 10 / 8) ∧
    (∀ k, k < p.count 10 / 8 → s.parser_calls[k]? =
      some (if k % 2 = 0 then ParserCall.GGA_analysis 2 else ParserCall.RMC_analysis 0)) ∧
    s.even_counter = (p.count 10 / 8) % 2 ∧
    (∀ t t2, usart2_dispatch t = some t2 →
      (t.even_counter % 2 = 0 → ∃ slot r, t.NMEA[2]? = some slot ∧
        GGA_analysis slot t.gnssTransfer.GGA t.sink = some r ∧
        t2.gnssTransfer = { t.gnssTransfer with GGA := r.1 } ∧ t2.sink = r.2 ∧
        t2.even_counter = 1) ∧
      (t.even_counter % 2 ≠ 0 → ∃ slot r, t.NMEA[0]? = some slot ∧
        RMC_analysis slot t.gnssTransfer.RMC t.sink = some r ∧
        t2.gnssTransfer = { t.gnssTransfer with RMC := r.1 } ∧ t2.sink = r.2 ∧
        t2.even_counter = 0)) := by
  have hi := usart2_run_line_feeds _ _ _ 0 hp init_after_line_feeds
  simp only [Nat.zero_add] at hi
  obtain ⟨_, c2, c3⟩ := hi
  refine ⟨c2, ?_, c3, ?_⟩
  · intro k hk
    rw [c2]
    simp [alternating_calls, List.getElem?_range hk]
  · intro t t2 h
    unfold usart2_dispatch at h
    constructor
    · intro he
      simp only [he, if_true, Option.bind_eq_some, Option.map_eq_some'] at h
      obtain ⟨slot, hslot, r, hr, rfl⟩ := h
      exact ⟨slot, r, hslot, hr, rfl, rfl, rfl⟩
    · intro he
      simp only [he, if_false, Option.bind_eq_some, Option.map_eq_some'] at h
      obtain ⟨slot, hslot, r, hr, rfl⟩ := h
      exact ⟨slot, r, hslot, hr, rfl, rfl, rfl⟩

set_option maxRecDepth 1000000 in
/-- C16, witness: two whole rounds received from start-up: `GGA_analysis` on slot 2, then
`RMC_analysis` on slot 0, and the alternation flag back at 0. -/
theorem C16_alternation_witness :
    ∃ s, usart2_run (round_stream ++ round_stream) Device.init = some s ∧
      s.parser_calls = [ParserCall.GGA_analysis 2, ParserCall.RMC_analysis 0] ∧
      s.even_counter = 0 := by
  have hsome : (usart2_run (round_stream ++ round_stream) Device.init).isSome = true := by
    decide
  obtain ⟨s, h⟩ := Option.isSome_iff_exists.1 hsome
  obtain ⟨c1, _, c3, _⟩ := C16_alternation _ s h
  have hc : (round_stream ++ round_stream).count 10 / 8 = 2 := by decide
  rw [hc] at c1 c3
  exact ⟨s, h, c1, c3⟩

theorem trim_slots_get (NMEA : List (List Nat)) (n k m : Nat) (hm : m < NMEA.length) :
    ∃ slot, (trim_slots NMEA n k)[m]? = some slot := by
  have : m < (trim_slots NMEA n k).length := by simp [trim_slots]; exact hm
  exact ⟨_, List.getElem?_eq_getElem this⟩

set_option maxRecDepth 1000000 in
/-- C17, counterexample. In the state before the last line feed of a round with the round
counter at 4294967295, the largest `uint32_t`, the line feed leaves the round counter at
0, not one more. -/
theorem C17_counterexample :
    round_pending_max.nmea_count = 7 ∧ round_pending_max.uart_incr_ticks = 4294967295 ∧
    (usart2_call true 10 round_pending_max).map (fun s => s.uart_incr_ticks) = some 0 := by
  refine ⟨by decide, by decide, by decide⟩

/-- C17, amended. On the line feed that completes a round (slot index 7 before the byte,
cursor inside the slot at a byte offset of at least 1) `usart2_call` goes on to the
dispatch in the state `round_end` and returns exactly when the dispatched parser returns;
it then has reset the slot index to 0, incremented the round counter `uart_incr_ticks`
by one modulo 2^32 (by exactly one below 4294967295), switched byte reception off (USART
enable bit and interrupt) and reset `systick_count` to 0, whichever parser ran. No call
of `usart2_call` switches reception on. -/
theorem C17_round_completion (s : Device) :
    (∀ rx dr s2, usart2_call rx dr s = some s2 →
      (s2.usart2_ue = true → s.usart2_ue = true) ∧
      (s2.usart2_irq = true → s.usart2_irq = true)) ∧
    (s.slots_ok → s.cursor_ok → 1 ≤ s.buf_count → s.nmea_count = 7 →
      usart2_call true 10 s = usart2_dispatch s.round_end ∧
      (∃ g r, s.round_end.NMEA[2]? = some g ∧ s.round_end.NMEA[0]? = some r ∧
        (usart2_call true 10 s).isSome =
          if s.even_counter % 2 = 0 then (GGA_analysis g s.gnssTransfer.GGA s.sink).isSome
          else (RMC_analysis r s.gnssTransfer.RMC s.sink).isSome) ∧
      ∀ s2, usart2_call true 10 s = some s2 →
        s2.nmea_count = 0 ∧
        s2.uart_incr_ticks = (s.uart_incr_ticks + 1) % UINT32_MOD ∧
        (s.uart_incr_ticks < 4294967295 → s2.uart_incr_ticks = s.uart_incr_ticks + 1) ∧
        s2.usart2_ue = false ∧ s2.usart2_irq = false ∧ s2.systick_count = 0) := by
  constructor
  · intro rx dr s2 h
    cases rx with
    | false =>
      rw [usart2_call_idle, Option.some.injEq] at h
      subst h
      exact ⟨id, id⟩
    | true =>
      rcases usart2_rx_cases h with ⟨_, _, rfl⟩ | ⟨_, _, _, rfl⟩ | ⟨_, _, _, hd⟩
      · exact ⟨id, id⟩
      · exact ⟨id, id⟩
      · obtain ⟨_, _, _, _, e5, e6, _⟩ := usart2_dispatch_effect hd
        rw [e5, e6]
        exact ⟨fun h => absurd h (by simp), fun h => absurd h (by simp)⟩
  · intro hs hc hk h7
    obtain ⟨hn, h0, h100⟩ := hc
    obtain ⟨slot, hslot, hlen⟩ := slots_get hs hn
    have hlt : s.buf_count.toNat < slot.length := by omega
    have step := usart2_rx_line_feed hslot hk hlt hn
    rw [if_pos h7] at step
    obtain ⟨g, hg⟩ := trim_slots_get s.NMEA s.nmea_count s.buf_count.toNat 2
      (by rw [hs.1]; omega)
    obtain ⟨r, hr⟩ := trim_slots_get s.NMEA s.nmea_count s.buf_count.toNat 0
      (by rw [hs.1]; omega)
    refine ⟨step, ⟨g, r, hg, hr, ?_⟩, fun s2 h2 => ?_⟩
    · rw [step]
      exact usart2_dispatch_returns (t := s.round_end) hg hr
    · rw [step] at h2
      obtain ⟨_, _, e3, e4, e5, e6, e7, _⟩ := usart2_dispatch_effect h2
      refine ⟨e3, e4, fun hlt2 => ?_, e5, e6, e7⟩
      rw [e4]
      show (s.uart_incr_ticks + 1) % UINT32_MOD = s.uart_incr_ticks + 1
      unfold UINT32_MOD
      omega

set_option maxRecDepth 1000000 in
/-- C17, witness: the last line feed of a first round. -/
theorem C17_round_completion_witness :
    (round_pending.slots_ok ∧ round_pending.cursor_ok ∧ 1 ≤ round_pending.buf_count ∧
      round_pending.nmea_count = 7) ∧
    ∃ s2, usart2_call true 10 round_pending = some s2 ∧ s2.nmea_count = 0 ∧
      s2.uart_incr_ticks = 1 ∧ s2.usart2_ue = false ∧ s2.usart2_irq = false ∧
      s2.systick_count = 0 := by
  refine ⟨⟨by decide, by decide, by decide, by decide⟩, ?_⟩
  have hsome : (usart2_call true 10 round_pending).isSome = true := by decide
  obtain ⟨s2, h2⟩ := Option.isSome_iff_exists.1 hsome
  obtain ⟨e1, e2, _, e4, e5, e6⟩ :=
    ((C17_round_completion round_pending).2 (by decide) (by decide) (by decide)
      (by decide)).2.2 s2 h2
  have et : (round_pending.uart_incr_ticks + 1) % UINT32_MOD = 1 := by decide
  rw [et] at e2
  exact ⟨s2, h2, e1, e2, e4, e5, e6⟩

/-! ## The window analyzer -/

/-- The C division by a positive divisor, in terms of the floor division. -/
theorem tdiv_cases (a b : Int) (hb : 0 < b) :
    (0 ≤ a ∧ a.tdiv b = a / b) ∨ (a < 0 ∧ a.tdiv b = -((-a) / b)) := by
  by_cases ha : 0 ≤ a
  · exact Or.inl ⟨ha, Int.tdiv_eq_ediv ha (le_of_lt hb)⟩
  · refine Or.inr ⟨by omega, ?_⟩
    have h1 : a.tdiv b = -((-a).tdiv b) := by rw [Int.neg_tdiv, neg_neg]
    rw [h1, Int.tdiv_eq_ediv (by omega) (le_of_lt hb)]

theorem buf_loop_spec (input : List Int) :
    ∀ (n i : Nat) (mn mx sum : Int), i + n ≤ input.length →
      ∃ mn2 mx2, buf_loop input n i mn mx sum
          = some (mn2, mx2, sum + ((input.drop i).take n).sum) ∧
        mn2 ≤ mn ∧ mx ≤ mx2 ∧
        (∀ x ∈ (input.drop i).take n, mn2 ≤ x ∧ x ≤ mx2) ∧
        (mn2 = mn ∨ mn2 ∈ (input.drop i).take n) ∧
        (mx2 = mx ∨ mx2 ∈ (input.drop i).take n) := by
  intro n
  induction n with
  | zero =>
    intro i mn mx sum _
    exact ⟨mn, mx, by simp [buf_loop], le_refl _, le_refl _, by simp, Or.inl rfl, Or.inl rfl⟩
  | succ n ih =>
    intro i mn mx sum hlen
    have hi : i < input.length := by omega
    have hget : input[i]? = some input[i] := List.getElem?_eq_getElem hi
    have hdrop : (input.drop i).take (n + 1) = input[i] :: (input.drop (i + 1)).take n := by
      rw [List.drop_eq_getElem_cons hi, List.take_succ_cons]
    obtain ⟨mn2, mx2, hrun, h1, h2, h3, h4, h5⟩ :=
      ih (i + 1) (if mn < input[i] then mn else input[i])
        (if mx > input[i] then mx else input[i]) (sum + input[i]) (by omega)
    refine ⟨mn2, mx2, ?_, ?_, ?_, ?_, ?_, ?_⟩
    · rw [buf_loop]
      simp only [hget]
      rw [hrun, hdrop, List.sum_cons, add_assoc]
    · split at h1 <;> omega
    · split at h2 <;> omega
    · intro x hx
      rw [hdrop] at hx
      rcases List.mem_cons.1 hx with rfl | hx
      · constructor
        · split at h1 <;> omega
        · split at h2 <;> omega
      · exact h3 x hx
    · rw [hdrop]
      rcases h4 with h4 | h4
      · by_cases hc : mn < input[i]
        · rw [if_pos hc] at h4; exact Or.inl h4
        · rw [if_neg hc] at h4; exact Or.inr (by rw [h4]; simp)
      · exact Or.inr (List.mem_cons_of_mem _ h4)
    · rw [hdrop]
      rcases h5 with h5 | h5
      · by_cases hc : mx > input[i]
        · rw [if_pos hc] at h5; exact Or.inl h5
        · rw [if_neg hc] at h5; exact Or.inr (by rw [h5]; simp)
      · exact Or.inr (List.mem_cons_of_mem _ h5)

theorem sum_bounds (l : List Int) (a b : Int) (h : ∀ x ∈ l, a ≤ x ∧ x ≤ b) :
    a * l.length ≤ l.sum ∧ l.sum ≤ b * l.length := by
  induction l with
  | nil => simp
  | cons x xs ih =>
    obtain ⟨h1, h2⟩ := ih (fun y hy => h y (List.mem_cons_of_mem _ hy))
    obtain ⟨h3, h4⟩ := h x (by simp)
    simp only [List.sum_cons, List.length_cons]
    push_cast
    constructor <;> nlinarith

/-- The truncated mean of 50 values lies between any two bounds of the values. -/
theorem tdiv_between (sum a b : Int) (h1 : a * 50 ≤ sum) (h2 : sum ≤ b * 50) :
    a ≤ sum.tdiv 50 ∧ sum.tdiv 50 ≤ b := by
  rcases tdiv_cases sum 50 (by norm_num) with ⟨_, e⟩ | ⟨_, e⟩ <;> rw [e] <;> omega

/-- What `buf_analysis` stores for a batch, and where. -/
theorem buf_analysis_spec (input : List Int) (index : Nat) (s : Device)
    (hb : is_batch input) (hi : index < 3) (hs : s.stats_ok) :
    ∃ mn mx, buf_analysis input index s = some { s with
        buffer_min := s.buffer_min.set index mn
        buffer_max := s.buffer_max.set index mx
        buffer_range := s.buffer_range.set index (to_int16 (mx - mn))
        buffer_average := s.buffer_average.set index ((samples input).sum.tdiv 50) } ∧
      mn ∈ samples input ∧ (∀ x ∈ samples input, mn ≤ x) ∧
      mx ∈ samples input ∧ (∀ x ∈ samples input, x ≤ mx) ∧
      mn ≤ (samples input).sum.tdiv 50 ∧ (samples input).sum.tdiv 50 ≤ mx ∧
      is_int16 mn ∧ is_int16 mx := by
  obtain ⟨hlen, hrange⟩ := hb
  unfold DATA_VALS at hlen
  obtain ⟨h1, h2, h3, h4, _⟩ := hs
  have h0 : 0 < input.length := by omega
  have hget : input[0]? = some input[0] := List.getElem?_eq_getElem h0
  obtain ⟨mn, mx, hrun, b1, b2, b3, b4, b5⟩ :=
    buf_loop_spec input 50 0 input[0] input[0] 0 (by omega)
  simp only [List.drop_zero, zero_add] at hrun b3 b4 b5
  have hfirst : input[0] ∈ input.take 50 := by
    rw [List.mem_take_iff_getElem]
    exact ⟨0, by omega, rfl⟩
  have hmn : mn ∈ input.take 50 := by
    rcases b4 with e | e
    · rw [e]; exact hfirst
    · exact e
  have hmx : mx ∈ input.take 50 := by
    rcases b5 with e | e
    · rw [e]; exact hfirst
    · exact e
  have hl : ((input.take 50).length : Int) = 50 := by
    rw [List.length_take]; omega
  obtain ⟨s1, s2⟩ := sum_bounds (input.take 50) mn mx b3
  rw [hl] at s1 s2
  obtain ⟨a1, a2⟩ := tdiv_between _ mn mx s1 s2
  have rmn : is_int16 mn := hrange mn (List.mem_of_mem_take hmn)
  have rmx : is_int16 mx := hrange mx (List.mem_of_mem_take hmx)
  have hwrap : to_int16 ((input.take 50).sum.tdiv 50) = (input.take 50).sum.tdiv 50 := by
    unfold is_int16 at rmn rmx
    unfold to_int16
    omega
  refine ⟨mn, mx, ?_, hmn, fun x hx => (b3 x hx).1, hmx, fun x hx => (b3 x hx).2, a1, a2,
    rmn, rmx⟩
  unfold buf_analysis
  simp only [hget, Option.some_bind, DATA_VALS, hrun, stat_store, h1, h2, h3, h4, hi, if_true,
    Option.map_some', samples, Nat.cast_ofNat, hwrap]

/-! ## The claims on the window analyzer -/

/-- C18. For every batch (at least 50 readings of 16 bits, of which the first 50 are
scanned) and every axis index 0..2, `buf_analysis` returns and stores as the axis average
the sum of the 50 samples divided by 50 with truncation toward zero (the floor of sum/50
for a sum that is not negative, minus the floor of -sum/50 for a negative sum); that
quotient is a 16-bit value, so the stored value is the quotient itself, not a wrapped
one. -/
theorem C18_truncated_average (input : List Int) (index : Nat) (s : Device)
    (hb : is_batch input) (hi : index < 3) (hs : s.stats_ok) :
    ∃ s2, buf_analysis input index s = some s2 ∧
      s2.buffer_average[index]? = some ((samples input).sum.tdiv 50) ∧
      is_int16 ((samples input).sum.tdiv 50) ∧
      (0 ≤ (samples input).sum → (samples input).sum.tdiv 50 = (samples input).sum / 50) ∧
      ((samples input).sum < 0 →
        (samples input).sum.tdiv 50 = -((-(samples input).sum) / 50)) := by
  obtain ⟨mn, mx, hrun, _, _, _, _, a1, a2, rmn, rmx⟩ := buf_analysis_spec input index s hb hi hs
  refine ⟨_, hrun, ?_, ?_, ?_, ?_⟩
  · show (s.buffer_average.set index ((samples input).sum.tdiv 50))[index]? = _
    rw [List.getElem?_set_self (by rw [hs.1]; exact hi)]
  · unfold is_int16 at rmn rmx ⊢
    omega
  · intro h
    rcases tdiv_cases (samples input).sum 50 (by norm_num) with ⟨_, e⟩ | ⟨hneg, _⟩
    · exact e
    · omega
  · intro h
    rcases tdiv_cases (samples input).sum 50 (by norm_num) with ⟨hpos, _⟩ | ⟨_, e⟩
    · omega
    · exact e

set_option maxRecDepth 1000000 in
/-- C18, witness: a batch of sum -99 gives average -1 and a batch of sum 99 gives
average 1. -/
theorem C18_truncated_average_witness :
    (is_batch batch_minus_99 ∧ (samples batch_minus_99).sum = -99 ∧ Device.init.stats_ok) ∧
    (∃ s2, buf_analysis batch_minus_99 0 Device.init = some s2 ∧
      s2.buffer_average[0]? = some (-1)) ∧
    (is_batch batch_plus_99 ∧ (samples batch_plus_99).sum = 99) ∧
    (∃ s2, buf_analysis batch_plus_99 0 Device.init = some s2 ∧
      s2.buffer_average[0]? = some 1) := by
  refine ⟨⟨by decide, by decide, by decide⟩, ?_, ⟨by decide, by decide⟩, ?_⟩
  · obtain ⟨s2, h, e, _⟩ := C18_truncated_average batch_minus_99 0 Device.init
      (by decide) (by decide) (by decide)
    exact ⟨s2, h, e.trans (by decide)⟩
  · obtain ⟨s2, h, e, _⟩ := C18_truncated_average batch_plus_99 0 Device.init
      (by decide) (by decide) (by decide)
    exact ⟨s2, h, e.trans (by decide)⟩

/-- C19. For every batch, of any mix of signs, and every axis index 0..2, `buf_analysis`
returns; the minimum and the maximum it stores are samples of the batch, the least and
the greatest one, and the stored truncated average lies between them. -/
theorem C19_extrema (input : List Int) (index : Nat) (s : Device)
    (hb : is_batch input) (hi : index < 3) (hs : s.stats_ok) :
    ∃ s2 mn mx avg, buf_analysis input index s = some s2 ∧
      s2.buffer_min[index]? = some mn ∧ s2.buffer_max[index]? = some mx ∧
      s2.buffer_average[index]? = some avg ∧
      mn ∈ samples input ∧ (∀ x ∈ samples input, mn ≤ x) ∧
      mx ∈ samples input ∧ (∀ x ∈ samples input, x ≤ mx) ∧
      mn ≤ avg ∧ avg ≤ mx := by
  obtain ⟨mn, mx, hrun, m1, m2, m3, m4, a1, a2, _, _⟩ := buf_analysis_spec input index s hb hi hs
  refine ⟨_, mn, mx, (samples input).sum.tdiv 50, hrun, ?_, ?_, ?_, m1, m2, m3, m4, a1, a2⟩
  · show (s.buffer_min.set index mn)[index]? = _
    rw [List.getElem?_set_self (by rw [hs.2.2.1]; exact hi)]
  · show (s.buffer_max.set index mx)[index]? = _
    rw [List.getElem?_set_self (by rw [hs.2.2.2.1]; exact hi)]
  · show (s.buffer_average.set index ((samples input).sum.tdiv 50))[index]? = _
    rw [List.getElem?_set_self (by rw [hs.1]; exact hi)]

set_option maxRecDepth 1000000 in
/-- C19, witness: a batch of mixed signs, with minimum -300, maximum 200 and truncated
average -53 (sum -2693). -/
theorem C19_extrema_witness :
    (is_batch batch_mixed ∧ Device.init.stats_ok) ∧
    ∃ s2, buf_analysis batch_mixed 1 Device.init = some s2 ∧
      s2.buffer_min[1]? = some (-300) ∧ s2.buffer_max[1]? = some 200 ∧
      s2.buffer_average[1]? = some (-53) := by
  refine ⟨⟨by decide, by decide⟩, ?_⟩
  obtain ⟨s2, mn, mx, avg, h, e1, e2, e3, _⟩ := C19_extrema batch_mixed 1 Device.init
    (by decide) (by decide) (by decide)
  have v : (buf_analysis batch_mixed 1 Device.init).map
      (fun t => (t.buffer_min[1]?, t.buffer_max[1]?, t.buffer_average[1]?))
      = some (some (-300), some 200, some (-53)) := by decide
  rw [h, Option.map_some', Option.some.injEq, Prod.mk.injEq, Prod.mk.injEq] at v
  exact ⟨s2, h, v.1, v.2.1, v.2.2⟩

/-! ## `goToAscii` returns -/

theorem ascii_store_some (buf : List Nat) (i : Nat) (c : Int) (h : i < buf.length) :
    ∃ b, ascii_store buf i c = some b ∧ b.length = buf.length := by
  exact ⟨buf.set i (c % 256).toNat, by simp [ascii_store, h], by simp⟩

theorem tdiv_ten_small (number : Int) (h : number < 10) : ¬ number.tdiv 10 > 0 := by
  rcases tdiv_cases number 10 (by norm_num) with ⟨_, e⟩ | ⟨_, e⟩ <;> rw [e] <;> omega

theorem tdiv_ten_pos (number : Int) (h : number.tdiv 10 > 0) :
    10 ≤ number ∧ number.tdiv 10 = number / 10 := by
  rcases tdiv_cases number 10 (by norm_num) with ⟨_, e⟩ | ⟨_, e⟩
  · rw [e] at h; exact ⟨by omega, e⟩
  · rw [e] at h; omega

/-- The digit loop returns on a number of at most `k + 1` digits when the buffer has room
for them; it leaves the length of the buffer and advances `i` by 1 to `k + 1`. -/
theorem ascii_digits_some (k : Nat) :
    ∀ (fuel : Nat) (number : Int) (buf : List Nat) (i : Nat),
      number < 10 ^ (k + 1) → number.toNat < fuel → i + k + 1 ≤ buf.length →
      ∃ b j, ascii_digits fuel number buf i = some (b, j) ∧ b.length = buf.length ∧
        i < j ∧ j ≤ i + k + 1 := by
  induction k with
  | zero =>
    intro fuel number buf i hn hf hlen
    obtain ⟨f, rfl⟩ : ∃ f, fuel = f + 1 := ⟨fuel - 1, by omega⟩
    obtain ⟨b, hb, hbl⟩ := ascii_store_some buf i (Int.tmod number 10 + 48) (by omega)
    have hsmall := tdiv_ten_small number (by simpa using hn)
    refine ⟨b, i + 1, ?_, hbl, by omega, by omega⟩
    rw [ascii_digits, hb, Option.some_bind, if_neg hsmall]
  | succ k ih =>
    intro fuel number buf i hn hf hlen
    obtain ⟨f, rfl⟩ : ∃ f, fuel = f + 1 := ⟨fuel - 1, by omega⟩
    obtain ⟨b, hb, hbl⟩ := ascii_store_some buf i (Int.tmod number 10 + 48) (by omega)
    by_cases hpos : number.tdiv 10 > 0
    · obtain ⟨h10, e⟩ := tdiv_ten_pos number hpos
      have hp : (10 : Int) ^ (k + 1 + 1) = 10 * 10 ^ (k + 1) := by rw [pow_succ]; ring
      rw [hp] at hn
      have hlt : number.tdiv 10 < 10 ^ (k + 1) := by rw [e]; omega
      have hfu : (number.tdiv 10).toNat < f := by rw [e]; omega
      obtain ⟨b2, j, hrun, hl2, hj1, hj2⟩ := ih f (number.tdiv 10) b (i + 1) hlt hfu
        (by rw [hbl]; omega)
      refine ⟨b2, j, ?_, by rw [hl2, hbl], by omega, by omega⟩
      rw [ascii_digits, hb, Option.some_bind, if_pos hpos, hrun]
    · refine ⟨b, i + 1, ?_, hbl, by omega, by omega⟩
      rw [ascii_digits, hb, Option.some_bind, if_neg hpos]

/-- The reversal loop returns when both ends lie inside the buffer; it leaves the length
of the buffer. -/
theorem ascii_reverse_some :
    ∀ (fuel : Nat) (buf : List Nat) (start stop : Int),
      0 ≤ start → stop < buf.length → stop - start < fuel → 0 < fuel →
      ∃ b, ascii_reverse fuel buf start stop = some b ∧ b.length = buf.length := by
  intro fuel
  induction fuel with
  | zero => intro _ _ _ _ _ _ h; omega
  | succ f ih =>
    intro buf start stop h0 h1 h2 _
    by_cases hlt : start < stop
    · have r1 : ∃ v, rd buf start = some v := by
        have : start.toNat < buf.length := by omega
        exact ⟨buf[start.toNat], by simp [rd, h0, List.getElem?_eq_getElem this]⟩
      have r2 : ∃ v, rd buf stop = some v := by
        have : stop.toNat < buf.length := by omega
        have hs0 : 0 ≤ stop := by omega
        exact ⟨buf[stop.toNat], by simp [rd, hs0, List.getElem?_eq_getElem this]⟩
      obtain ⟨v1, r1⟩ := r1
      obtain ⟨v2, r2⟩ := r2
      obtain ⟨b1, hb1, hl1⟩ := ascii_store_some buf start.toNat (v2 : Nat) (by omega)
      obtain ⟨b2, hb2, hl2⟩ := ascii_store_some b1 stop.toNat (v1 : Nat)
        (by rw [hl1]; omega)
      obtain ⟨b3, hb3, hl3⟩ := ih b2 (start + 1) (stop - 1) (by omega)
        (by rw [hl2, hl1]; omega) (by omega) (by omega)
      refine ⟨b3, ?_, by rw [hl3, hl2, hl1]⟩
      rw [ascii_reverse, if_pos hlt, r1, Option.some_bind, r2, Option.some_bind, hb1,
        Option.some_bind, hb2, Option.some_bind, hb3]
    · exact ⟨buf, by rw [ascii_reverse, if_neg hlt], rfl⟩

/-- The function `goToAscii` returns for every 16-bit number on a buffer of at least 7
bytes, and leaves the length of the buffer. -/
theorem goToAscii_some (number : Int) (resBuf : List Nat) (hn : is_int16 number)
    (hl : 7 ≤ resBuf.length) :
    ∃ b, goToAscii number resBuf = some b ∧ b.length = resBuf.length := by
  unfold is_int16 at hn
  have hrange : ∀ m : Int, m ≤ 32767 → m < 10 ^ (4 + 1) := by
    intro m hm; norm_num; omega
  have hneg : (if number < 0 then to_int16 (-number) else number) ≤ 32767 := by
    split
    · unfold to_int16; omega
    · omega
  obtain ⟨b1, j, hrun, hl1, hj1, hj2⟩ := ascii_digits_some 4
    ((if number < 0 then to_int16 (-number) else number).toNat + 1)
    (if number < 0 then to_int16 (-number) else number) resBuf 0 (hrange _ hneg)
    (by omega) (by omega)
  unfold goToAscii
  simp only [hrun, Option.some_bind]
  by_cases hq : number < 0
  · obtain ⟨b2, hb2, hl2⟩ := ascii_store_some b1 j 45 (by omega)
    obtain ⟨b3, hb3, hl3⟩ := ascii_store_some b2 (j + 1) 0 (by omega)
    obtain ⟨b4, hb4, hl4⟩ := ascii_reverse_some (j + 1 + 1) b3 0 (((j + 1 : Nat) : Int) - 1)
      (le_refl _) (by rw [hl3, hl2, hl1]; omega) (by omega) (by omega)
    refine ⟨b4, ?_, by rw [hl4, hl3, hl2, hl1]⟩
    simp only [hq, decide_True, if_true, hb2, Option.map_some', Option.some_bind, hb3, hb4]
  · obtain ⟨b3, hb3, hl3⟩ := ascii_store_some b1 j 0 (by omega)
    obtain ⟨b4, hb4, hl4⟩ := ascii_reverse_some (j + 1) b3 0 ((j : Int) - 1)
      (le_refl _) (by rw [hl3, hl1]; omega) (by omega) (by omega)
    refine ⟨b4, ?_, by rw [hl4, hl3, hl1]⟩
    simp only [hq, decide_False, Bool.false_eq_true, if_false, Option.some_bind, hb3, hb4]

/-! ## Runs of `event_analysis` -/

theorem set_three (l : List Int) (h : l.length = 3) (a b c : Int) :
    ((l.set 0 a).set 1 b).set 2 c = [a, b, c] := by
  match l, h with
  | [_, _, _], _ => rfl

theorem window_average_int16 (input : List Int) (hb : is_batch input) :
    is_int16 (window_average input) := by
  obtain ⟨mn, mx, _, _, _, _, _, a1, a2, rmn, rmx⟩ :=
    buf_analysis_spec input 0 Device.init hb (by decide) (by decide)
  unfold is_int16 at rmn rmx ⊢
  unfold window_average
  omega

/-- The three calls of `buf_analysis` in `event_analysis`. -/
theorem event_stats_spec (x y z : List Int) (s : Device)
    (hx : is_batch x) (hy : is_batch y) (hz : is_batch z) (hs : s.stats_ok) :
    ∃ mins maxs ranges, event_stats x y z s = some { s with
        buffer_min := mins
        buffer_max := maxs
        buffer_range := ranges
        buffer_average := [window_average x, window_average y, window_average z] } ∧
      mins.length = 3 ∧ maxs.length = 3 ∧ ranges.length = 3 := by
  obtain ⟨h1, h2, h3, h4, h5, h6, h7⟩ := hs
  obtain ⟨mn0, mx0, r0, _⟩ := buf_analysis_spec x 0 s hx (by decide) ⟨h1, h2, h3, h4, h5, h6, h7⟩
  obtain ⟨mn1, mx1, r1, _⟩ := buf_analysis_spec y 1 _ hy (by decide)
    (show Device.stats_ok { s with
        buffer_min := s.buffer_min.set 0 mn0
        buffer_max := s.buffer_max.set 0 mx0
        buffer_range := s.buffer_range.set 0 (to_int16 (mx0 - mn0))
        buffer_average := s.buffer_average.set 0 ((samples x).sum.tdiv 50) } from
      ⟨by simp [h1], by simp [h2], by simp [h3], by simp [h4], h5, h6, h7⟩)
  obtain ⟨mn2, mx2, r2, _⟩ := buf_analysis_spec z 2 _ hz (by decide)
    (show Device.stats_ok { s with
        buffer_min := (s.buffer_min.set 0 mn0).set 1 mn1
        buffer_max := (s.buffer_max.set 0 mx0).set 1 mx1
        buffer_range := (s.buffer_range.set 0 (to_int16 (mx0 - mn0))).set 1
          (to_int16 (mx1 - mn1))
        buffer_average := (s.buffer_average.set 0 ((samples x).sum.tdiv 50)).set 1
          ((samples y).sum.tdiv 50) } from
      ⟨by simp [h1], by simp [h2], by simp [h3], by simp [h4], h5, h6, h7⟩)
  refine ⟨((s.buffer_min.set 0 mn0).set 1 mn1).set 2 mn2,
    ((s.buffer_max.set 0 mx0).set 1 mx1).set 2 mx2,
    ((s.buffer_range.set 0 (to_int16 (mx0 - mn0))).set 1 (to_int16 (mx1 - mn1))).set 2
      (to_int16 (mx2 - mn2)), ?_, by simp [h3], by simp [h4], by simp [h2]⟩
  unfold event_stats
  rw [r0, Option.some_bind, r1, Option.some_bind, r2]
  simp only [window_average]
  rw [← set_three s.buffer_average h1]

/-- The three calls of `goToAscii` and the file output in `event_analysis`. -/
theorem event_strings_spec (s : Device) (a0 a1 a2 : Int)
    (ha : s.buffer_average = [a0, a1, a2])
    (r0 : is_int16 a0) (r1 : is_int16 a1) (r2 : is_int16 a2)
    (l0 : s.char_buf_avg0.length = 20) (l1 : s.char_buf_avg1.length = 20)
    (l2 : s.char_buf_avg2.length = 20) :
    ∃ c0 c1 c2, event_strings s = some { s with
        char_buf_avg0 := c0
        char_buf_avg1 := c1
        char_buf_avg2 := c2
        sink := s.sink ++ event_log c0 c1 c2 } ∧
      c0.length = 20 ∧ c1.length = 20 ∧ c2.length = 20 := by
  obtain ⟨c0, g0, e0⟩ := goToAscii_some a0 s.char_buf_avg0 r0 (by omega)
  obtain ⟨c1, g1, e1⟩ := goToAscii_some a1 s.char_buf_avg1 r1 (by omega)
  obtain ⟨c2, g2, e2⟩ := goToAscii_some a2 s.char_buf_avg2 r2 (by omega)
  refine ⟨c0, c1, c2, ?_, by omega, by omega, by omega⟩
  unfold event_strings
  rw [ha]
  simp only [List.getElem?_cons_zero, List.getElem?_cons_succ, Option.some_bind, g0, g1, g2,
    Option.map_some']

/-- The run of `event_analysis` on three batches: it returns, and leaves the state
described. -/
theorem event_analysis_spec (x y z : List Int) (s : Device)
    (hx : is_batch x) (hy : is_batch y) (hz : is_batch z) (hs : s.stats_ok) :
    ∃ mins maxs ranges c0 c1 c2, event_analysis x y z s = some { s with
        buffer_min := mins
        buffer_max := maxs
        buffer_range := ranges
        buffer_average := [window_average x, window_average y, window_average z]
        char_buf_avg0 := c0
        char_buf_avg1 := c1
        char_buf_avg2 := c2
        sink := s.sink ++ event_log c0 c1 c2
        lane_change :=
          if window_average x > X_HIGH ∨ window_average x < X_LOW then
            (s.lane_change + 1) % UINT16_MOD
          else s.lane_change
        irregular_accel :=
          if window_average y > Y_HIGH ∨ window_average y < Y_LOW then
            (s.irregular_accel + 1) % UINT16_MOD
          else s.irregular_accel
        rash_driving :=
          if (window_average x > X_HIGH ∨ window_average x < X_LOW) ∧
              (window_average y > Y_HIGH ∨ window_average y < Y_LOW) then
            (s.rash_driving + 1) % UINT16_MOD
          else s.rash_driving } ∧
      mins.length = 3 ∧ maxs.length = 3 ∧ ranges.length = 3 ∧
      c0.length = 20 ∧ c1.length = 20 ∧ c2.length = 20 := by
  obtain ⟨mins, maxs, ranges, hstats, m1, m2, m3⟩ := event_stats_spec x y z s hx hy hz hs
  obtain ⟨c0, c1, c2, hstr, e0, e1, e2⟩ := event_strings_spec _
    (window_average x) (window_average y) (window_average z)
    (show Device.buffer_average { s with
        buffer_min := mins
        buffer_max := maxs
        buffer_range := ranges
        buffer_average := [window_average x, window_average y, window_average z] } = _ from rfl)
    (window_average_int16 x hx) (window_average_int16 y hy) (window_average_int16 z hz)
    hs.2.2.2.2.1 hs.2.2.2.2.2.1 hs.2.2.2.2.2.2
  refine ⟨mins, maxs, ranges, c0, c1, c2, ?_, m1, m2, m3, e0, e1, e2⟩
  unfold event_analysis
  rw [hstats, Option.some_bind, hstr, Option.some_bind]
  unfold event_counters
  simp only [List.getElem?_cons_zero, List.getElem?_cons_succ, Option.some_bind,
    Option.map_some']

set_option maxRecDepth 1000000 in
/-- C20, counterexample. With the lane-change counter at 65535, the largest `uint16_t`, a
window of X average -75 (below -70) leaves the counter at 0: it has not increased by
one. -/
theorem C20_counterexample :
    is_batch window_minus_75 ∧ is_batch window_minus_90 ∧
    window_average window_minus_75 = -75 ∧ (counters_at 65535 0 0).lane_change = 65535 ∧
    (event_analysis window_minus_75 window_minus_90 window_minus_75
      (counters_at 65535 0 0)).map (fun t => t.lane_change) = some 0 := by
  refine ⟨by decide, by decide, by decide, by decide, by decide⟩

/-- C20, amended. For every call of `event_analysis` on three batches, with the X-axis
and Y-axis averages it stores: the lane-change counter is incremented modulo 2^16 (by
exactly one below 65535, from 65535 to 0) when the X-axis average is below -70 or above
-20 and is unchanged otherwise, -70 and -20 themselves not counting; likewise the
irregular-acceleration counter for the Y-axis average with the bounds -140 and -100. -/
theorem C20_band_counters (x y z : List Int) (s : Device)
    (hx : is_batch x) (hy : is_batch y) (hz : is_batch z) (hs : s.stats_ok) :
    ∃ s2, event_analysis x y z s = some s2 ∧
      s2.buffer_average[0]? = some (window_average x) ∧
      s2.buffer_average[1]? = some (window_average y) ∧
      s2.lane_change =
        (if window_average x < -70 ∨ window_average x > -20 then
          (s.lane_change + 1) % 65536 else s.lane_change) ∧
      s2.irregular_accel =
        (if window_average y < -140 ∨ window_average y > -100 then
          (s.irregular_accel + 1) % 65536 else s.irregular_accel) ∧
      (s.lane_change < 65535 → (window_average x < -70 ∨ window_average x > -20) →
        s2.lane_change = s.lane_change + 1) ∧
      (s.irregular_accel < 65535 → (window_average y < -140 ∨ window_average y > -100) →
        s2.irregular_accel = s.irregular_accel + 1) := by
  obtain ⟨mins, maxs, ranges, c0, c1, c2, hrun, _⟩ := event_analysis_spec x y z s hx hy hz hs
  have el : (if window_average x > X_HIGH ∨ window_average x < X_LOW then
        (s.lane_change + 1) % UINT16_MOD else s.lane_change)
      = (if window_average x < -70 ∨ window_average x > -20 then
        (s.lane_change + 1) % 65536 else s.lane_change) := by
    unfold X_HIGH X_LOW UINT16_MOD
    by_cases h : window_average x < -70 ∨ window_average x > -20
    · rw [if_pos h, if_pos (by omega)]
    · rw [if_neg h, if_neg (by omega)]
  have ei : (if window_average y > Y_HIGH ∨ window_average y < Y_LOW then
        (s.irregular_accel + 1) % UINT16_MOD else s.irregular_accel)
      = (if window_average y < -140 ∨ window_average y > -100 then
        (s.irregular_accel + 1) % 65536 else s.irregular_accel) := by
    unfold Y_HIGH Y_LOW UINT16_MOD
    by_cases h : window_average y < -140 ∨ window_average y > -100
    · rw [if_pos h, if_pos (by omega)]
    · rw [if_neg h, if_neg (by omega)]
  refine ⟨_, hrun, rfl, rfl, el, ei, fun hlt hband => ?_, fun hlt hband => ?_⟩
  · refine el.trans ?_
    rw [if_pos hband]
    omega
  · refine ei.trans ?_
    rw [if_pos hband]
    omega

set_option maxRecDepth 1000000 in
/-- C20, witness: from start-up, a window of X average -75 and Y average -90 increments
both counters, from 0 to 1. -/
theorem C20_band_counters_witness :
    (is_batch window_minus_75 ∧ is_batch window_minus_90 ∧ Device.init.stats_ok ∧
      window_average window_minus_75 = -75 ∧ window_average window_minus_90 = -90) ∧
    ∃ s2, event_analysis window_minus_75 window_minus_90 window_minus_75 Device.init
        = some s2 ∧ s2.lane_change = 1 ∧ s2.irregular_accel = 1 := by
  refine ⟨⟨by decide, by decide, by decide, by decide, by decide⟩, ?_⟩
  obtain ⟨s2, h, _, _, _, _, e1, e2⟩ := C20_band_counters window_minus_75 window_minus_90
    window_minus_75 Device.init (by decide) (by decide) (by decide) (by decide)
  have a1 : window_average window_minus_75 = -75 := by decide
  have a2 : window_average window_minus_90 = -90 := by decide
  rw [a1] at e1
  rw [a2] at e2
  exact ⟨s2, h, e1 (by decide) (by decide), e2 (by decide) (by decide)⟩

/-! ## The claims on the event counters -/

/-- The counters that a run of `event_analysis` leaves, with the averages it stores. -/
theorem event_analysis_counters (x y z : List Int) (s : Device)
    (hx : is_batch x) (hy : is_batch y) (hz : is_batch z) (hs : s.stats_ok) :
    ∃ s2, event_analysis x y z s = some s2 ∧ s2.stats_ok ∧
      s2.buffer_average = [window_average x, window_average y, window_average z] ∧
      s2.lane_change =
        (if window_average x < -70 ∨ window_average x > -20 then
          (s.lane_change + 1) % 65536 else s.lane_change) ∧
      s2.irregular_accel =
        (if window_average y < -140 ∨ window_average y > -100 then
          (s.irregular_accel + 1) % 65536 else s.irregular_accel) ∧
      s2.rash_driving =
        (if (window_average x < -70 ∨ window_average x > -20) ∧
            (window_average y < -140 ∨ window_average y > -100) then
          (s.rash_driving + 1) % 65536 else s.rash_driving) := by
  obtain ⟨mins, maxs, ranges, c0, c1, c2, hrun, l1, l2, l3, l4, l5, l6⟩ :=
    event_analysis_spec x y z s hx hy hz hs
  have ex : (window_average x > X_HIGH ∨ window_average x < X_LOW)
      ↔ (window_average x < -70 ∨ window_average x > -20) := by
    unfold X_HIGH X_LOW; omega
  have ey : (window_average y > Y_HIGH ∨ window_average y < Y_LOW)
      ↔ (window_average y < -140 ∨ window_average y > -100) := by
    unfold Y_HIGH Y_LOW; omega
  refine ⟨_, hrun, ⟨rfl, l3, l1, l2, l4, l5, l6⟩, rfl, ?_, ?_, ?_⟩
  · show (if window_average x > X_HIGH ∨ window_average x < X_LOW then
        (s.lane_change + 1) % UINT16_MOD else s.lane_change) = _
    simp only [ex, UINT16_MOD]
  · show (if window_average y > Y_HIGH ∨ window_average y < Y_LOW then
        (s.irregular_accel + 1) % UINT16_MOD else s.irregular_accel) = _
    simp only [ey, UINT16_MOD]
  · show (if (window_average x > X_HIGH ∨ window_average x < X_LOW) ∧
          (window_average y > Y_HIGH ∨ window_average y < Y_LOW) then
        (s.rash_driving + 1) % UINT16_MOD else s.rash_driving) = _
    simp only [ex, ey, UINT16_MOD]

set_option maxRecDepth 1000000 in
/-- C21, counterexample. With the rash-driving counter at 65535 a window whose X average
(-75) and Y average (-90) both lie outside their idle bands leaves the counter at 0: it has
not increased by one; and with the lane-change counter at 65535 the same window increases
the rash-driving counter from 0 to 1 while the lane-change counter falls to 0. -/
theorem C21_counterexample :
    window_average window_minus_75 = -75 ∧ window_average window_minus_90 = -90 ∧
    (event_analysis window_minus_75 window_minus_90 window_minus_75
      (counters_at 0 0 65535)).map (fun t => t.rash_driving) = some 0 ∧
    (event_analysis window_minus_75 window_minus_90 window_minus_75
      (counters_at 65535 0 0)).map (fun t => (t.rash_driving, t.lane_change)) = some (1, 0) := by
  refine ⟨by decide, by decide, by decide, by decide⟩

/-- C21, amended. For every call of `event_analysis` on three batches: the rash-driving
counter is incremented modulo 2^16 when both the X-axis and the Y-axis averages lie outside
their idle bands (below -70 or above -20, below -140 or above -100) and is unchanged
otherwise, so that from a value below 65535 it increases by exactly one if and only if
both lie outside; and whenever both lie outside, the lane-change and the
irregular-acceleration counters are each incremented once modulo 2^16 in the same call,
by exactly one (never two) from a value below 65535. -/
theorem C21_rash_driving (x y z : List Int) (s : Device)
    (hx : is_batch x) (hy : is_batch y) (hz : is_batch z) (hs : s.stats_ok) :
    ∃ s2, event_analysis x y z s = some s2 ∧
      s2.buffer_average[0]? = some (window_average x) ∧
      s2.buffer_average[1]? = some (window_average y) ∧
      s2.rash_driving =
        (if (window_average x < -70 ∨ window_average x > -20) ∧
            (window_average y < -140 ∨ window_average y > -100) then
          (s.rash_driving + 1) % 65536 else s.rash_driving) ∧
      (s.rash_driving < 65535 →
        (s2.rash_driving = s.rash_driving + 1 ↔
          (window_average x < -70 ∨ window_average x > -20) ∧
          (window_average y < -140 ∨ window_average y > -100))) ∧
      ((window_average x < -70 ∨ window_average x > -20) ∧
          (window_average y < -140 ∨ window_average y > -100) →
        s2.lane_change = (s.lane_change + 1) % 65536 ∧
        s2.irregular_accel = (s.irregular_accel + 1) % 65536 ∧
        (s.lane_change < 65535 → s2.lane_change = s.lane_change + 1) ∧
        (s.irregular_accel < 65535 → s2.irregular_accel = s.irregular_accel + 1)) := by
  obtain ⟨s2, hrun, _, havg, el, ei, er⟩ := event_analysis_counters x y z s hx hy hz hs
  refine ⟨s2, hrun, by rw [havg]; rfl, by rw [havg]; rfl, er, fun hlt => ?_, fun hboth => ?_⟩
  · rw [er]
    constructor
    · intro h
      by_contra hn
      rw [if_neg hn] at h
      omega
    · intro h
      rw [if_pos h]
      omega
  · rw [el, ei, if_pos hboth.1, if_pos hboth.2]
    exact ⟨rfl, rfl, fun h => by omega, fun h => by omega⟩

set_option maxRecDepth 1000000 in
/-- C21, witness: from start-up, a window of X average -75 and Y average -90 increases the
three counters from 0 to 1. -/
theorem C21_rash_driving_witness :
    (is_batch window_minus_75 ∧ is_batch window_minus_90 ∧ Device.init.stats_ok) ∧
    ∃ s2, event_analysis window_minus_75 window_minus_90 window_minus_75 Device.init
        = some s2 ∧ s2.rash_driving = 1 ∧ s2.lane_change = 1 ∧ s2.irregular_accel = 1 := by
  refine ⟨⟨by decide, by decide, by decide⟩, ?_⟩
  obtain ⟨s2, h, _, _, _, e1, e2⟩ := C21_rash_driving window_minus_75 window_minus_90
    window_minus_75 Device.init (by decide) (by decide) (by decide) (by decide)
  have a1 : window_average window_minus_75 = -75 := by decide
  have a2 : window_average window_minus_90 = -90 := by decide
  rw [a1, a2] at e1 e2
  obtain ⟨_, _, e3, e4⟩ := e2 (by decide)
  exact ⟨s2, h, (e1 (by decide)).2 (by decide), e3 (by decide), e4 (by decide)⟩

set_option maxRecDepth 1000000 in
/-- C22, counterexample. With the three counters at 65535 a window of X average -75 and
Y average -90 leaves each of them at 0, below its value before the call. -/
theorem C22_counterexample :
    is_batch window_minus_75 ∧ is_batch window_minus_90 ∧
    (counters_at 65535 65535 65535).stats_ok ∧
    ∃ s2, event_analysis window_minus_75 window_minus_90 window_minus_75
        (counters_at 65535 65535 65535) = some s2 ∧
      s2.lane_change < (counters_at 65535 65535 65535).lane_change ∧
      s2.irregular_accel < (counters_at 65535 65535 65535).irregular_accel ∧
      s2.rash_driving < (counters_at 65535 65535 65535).rash_driving := by
  refine ⟨by decide, by decide, by decide, ?_⟩
  have v : (event_analysis window_minus_75 window_minus_90 window_minus_75
        (counters_at 65535 65535 65535)).map
      (fun t => (t.lane_change, t.irregular_accel, t.rash_driving)) = some (0, 0, 0) := by
    decide
  obtain ⟨s2, h, e⟩ := Option.map_eq_some'.1 v
  rw [Prod.mk.injEq, Prod.mk.injEq] at e
  refine ⟨s2, h, ?_, ?_, ?_⟩
  · rw [e.1]; decide
  · rw [e.2.1]; decide
  · rw [e.2.2]; decide

/-- C22, amended. For every state and every three batches, `event_analysis` returns, and
each of the three counters is afterwards either its value before the call or that value
incremented modulo 2^16; so a counter that is below 65535 before the call is afterwards
greater than or equal to its value before (by at most one), and only a counter at 65535
can fall, to 0. -/
theorem C22_counters_monotone (x y z : List Int) (s : Device)
    (hx : is_batch x) (hy : is_batch y) (hz : is_batch z) (hs : s.stats_ok) :
    ∃ s2, event_analysis x y z s = some s2 ∧
      (s2.lane_change = s.lane_change ∨ s2.lane_change = (s.lane_change + 1) % 65536) ∧
      (s2.irregular_accel = s.irregular_accel ∨
        s2.irregular_accel = (s.irregular_accel + 1) % 65536) ∧
      (s2.rash_driving = s.rash_driving ∨ s2.rash_driving = (s.rash_driving + 1) % 65536) ∧
      (s.lane_change < 65535 →
        s.lane_change ≤ s2.lane_change ∧ s2.lane_change ≤ s.lane_change + 1) ∧
      (s.irregular_accel < 65535 →
        s.irregular_accel ≤ s2.irregular_accel ∧ s2.irregular_accel ≤ s.irregular_accel + 1) ∧
      (s.rash_driving < 65535 →
        s.rash_driving ≤ s2.rash_driving ∧ s2.rash_driving ≤ s.rash_driving + 1) := by
  obtain ⟨s2, hrun, _, _, el, ei, er⟩ := event_analysis_counters x y z s hx hy hz hs
  refine ⟨s2, hrun, ?_, ?_, ?_, fun h => ?_, fun h => ?_, fun h => ?_⟩
  · rw [el]; split
    · exact Or.inr rfl
    · exact Or.inl rfl
  · rw [ei]; split
    · exact Or.inr rfl
    · exact Or.inl rfl
  · rw [er]; split
    · exact Or.inr rfl
    · exact Or.inl rfl
  · rw [el]; split <;> omega
  · rw [ei]; split <;> omega
  · rw [er]; split <;> omega

set_option maxRecDepth 1000000 in
/-- C22, witness: from counters 7, 8 and 9, a window of X average -75 and Y average -90
leaves counters that are not below 7, 8 and 9. -/
theorem C22_counters_monotone_witness :
    (is_batch window_minus_75 ∧ is_batch window_minus_90 ∧ (counters_at 7 8 9).stats_ok) ∧
    ∃ s2, event_analysis window_minus_75 window_minus_90 window_minus_75 (counters_at 7 8 9)
        = some s2 ∧ 7 ≤ s2.lane_change ∧ 8 ≤ s2.irregular_accel ∧ 9 ≤ s2.rash_driving := by
  refine ⟨⟨by decide, by decide, by decide⟩, ?_⟩
  obtain ⟨s2, h, _, _, _, e1, e2, e3⟩ := C22_counters_monotone window_minus_75
    window_minus_90 window_minus_75 (counters_at 7 8 9) (by decide) (by decide) (by decide)
    (by decide)
  exact ⟨s2, h, (e1 (by decide)).1, (e2 (by decide)).1, (e3 (by decide)).1⟩

set_option maxRecDepth 1000000 in
/-- C24, counterexample. From start-up, a first call of `event_analysis` on a window of
X average -75 and Y average -90 leaves the three counters at 1; a second call on the same
three batches leaves them at 2, not at 1. -/
theorem C24_counterexample :
    ∃ s2 s3, event_analysis window_minus_75 window_minus_90 window_minus_75 Device.init
        = some s2 ∧
      event_analysis window_minus_75 window_minus_90 window_minus_75 s2 = some s3 ∧
      (s2.lane_change, s2.irregular_accel, s2.rash_driving) = (1, 1, 1) ∧
      (s3.lane_change, s3.irregular_accel, s3.rash_driving) = (2, 2, 2) := by
  have v1 : (event_analysis window_minus_75 window_minus_90 window_minus_75 Device.init).map
      (fun t => (t.lane_change, t.irregular_accel, t.rash_driving)) = some (1, 1, 1) := by
    decide
  have v2 : ((event_analysis window_minus_75 window_minus_90 window_minus_75 Device.init).bind
        (event_analysis window_minus_75 window_minus_90 window_minus_75)).map
      (fun t => (t.lane_change, t.irregular_accel, t.rash_driving)) = some (2, 2, 2) := by
    decide
  obtain ⟨s2, h2, e2⟩ := Option.map_eq_some'.1 v1
  rw [h2, Option.some_bind] at v2
  obtain ⟨s3, h3, e3⟩ := Option.map_eq_some'.1 v2
  exact ⟨s2, s3, h2, h3, e2, e3⟩

/-- C24, amended. Every call of `event_analysis` applies the threshold tests to the
averages of the batches it is given, whether or not the batches changed since the last
call: two consecutive calls on the same three batches both return, and leave each counter
whose test holds incremented twice modulo 2^16 and each counter whose test fails
unchanged; so a counter after the second call equals the counter after the first call
exactly when its test fails. -/
theorem C24_second_call (x y z : List Int) (s : Device)
    (hx : is_batch x) (hy : is_batch y) (hz : is_batch z) (hs : s.stats_ok) :
    ∃ s2 s3, event_analysis x y z s = some s2 ∧ event_analysis x y z s2 = some s3 ∧
      s3.lane_change =
        (if window_average x < -70 ∨ window_average x > -20 then
          (s.lane_change + 2) % 65536 else s.lane_change) ∧
      s3.irregular_accel =
        (if window_average y < -140 ∨ window_average y > -100 then
          (s.irregular_accel + 2) % 65536 else s.irregular_accel) ∧
      s3.rash_driving =
        (if (window_average x < -70 ∨ window_average x > -20) ∧
            (window_average y < -140 ∨ window_average y > -100) then
          (s.rash_driving + 2) % 65536 else s.rash_driving) ∧
      (s3.lane_change = s2.lane_change ↔
        ¬ (window_average x < -70 ∨ window_average x > -20)) ∧
      (s3.irregular_accel = s2.irregular_accel ↔
        ¬ (window_average y < -140 ∨ window_average y > -100)) ∧
      (s3.rash_driving = s2.rash_driving ↔
        ¬ ((window_average x < -70 ∨ window_average x > -20) ∧
          (window_average y < -140 ∨ window_average y > -100))) := by
  obtain ⟨s2, h2, hs2, _, el, ei, er⟩ := event_analysis_counters x y z s hx hy hz hs
  obtain ⟨s3, h3, _, _, fl, fi, fr⟩ := event_analysis_counters x y z s2 hx hy hz hs2
  refine ⟨s2, s3, h2, h3, ?_, ?_, ?_, ?_, ?_, ?_⟩
  · rw [fl, el]; split <;> omega
  · rw [fi, ei]; split <;> omega
  · rw [fr, er]; split <;> omega
  · rw [fl]; split <;> rename_i h
    · simp only [h, not_true_eq_false, iff_false]; omega
    · simp only [h, not_false_eq_true]
  · rw [fi]; split <;> rename_i h
    · simp only [h, not_true_eq_false, iff_false]; omega
    · simp only [h, not_false_eq_true]
  · rw [fr]; split <;> rename_i h
    · simp only [h, and_self, not_true_eq_false, iff_false]; omega
    · simp only [h, not_false_eq_true]

set_option maxRecDepth 1000000 in
/-- C24, witness: a window of X average -75 (test holds) and Y average -120 (test fails),
from counters 7, 8 and 9: after two calls the lane-change counter is 9, the other two are
unchanged. -/
theorem C24_second_call_witness :
    (is_batch window_minus_75 ∧ is_batch window_minus_120 ∧ (counters_at 7 8 9).stats_ok) ∧
    ∃ s2 s3, event_analysis window_minus_75 window_minus_120 window_minus_75
        (counters_at 7 8 9) = some s2 ∧
      event_analysis window_minus_75 window_minus_120 window_minus_75 s2 = some s3 ∧
      s3.lane_change = 9 ∧ s3.irregular_accel = 8 ∧ s3.rash_driving = 9 := by
  refine ⟨⟨by decide, by decide, by decide⟩, ?_⟩
  obtain ⟨s2, s3, h2, h3, e1, e2, e3, _⟩ := C24_second_call window_minus_75
    window_minus_120 window_minus_75 (counters_at 7 8 9) (by decide) (by decide) (by decide)
    (by decide)
  have a1 : window_average window_minus_75 = -75 := by decide
  have a2 : window_average window_minus_120 = -120 := by decide
  rw [a1] at e1
  rw [a2] at e2
  rw [a1, a2] at e3
  exact ⟨s2, s3, h2, h3, e1.trans (by decide), e2.trans (by decide), e3.trans (by decide)⟩

/-! ## The claims on the stored statistics -/

/-- C23. For every batch, every axis index 0..2 and every two states (any prior content
of the statistics arrays), `buf_analysis` returns on both states and stores the same
minimum, maximum, range and average at the axis index: the four values depend only on the
batch; and a second run on the state the first run left stores them again, leaving that
state as it is. -/
theorem C23_statistics_rerun (input : List Int) (index : Nat) (s t : Device)
    (hb : is_batch input) (hi : index < 3) (hs : s.stats_ok) (ht : t.stats_ok) :
    ∃ s2 t2 mn mx rg avg, buf_analysis input index s = some s2 ∧
      buf_analysis input index t = some t2 ∧
      s2.buffer_min[index]? = some mn ∧ t2.buffer_min[index]? = some mn ∧
      s2.buffer_max[index]? = some mx ∧ t2.buffer_max[index]? = some mx ∧
      s2.buffer_range[index]? = some rg ∧ t2.buffer_range[index]? = some rg ∧
      s2.buffer_average[index]? = some avg ∧ t2.buffer_average[index]? = some avg ∧
      buf_analysis input index s2 = some s2 := by
  obtain ⟨mn, mx, hrun, m1, m2, m3, m4, _⟩ := buf_analysis_spec input index s hb hi hs
  obtain ⟨mn', mx', hrun', n1, n2, n3, n4, _⟩ := buf_analysis_spec input index t hb hi ht
  have emn : mn' = mn := le_antisymm (n2 mn m1) (m2 mn' n1)
  have emx : mx' = mx := le_antisymm (m4 mx' n3) (n4 mx m3)
  subst emn emx
  obtain ⟨h1, h2, h3, h4, h5, h6, h7⟩ := hs
  obtain ⟨k1, k2, k3, k4, _⟩ := ht
  have hs2 : Device.stats_ok { s with
      buffer_min := s.buffer_min.set index mn'
      buffer_max := s.buffer_max.set index mx'
      buffer_range := s.buffer_range.set index (to_int16 (mx' - mn'))
      buffer_average := s.buffer_average.set index ((samples input).sum.tdiv 50) } :=
    ⟨by simp [h1], by simp [h2], by simp [h3], by simp [h4], h5, h6, h7⟩
  obtain ⟨mn2, mx2, hrun2, p1, p2, p3, p4, _⟩ := buf_analysis_spec input index _ hb hi hs2
  have emn2 : mn2 = mn' := le_antisymm (p2 mn' m1) (m2 mn2 p1)
  have emx2 : mx2 = mx' := le_antisymm (m4 mx2 p3) (p4 mx' m3)
  subst emn2 emx2
  refine ⟨_, _, mn2, mx2, to_int16 (mx2 - mn2), (samples input).sum.tdiv 50, hrun, hrun',
    ?_, ?_, ?_, ?_, ?_, ?_, ?_, ?_, ?_⟩
  · show (s.buffer_min.set index mn2)[index]? = _
    rw [List.getElem?_set_self (by omega)]
  · show (t.buffer_min.set index mn2)[index]? = _
    rw [List.getElem?_set_self (by omega)]
  · show (s.buffer_max.set index mx2)[index]? = _
    rw [List.getElem?_set_self (by omega)]
  · show (t.buffer_max.set index mx2)[index]? = _
    rw [List.getElem?_set_self (by omega)]
  · show (s.buffer_range.set index _)[index]? = _
    rw [List.getElem?_set_self (by omega)]
  · show (t.buffer_range.set index _)[index]? = _
    rw [List.getElem?_set_self (by omega)]
  · show (s.buffer_average.set index _)[index]? = _
    rw [List.getElem?_set_self (by omega)]
  · show (t.buffer_average.set index _)[index]? = _
    rw [List.getElem?_set_self (by omega)]
  · rw [hrun2]
    simp only [List.set_set]

set_option maxRecDepth 1000000 in
/-- C23, witness: the batch of mixed signs on axis 1, from the start-up state and from a
state whose statistics arrays hold other values: both runs store minimum -300, maximum
200, range 500 and average -53. -/
theorem C23_statistics_rerun_witness :
    (is_batch batch_mixed ∧ Device.init.stats_ok ∧ stale_stats.stats_ok) ∧
    ∃ s2 t2, buf_analysis batch_mixed 1 Device.init = some s2 ∧
      buf_analysis batch_mixed 1 stale_stats = some t2 ∧
      (s2.buffer_min[1]?, s2.buffer_max[1]?, s2.buffer_range[1]?, s2.buffer_average[1]?)
        = (some (-300), some 200, some 500, some (-53)) ∧
      (t2.buffer_min[1]?, t2.buffer_max[1]?, t2.buffer_range[1]?, t2.buffer_average[1]?)
        = (some (-300), some 200, some 500, some (-53)) ∧
      buf_analysis batch_mixed 1 s2 = some s2 := by
  refine ⟨⟨by decide, by decide, by decide⟩, ?_⟩
  obtain ⟨s2, t2, mn, mx, rg, avg, h1, h2, a1, a2, b1, b2, c1, c2, d1, d2, hre⟩ :=
    C23_statistics_rerun batch_mixed 1 Device.init stale_stats
      (by decide) (by decide) (by decide) (by decide)
  have v : (buf_analysis batch_mixed 1 Device.init).map
      (fun u => (u.buffer_min[1]?, u.buffer_max[1]?, u.buffer_range[1]?, u.buffer_average[1]?))
      = some (some (-300), some 200, some 500, some (-53)) := by decide
  rw [h1, Option.map_some', Option.some.injEq] at v
  refine ⟨s2, t2, h1, h2, v, ?_, hre⟩
  rw [a1, b1, c1, d1] at v
  rw [a2, b2, c2, d2]
  exact v

/-- The range that `buf_analysis` stores, for every batch and every axis index 0..2: the
difference maximum - minimum of the stored extrema narrowed to `int16_t`, which is the
difference itself when that is at most 32767, and the difference minus 65536, a negative
value, when it is between 32768 and 65535. -/
theorem buf_analysis_range (input : List Int) (index : Nat) (s : Device)
    (hb : is_batch input) (hi : index < 3) (hs : s.stats_ok) :
    ∃ s2 mn mx rg, buf_analysis input index s = some s2 ∧
      s2.buffer_min[index]? = some mn ∧ s2.buffer_max[index]? = some mx ∧
      s2.buffer_range[index]? = some rg ∧
      mn ∈ samples input ∧ (∀ x ∈ samples input, mn ≤ x) ∧
      mx ∈ samples input ∧ (∀ x ∈ samples input, x ≤ mx) ∧
      0 ≤ mx - mn ∧ mx - mn ≤ 65535 ∧
      (mx - mn ≤ 32767 → rg = mx - mn) ∧
      (32767 < mx - mn → rg = mx - mn - 65536) := by
  obtain ⟨mn, mx, hrun, m1, m2, m3, m4, _, _, rmn, rmx⟩ := buf_analysis_spec input index s hb hi hs
  obtain ⟨h1, h2, h3, h4, _⟩ := hs
  unfold is_int16 at rmn rmx
  have hle : mn ≤ mx := m2 mx m3
  refine ⟨_, mn, mx, to_int16 (mx - mn), hrun, ?_, ?_, ?_, m1, m2, m3, m4, by omega, by omega,
    fun h => ?_, fun h => ?_⟩
  · show (s.buffer_min.set index mn)[index]? = _
    rw [List.getElem?_set_self (by omega)]
  · show (s.buffer_max.set index mx)[index]? = _
    rw [List.getElem?_set_self (by omega)]
  · show (s.buffer_range.set index _)[index]? = _
    rw [List.getElem?_set_self (by omega)]
  · unfold to_int16; omega
  · unfold to_int16; omega

set_option maxRecDepth 1000000 in
/-- C26, evaluation at the failing input. For a batch of 49 readings 20000 and one reading
-20000, `buf_analysis` stores minimum -20000 and maximum 20000, and as range -25536, which
is neither maximum - minimum = 40000 nor a value between 0 and 65535; for the batch of mixed
signs (minimum -300, maximum 200) it stores the range 500. -/
theorem C26_range_wrap :
    is_batch batch_swing ∧
    (∃ s2, buf_analysis batch_swing 0 Device.init = some s2 ∧
      s2.buffer_min[0]? = some (-20000) ∧ s2.buffer_max[0]? = some 20000 ∧
      s2.buffer_range[0]? = some (-25536) ∧ (-25536 : Int) ≠ 20000 - (-20000)) ∧
    (buf_analysis batch_mixed 2 Device.init).map
      (fun u => (u.buffer_min[2]?, u.buffer_max[2]?, u.buffer_range[2]?))
      = some (some (-300), some 200, some 500) := by
  refine ⟨by decide, ?_, by decide⟩
  have v : (buf_analysis batch_swing 0 Device.init).map
      (fun u => (u.buffer_min[0]?, u.buffer_max[0]?, u.buffer_range[0]?))
      = some (some (-20000), some 20000, some (-25536)) := by decide
  obtain ⟨s2, h, e⟩ := Option.map_eq_some'.1 v
  rw [Prod.mk.injEq, Prod.mk.injEq] at e
  exact ⟨s2, h, e.1, e.2.1, e.2.2, by decide⟩

/-! ## The text that `goToAscii` writes -/

theorem digit_chars_small {m : Nat} (h : m < 10) : digit_chars m = [m + 48] := by
  unfold digit_chars
  by_cases h0 : m = 0
  · simp [h0]
  · rw [if_neg h0, Nat.digits_of_lt 10 m h0 h]; rfl

theorem digit_chars_step {m : Nat} (h : 10 ≤ m) :
    digit_chars m = (m % 10 + 48) :: digit_chars (m / 10) := by
  unfold digit_chars
  have h0 : m ≠ 0 := by omega
  have h1 : m / 10 ≠ 0 := by omega
  rw [if_neg h0, if_neg h1, Nat.digits_def' (by norm_num) (by omega)]
  rfl

theorem ascii_store_at (pre post : List Nat) (h : Nat) (c : Int) (v : Nat)
    (hv : (c % 256).toNat = v) :
    ascii_store (pre ++ h :: post) pre.length c = some (pre ++ v :: post) := by
  unfold ascii_store
  rw [if_pos (by simp), hv]
  simp

/-- The digit loop of `goToAscii` on a number `m ≥ 0`: it overwrites as many bytes as `m`
has decimal digits, from index `i` on, with the digits of `m`, least significant first. -/
theorem ascii_digits_run (m : Nat) :
    ∀ (fuel : Nat) (pre hole post : List Nat),
      hole.length = (digit_chars m).length → m < fuel →
      ascii_digits fuel (m : Int) (pre ++ hole ++ post) pre.length
        = some (pre ++ digit_chars m ++ post, pre.length + hole.length) := by
  induction m using Nat.strong_induction_on with
  | _ m ih =>
    intro fuel pre hole post hlen hfuel
    obtain ⟨f, rfl⟩ : ∃ f, fuel = f + 1 := ⟨fuel - 1, by omega⟩
    have emod : Int.tmod (m : Int) 10 = ((m % 10 : Nat) : Int) := (Int.ofNat_tmod m 10).symm
    have ediv : Int.tdiv (m : Int) 10 = ((m / 10 : Nat) : Int) := (Int.ofNat_tdiv m 10).symm
    by_cases h10 : m < 10
    · rw [digit_chars_small h10] at hlen ⊢
      obtain ⟨h, rfl⟩ : ∃ h, hole = [h] := by
        match hole, hlen with
        | [h], _ => exact ⟨h, rfl⟩
      have hst := ascii_store_at pre post h (Int.tmod (m : Int) 10 + 48) (m + 48)
        (by rw [emod]; omega)
      have hq : ¬ Int.tdiv (m : Int) 10 > 0 := by rw [ediv]; omega
      rw [ascii_digits]
      simp only [List.append_assoc, List.singleton_append, List.length_singleton] at hst ⊢
      rw [hst, Option.some_bind, if_neg hq]
    · have h10' : 10 ≤ m := by omega
      rw [digit_chars_step h10'] at hlen ⊢
      obtain ⟨h, hole', rfl⟩ : ∃ h hole', hole = h :: hole' := by
        match hole, hlen with
        | h :: t, _ => exact ⟨h, t, rfl⟩
      have hst := ascii_store_at pre (hole' ++ post) h (Int.tmod (m : Int) 10 + 48)
        (m % 10 + 48) (by rw [emod]; omega)
      have hq : Int.tdiv (m : Int) 10 > 0 := by rw [ediv]; omega
      have hrec := ih (m / 10) (by omega) f (pre ++ [m % 10 + 48]) hole' post
        (by simpa using hlen) (by omega)
      rw [ascii_digits]
      simp only [List.append_assoc, List.cons_append, List.length_cons, List.length_append,
        List.length_singleton, List.singleton_append, List.nil_append, List.length_nil,
        Nat.zero_add] at hst hrec ⊢
      rw [hst, Option.some_bind, if_pos hq, ediv, hrec]
      simp only [Option.some.injEq, Prod.mk.injEq, true_and]
      omega

/-- The reversal loop of `goToAscii` between the indices `start` and `stop`: it reverses the
bytes of the buffer from `start` to `stop`. -/
theorem ascii_reverse_run :
    ∀ (fuel : Nat) (mid pre post : List Nat), (∀ c ∈ mid, c < 256) → mid.length < 2 * fuel →
      ascii_reverse fuel (pre ++ mid ++ post) (pre.length : Int)
          ((pre.length : Int) + (mid.length : Int) - 1)
        = some (pre ++ mid.reverse ++ post) := by
  intro fuel
  induction fuel with
  | zero => intro mid _ _ _ h; omega
  | succ f ih =>
    intro mid pre post hb hf
    rw [ascii_reverse]
    by_cases hlt : (pre.length : Int) < (pre.length : Int) + (mid.length : Int) - 1
    · rw [if_pos hlt]
      obtain ⟨x, t, rfl⟩ : ∃ x t, mid = x :: t := by
        match mid, hlt with
        | x :: t, _ => exact ⟨x, t, rfl⟩
        | [], h => simp only [List.length_nil] at h; omega
      have ht : t ≠ [] := by
        intro e; subst e; simp at hlt
      obtain ⟨u, y, rfl⟩ : ∃ u y, t = u ++ [y] :=
        ⟨t.dropLast, t.getLast ht, (List.dropLast_append_getLast ht).symm⟩
      have hx : x < 256 := hb x (by simp)
      have hy : y < 256 := hb y (by simp)
      have hstop : (pre.length : Int) + ((x :: (u ++ [y])).length : Int) - 1
          = ((pre ++ x :: u).length : Nat) := by
        simp only [List.length_cons, List.length_append, List.length_singleton, List.length_nil]
        push_cast
        omega
      have r1 : rd (pre ++ x :: (u ++ [y]) ++ post) (pre.length : Int) = some x := by
        rw [rd, if_pos (by omega), Int.toNat_ofNat, List.append_assoc,
          List.getElem?_append_right (le_refl _)]
        simp
      have r2 : rd (pre ++ x :: (u ++ [y]) ++ post) ((pre ++ x :: u).length : Nat) = some y := by
        rw [rd, if_pos (by omega), Int.toNat_ofNat]
        have : pre ++ x :: (u ++ [y]) ++ post = (pre ++ x :: u) ++ y :: post := by simp
        rw [this, List.getElem?_append_right (le_refl _)]
        simp
      have s1 : ascii_store (pre ++ x :: (u ++ [y]) ++ post) (pre.length : Int).toNat (y : Int)
          = some (pre ++ y :: (u ++ [y]) ++ post) := by
        have := ascii_store_at pre ((u ++ [y]) ++ post) x (y : Int) y (by omega)
        simpa using this
      have s2 : ascii_store (pre ++ y :: (u ++ [y]) ++ post)
          (((pre ++ x :: u).length : Nat) : Int).toNat (x : Int)
          = some ((pre ++ [y]) ++ u ++ x :: post) := by
        have := ascii_store_at (pre ++ y :: u) post y (x : Int) x (by omega)
        simpa using this
      have hrec := ih u (pre ++ [y]) (x :: post) (fun c hc => hb c (by simp [hc]))
        (by simp at hf; omega)
      have e1 : ((pre ++ [y]).length : Int) = (pre.length : Int) + 1 := by simp
      have e2 : ((pre ++ [y]).length : Int) + (u.length : Int) - 1
          = (((pre ++ x :: u).length : Nat) : Int) - 1 := by
        simp only [List.length_cons, List.length_append, List.length_singleton, List.length_nil]
        push_cast
        omega
      rw [hstop, r1, Option.some_bind, r2, Option.some_bind, s1, Option.some_bind, s2,
        Option.some_bind, ← e1, ← e2, hrec]
      simp
    · rw [if_neg hlt]
      have : mid.reverse = mid := by
        match mid, hlt with
        | [], _ => rfl
        | [_], _ => rfl
        | _ :: _ :: _, h => simp at h; omega
      rw [this]

theorem digit_chars_digit (m : Nat) : ∀ c ∈ digit_chars m, is_digit c := by
  intro c hc
  unfold digit_chars at hc
  unfold is_digit
  by_cases h0 : m = 0
  · rw [if_pos h0] at hc
    simp at hc
    omega
  · rw [if_neg h0, List.mem_map] at hc
    obtain ⟨d, hd, rfl⟩ := hc
    have := Nat.digits_lt_base (by norm_num : 1 < 10) hd
    omega

/-- The run of `goToAscii` on a number between -32767 and 32767, on a buffer split into
the bytes the text and its NUL will occupy (`head`) and the bytes after them (`tail`). -/
theorem goToAscii_run (number : Int) (head tail : List Nat)
    (hn : -32767 ≤ number ∧ number ≤ 32767)
    (hlen : head.length
      = (if number < 0 then 1 else 0) + (digit_chars number.natAbs).length + 1) :
    goToAscii number (head ++ tail)
      = some ((if number < 0 then [45] else []) ++ (digit_chars number.natAbs).reverse
          ++ 0 :: tail) := by
  have hnum : (if number < 0 then to_int16 (-number) else number) = (number.natAbs : Int) := by
    split
    · unfold to_int16; omega
    · omega
  have hbytes : ∀ c ∈ digit_chars number.natAbs, c < 256 := by
    intro c hc
    have := digit_chars_digit _ c hc
    unfold is_digit at this
    omega
  unfold goToAscii
  simp only [hnum, Int.toNat_ofNat]
  by_cases hq : number < 0
  · rw [if_pos hq] at hlen
    simp only [hq, decide_True, if_true]
    obtain ⟨hole, z1, z2, rfl, hhole⟩ : ∃ hole z1 z2, head = hole ++ [z1, z2] ∧
        hole.length = (digit_chars number.natAbs).length := by
      have hne : head ≠ [] := by
        intro e; rw [e] at hlen; simp at hlen
      have hne2 : head.dropLast ≠ [] := by
        intro e
        have := congrArg List.length e
        simp at this
        omega
      refine ⟨head.dropLast.dropLast, head.dropLast.getLast hne2, head.getLast hne, ?_, ?_⟩
      · have e1 := List.dropLast_append_getLast hne
        have e2 := List.dropLast_append_getLast hne2
        calc head = head.dropLast ++ [head.getLast hne] := e1.symm
          _ = (head.dropLast.dropLast ++ [head.dropLast.getLast hne2]) ++ [head.getLast hne] := by
              rw [e2]
          _ = _ := by simp
      · simp; omega
    have hd := ascii_digits_run number.natAbs (number.natAbs + 1) [] hole ([z1, z2] ++ tail)
      hhole (by omega)
    simp only [List.nil_append, List.length_nil, Nat.zero_add, List.append_assoc] at hd ⊢
    rw [hd, Option.some_bind]
    have s1 := ascii_store_at (digit_chars number.natAbs) (z2 :: tail) z1 45 45 (by decide)
    have s2 := ascii_store_at (digit_chars number.natAbs ++ [45]) tail z2 0 0 (by decide)
    have hr := ascii_reverse_run (hole.length + 1 + 1) (digit_chars number.natAbs ++ [45]) []
      (0 :: tail) (by
        intro c hc
        rcases List.mem_append.1 hc with h | h
        · exact hbytes c h
        · simp at h; omega) (by simp; omega)
    simp only [List.length_append, List.length_singleton, List.append_assoc,
      List.singleton_append, List.cons_append, List.nil_append, List.length_nil,
      Nat.cast_add, Nat.cast_one, Nat.cast_zero, zero_add, ← hhole, List.reverse_append,
      List.reverse_cons, List.reverse_nil] at s1 s2 hr ⊢
    rw [s1, Option.map_some', Option.some_bind, s2, Option.some_bind]
    simp only [Nat.cast_add, Nat.cast_one]
    rw [hr]
  · rw [if_neg hq] at hlen
    simp only [hq, decide_False, Bool.false_eq_true, if_false]
    obtain ⟨hole, z, rfl, hhole⟩ : ∃ hole z, head = hole ++ [z] ∧
        hole.length = (digit_chars number.natAbs).length := by
      have hne : head ≠ [] := by
        intro e; rw [e] at hlen; simp at hlen
      refine ⟨head.dropLast, head.getLast hne, (List.dropLast_append_getLast hne).symm, ?_⟩
      simp; omega
    have hd := ascii_digits_run number.natAbs (number.natAbs + 1) [] hole ([z] ++ tail)
      hhole (by omega)
    simp only [List.nil_append, List.length_nil, Nat.zero_add, List.append_assoc] at hd ⊢
    rw [hd, Option.some_bind]
    have s2 := ascii_store_at (digit_chars number.natAbs) tail z 0 0 (by decide)
    have hr := ascii_reverse_run (hole.length + 1) (digit_chars number.natAbs) []
      (0 :: tail) hbytes (by omega)
    simp only [List.length_append, List.length_singleton, List.append_assoc,
      List.singleton_append, List.cons_append, List.nil_append, List.length_nil,
      Nat.cast_zero, zero_add, ← hhole] at s2 hr ⊢
    simp only [Option.some_bind]
    rw [s2, Option.some_bind, hr]

theorem digit_chars_length (k : Nat) :
    ∀ m, m < 10 ^ (k + 1) → 1 ≤ (digit_chars m).length ∧ (digit_chars m).length ≤ k + 1 := by
  induction k with
  | zero =>
    intro m hm
    rw [digit_chars_small (by simpa using hm)]
    simp
  | succ k ih =>
    intro m hm
    by_cases h10 : m < 10
    · rw [digit_chars_small h10]; simp
    · rw [digit_chars_step (by omega)]
      have hp : 10 ^ (k + 1 + 1) = 10 * 10 ^ (k + 1) := by rw [pow_succ]; ring
      have := ih (m / 10) (by omega)
      simp only [List.length_cons]
      omega

theorem digits_value_concat (ds : List Nat) (c : Nat) :
    digits_value (ds ++ [c]) = digits_value ds * 10 + (c - 48) := by
  simp [digits_value, List.foldl_append]

/-- The digits written, read most significant first, are the decimal numeral of `m`. -/
theorem digit_chars_value (m : Nat) : digits_value (digit_chars m).reverse = m := by
  induction m using Nat.strong_induction_on with
  | _ m ih =>
    by_cases h10 : m < 10
    · rw [digit_chars_small h10]
      simp [digits_value]
    · rw [digit_chars_step (by omega), List.reverse_cons, digits_value_concat,
        ih (m / 10) (by omega)]
      omega

/-- The numeral has no leading zero: the most significant digit of a number other than 0
is not `0`. -/
theorem digit_chars_leading (m : Nat) (hm : m ≠ 0) :
    (digit_chars m).reverse.head? ≠ some 48 := by
  rw [List.head?_reverse]
  induction m using Nat.strong_induction_on with
  | _ m ih =>
    by_cases h10 : m < 10
    · rw [digit_chars_small h10]
      simp
      omega
    · rw [digit_chars_step (by omega)]
      have hr := ih (m / 10) (by omega) (by omega)
      obtain ⟨c, t, e⟩ : ∃ c t, digit_chars (m / 10) = c :: t := by
        by_cases hlt : m / 10 < 10
        · exact ⟨_, _, digit_chars_small hlt⟩
        · exact ⟨_, _, digit_chars_step (by omega)⟩
      rw [e] at hr ⊢
      rw [List.getLast?_cons_cons]
      exact hr

/-- The C `atoi` on a signed decimal numeral ended by NUL. -/
theorem atoi_signed (neg : Bool) (ds tail : List Nat) (hne : ds ≠ [])
    (hd : ∀ c ∈ ds, is_digit c) (hlen : ds.length ≤ 9) :
    atoi ((if neg then [45] else []) ++ ds ++ 0 :: tail)
      = some (if neg then -(digits_value ds : Int) else (digits_value ds : Int)) := by
  cases neg with
  | false =>
    simp only [Bool.false_eq_true, if_false, List.nil_append]
    exact atoi_digit_run ds 0 tail hne hd not_digit_nul hlen
  | true =>
    simp only [if_true, List.singleton_append, List.cons_append, List.nil_append]
    have hrun := atoi_digits_spec ds 0 tail hd not_digit_nul 0
    have hmax := digits_value_le_int_max ds hd hlen
    unfold INT_MAX at hmax
    have hs : atoi_space (45 :: (ds ++ 0 :: tail)) = some (-(digits_value ds : Int)) := by
      rw [atoi_space]
      have hsp : isspace 45 = false := by decide
      simp only [hsp, Bool.false_eq_true, if_false]
      rw [atoi_sign]
      simp only [if_true, hrun, Option.map_some']
      rfl
    unfold atoi
    rw [hs]
    simp only [Option.some_bind, INT_MIN, INT_MAX]
    rw [if_pos (by omega)]

/-- On every number from -32767 to 32767 and every buffer of at least 7 bytes, `goToAscii`
returns and leaves the signed decimal numeral of the number, NUL-terminated, at the start
of the buffer: a `-` for a negative number, then 1 to 5 digits `ds` without leading zero
(`0` alone for zero) whose decimal reading is the magnitude; the bytes after the NUL are
kept, and the C `atoi` reads the number back from the buffer. -/
theorem goToAscii_decimal (number : Int) (resBuf : List Nat)
    (hn : -32767 ≤ number ∧ number ≤ 32767) (hl : 7 ≤ resBuf.length) :
    ∃ ds res, goToAscii number resBuf = some res ∧
      res = (if number < 0 then [45] else []) ++ ds
        ++ 0 :: resBuf.drop ((if number < 0 then 1 else 0) + ds.length + 1) ∧
      ds ≠ [] ∧ ds.length ≤ 5 ∧ (∀ c ∈ ds, is_digit c) ∧
      digits_value ds = number.natAbs ∧
      (number ≠ 0 → ds.head? ≠ some 48) ∧ (number = 0 → ds = [48]) ∧
      atoi res = some number := by
  have hlen := digit_chars_length 4 number.natAbs (by norm_num; omega)
  have hsplit : resBuf = resBuf.take ((if number < 0 then 1 else 0)
      + (digit_chars number.natAbs).length + 1)
      ++ resBuf.drop ((if number < 0 then 1 else 0)
        + (digit_chars number.natAbs).length + 1) := (List.take_append_drop _ _).symm
  have hrun := goToAscii_run number _ (resBuf.drop ((if number < 0 then 1 else 0)
      + (digit_chars number.natAbs).length + 1)) hn
    (show (resBuf.take ((if number < 0 then 1 else 0)
      + (digit_chars number.natAbs).length + 1)).length = _ by
      rw [List.length_take]
      split <;> omega)
  rw [← hsplit] at hrun
  have hdig : ∀ c ∈ (digit_chars number.natAbs).reverse, is_digit c := fun c hc =>
    digit_chars_digit _ c (List.mem_reverse.1 hc)
  have hne : (digit_chars number.natAbs).reverse ≠ [] := by
    intro e
    have := congrArg List.length e
    rw [List.length_reverse, List.length_nil] at this
    omega
  refine ⟨(digit_chars number.natAbs).reverse, _, hrun, by rw [List.length_reverse], hne,
    by rw [List.length_reverse]; omega, hdig, digit_chars_value _,
    fun h0 => digit_chars_leading _ (by omega), fun h0 => by subst h0; rfl, ?_⟩
  have hat := atoi_signed (decide (number < 0)) (digit_chars number.natAbs).reverse
    (resBuf.drop ((if number < 0 then 1 else 0) + (digit_chars number.natAbs).length + 1))
    hne hdig (by rw [List.length_reverse]; omega)
  rw [digit_chars_value] at hat
  by_cases hq : number < 0
  · simp only [hq, decide_True, if_true] at hat ⊢
    rw [hat]
    congr 1
    omega
  · simp only [hq, decide_False, Bool.false_eq_true, if_false] at hat ⊢
    rw [hat]
    congr 1
    omega

set_option maxRecDepth 1000000 in
/-- C25, evaluation at the failing input. On -32768 `goToAscii` leaves the two characters
`-(` (45, 40) and a NUL in a zeroed 20-byte buffer, not the numeral `-32768`: the negation
wraps back to -32768, the digit loop runs once and stores `'0' - 8`. The C `atoi` reads 0
from that text. The input is reached through `event_analysis`: on a window of 50 readings
-32768 (average -32768) the text written for the X axis is `-(`. -/
theorem C25_least_value :
    goToAscii (-32768) (List.replicate 20 0) = some (bytes "-(" ++ List.replicate 18 0) ∧
    atoi (bytes "-(" ++ List.replicate 18 0) = some 0 ∧
    is_batch window_floor ∧ window_average window_floor = -32768 ∧
    (event_analysis window_floor window_floor window_floor Device.init).map
        (fun t => t.char_buf_avg0) = some (bytes "-(" ++ List.replicate 18 0) := by
  refine ⟨by decide, by decide, by decide, by decide, by decide⟩

/-! ## The file output of `GGA_analysis` -/

/-- The file output of `GGA_analysis` is five labelled lines between the opening and the
closing of the file. -/
theorem GGA_log_lines (tb lab lob sb ab : List Nat) (ns ew : Nat) :
    GGA_log tb lab lob sb ab ns ew
      = [SinkOp.f_mount, SinkOp.f_open "GGA_DATA.txt", SinkOp.f_lseek_end]
        ++ text_line "Timestamp: " [SinkOp.f_write tb]
        ++ text_line "Latitude: " [SinkOp.f_write lab, SinkOp.f_write_addr ns 1]
        ++ text_line "Longitude: " [SinkOp.f_write lob, SinkOp.f_write_addr ew 1]
        ++ text_line "Number of satellites: " [SinkOp.f_write sb]
        ++ text_line "Altitude: " [SinkOp.f_write ab]
        ++ [SinkOp.f_close] ∧
    sink_line_ends (GGA_log tb lab lob sb ab ns ew) = 5 ∧
    sink_labels (GGA_log tb lab lob sb ab ns ew)
      = ["Timestamp: ", "Latitude: ", "Longitude: ", "Number of satellites: ", "Altitude: "] := by
  refine ⟨rfl, ?_, ?_⟩
  · simp [sink_line_ends, GGA_log, List.count_cons]
  · simp [sink_labels, GGA_log, List.filterMap_cons]

theorem GGA_altitude_sink {input : List Nat} {gga : GGASTRUCT} {sink : List SinkOp}
    {tb lab lob : List Nat} {ns ew index1 : Nat} {r : GGASTRUCT × List SinkOp}
    (h : GGA_altitude input gga sink tb lab lob ns ew index1 = some r) :
    ∃ sb ab, r.2 = sink ++ GGA_log tb lab lob sb ab ns ew := by
  simp only [GGA_altitude, Option.bind_eq_bind, Option.bind_eq_some, Option.pure_def,
    Option.some.injEq] at h
  obtain ⟨⟨sb, _⟩, _, _, _, _, _, ⟨ab, _⟩, _, _, _, _, _, h⟩ := h
  exact ⟨sb, ab, by rw [← h]⟩

theorem GGA_position_sink {input : List Nat} {gga : GGASTRUCT} {sink : List SinkOp}
    {tb lab : List Nat} {index1 : Nat} {r : GGASTRUCT × List SinkOp}
    (h : GGA_position input gga sink tb lab index1 = some r) :
    ∃ lob sb ab ns ew, r.2 = sink ++ GGA_log tb lab lob sb ab ns ew := by
  simp only [GGA_position, Option.bind_eq_bind, Option.bind_eq_some, Option.pure_def] at h
  obtain ⟨_, _, ns, _, ⟨lob, _⟩, _, _, _, ew, _, h⟩ := h
  obtain ⟨sb, ab, e⟩ := GGA_altitude_sink h
  exact ⟨lob, sb, ab, ns, ew, e⟩

/-- A run of `GGA_analysis` that returns has left the sink as it was or has appended one
file output. -/
theorem GGA_analysis_sink {input : List Nat} {gga : GGASTRUCT} {sink : List SinkOp}
    {r : GGASTRUCT × List SinkOp} (h : GGA_analysis input gga sink = some r) :
    r.2 = sink ∨ ∃ tb lab lob sb ab ns ew, r.2 = sink ++ GGA_log tb lab lob sb ab ns ew := by
  simp only [GGA_analysis, Option.bind_eq_bind, Option.bind_eq_some, Option.pure_def] at h
  obtain ⟨_, _, fix, _, h⟩ := h
  by_cases hfix : fix = 48
  · rw [if_pos hfix, Option.some.injEq] at h
    exact Or.inl (by rw [← h])
  · rw [if_neg hfix] at h
    simp only [GGA_fields, Option.bind_eq_bind, Option.bind_eq_some, Option.pure_def] at h
    obtain ⟨⟨tb, _⟩, _, ⟨lab, _⟩, _, len, _, h⟩ := h
    by_cases hlen : len < 6
    · rw [if_pos hlen, Option.some.injEq] at h
      exact Or.inl (by rw [← h])
    · rw [if_neg hlen] at h
      obtain ⟨lob, sb, ab, ns, ew, e⟩ := GGA_position_sink h
      exact Or.inr ⟨tb, lab, lob, sb, ab, ns, ew, e⟩

/-- C27, counterexample. For the scenario sentence, captured from byte offset 1 of its
slot, `GGA_analysis` returns and writes five line ends and five labels to the sink, not
six. -/
theorem C27_counterexample :
    ∃ r, GGA_analysis (0 :: gga_sample) gga_zero [] = some r ∧
      sink_line_ends r.2 = 5 ∧
      sink_labels r.2
        = ["Timestamp: ", "Latitude: ", "Longitude: ", "Number of satellites: ", "Altitude: "] ∧
      ¬ sink_line_ends r.2 = 6 ∧ ¬ (sink_labels r.2).length = 6 := by
  refine ⟨_, gga_sample_run_slot gga_zero [], ?_, ?_, ?_, ?_⟩
  · exact (GGA_log_lines _ _ _ _ _ _ _).2.1
  · exact (GGA_log_lines _ _ _ _ _ _ _).2.2
  · show ¬ sink_line_ends (GGA_log _ _ _ _ _ _ _) = 6
    rw [(GGA_log_lines _ _ _ _ _ _ _).2.1]
    decide
  · show ¬ (sink_labels (GGA_log _ _ _ _ _ _ _)).length = 6
    rw [(GGA_log_lines _ _ _ _ _ _ _).2.2]
    decide

/-- C27, amended. On every well-formed position sentence with a valid fix, and whatever
the record and the sink hold before, `GGA_analysis` returns and appends to the sink the
opening of `GGA_DATA.txt`, five labelled, newline-terminated text lines (Timestamp,
Latitude, Longitude, Number of satellites, Altitude, each holding the 12-byte field buffer
of that field, the latitude and longitude lines one more write), and the closing of the
file; and every run of `GGA_analysis` that returns, on any buffer, has either written
nothing or written five line ends with these five labels. -/
theorem C27_five_lines (t : GGAText) (lat_i lat_f lon_i lon_f alt_i alt_f : List Nat)
    (hwf : t.well_formed lat_i lat_f lon_i lon_f alt_i alt_f)
    (gga : GGASTRUCT) (sink : List SinkOp) :
    (∃ r ns_op ew_op, GGA_analysis t.render gga sink = some r ∧
      r.2 = sink ++ ([SinkOp.f_mount, SinkOp.f_open "GGA_DATA.txt", SinkOp.f_lseek_end]
        ++ text_line "Timestamp: " [SinkOp.f_write (pad t.time)]
        ++ text_line "Latitude: " [SinkOp.f_write (pad t.lat), ns_op]
        ++ text_line "Longitude: " [SinkOp.f_write (pad t.lon), ew_op]
        ++ text_line "Number of satellites: " [SinkOp.f_write (pad t.sats)]
        ++ text_line "Altitude: " [SinkOp.f_write (pad t.alt)]
        ++ [SinkOp.f_close]) ∧
      sink_line_ends (r.2.drop sink.length) = 5 ∧
      sink_labels (r.2.drop sink.length)
        = ["Timestamp: ", "Latitude: ", "Longitude: ", "Number of satellites: ",
            "Altitude: "]) ∧
    ∀ (input : List Nat) (r : GGASTRUCT × List SinkOp),
      GGA_analysis input gga sink = some r →
      r.2 = sink ∨
      (sink_line_ends (r.2.drop sink.length) = 5 ∧
        sink_labels (r.2.drop sink.length)
          = ["Timestamp: ", "Latitude: ", "Longitude: ", "Number of satellites: ",
              "Altitude: "]) := by
  constructor
  · obtain ⟨e1, e2, e3⟩ := GGA_log_lines (pad t.time) (pad t.lat) (pad t.lon) (pad t.sats)
      (pad t.alt) t.ns t.ew
    refine ⟨_, SinkOp.f_write_addr t.ns 1, SinkOp.f_write_addr t.ew 1,
      GGA_analysis_well_formed t hwf gga sink, ?_, ?_, ?_⟩
    · show sink ++ GGA_log _ _ _ _ _ _ _ = _
      rw [e1]
    · show sink_line_ends ((sink ++ GGA_log _ _ _ _ _ _ _).drop sink.length) = 5
      rw [List.drop_left]
      exact e2
    · show sink_labels ((sink ++ GGA_log _ _ _ _ _ _ _).drop sink.length) = _
      rw [List.drop_left]
      exact e3
  · intro input r h
    rcases GGA_analysis_sink h with e | ⟨tb, lab, lob, sb, ab, ns, ew, e⟩
    · exact Or.inl e
    · refine Or.inr ?_
      rw [e, List.drop_left]
      exact (GGA_log_lines _ _ _ _ _ _ _).2

/-- C27, witness: the scenario sentence, captured from byte offset 1 of its slot. -/
theorem C27_five_lines_witness :
    (gga_sample_text 0).well_formed (bytes "4807") (bytes "038") (bytes "01131") (bytes "000")
        (bytes "545") (bytes "4") ∧
    ∃ r, GGA_analysis (gga_sample_text 0).render gga_zero [] = some r ∧
      sink_line_ends r.2 = 5 ∧
      sink_labels r.2
        = ["Timestamp: ", "Latitude: ", "Longitude: ", "Number of satellites: ", "Altitude: "] := by
  refine ⟨by decide, ?_⟩
  obtain ⟨r, _, _, h, _, e1, e2⟩ := (C27_five_lines (gga_sample_text 0)
    (bytes "4807") (bytes "038") (bytes "01131") (bytes "000") (bytes "545") (bytes "4")
    (by decide) gga_zero []).1
  exact ⟨r, h, e1, e2⟩

/-! ## The comma scans -/

/-- The comma scan from index `i` with `n` iterations left and `cc` commas counted: it
either runs to the end, having met fewer than `pos` commas, and returns -1, or stops at
the index `j` of comma number `pos` and returns `j + 1`. -/
theorem comma_loop_total (pos : Nat) (input : List Nat) :
    ∀ (n i cc : Nat), i + n ≤ input.length → cc < pos →
      (((input.drop i).take n).count 44 + cc < pos ∧
        comma_loop pos input n i cc = some (-1)) ∨
      (pos ≤ ((input.drop i).take n).count 44 + cc ∧
        ∃ j, i ≤ j ∧ j < i + n ∧ input[j]? = some 44 ∧
          ((input.drop i).take (j - i)).count 44 + cc + 1 = pos ∧
          comma_loop pos input n i cc = some ((j : Int) + 1)) := by
  intro n
  induction n with
  | zero =>
    intro i cc _ hcc
    exact Or.inl ⟨by simpa using hcc, by simp [comma_loop]⟩
  | succ n ih =>
    intro i cc hlen hcc
    have hi : i < input.length := by omega
    have hget : input[i]? = some input[i] := List.getElem?_eq_getElem hi
    have hdrop : ∀ m, (input.drop i).take (m + 1) = input[i] :: (input.drop (i + 1)).take m := by
      intro m
      rw [List.drop_eq_getElem_cons hi, List.take_succ_cons]
    rw [comma_loop]
    simp only [hget]
    by_cases hc : input[i] = 44
    · rw [if_pos hc]
      by_cases hp : cc + 1 = pos
      · rw [if_pos hp]
        refine Or.inr ⟨?_, i, le_refl _, by omega, by rw [hget, hc], by simpa using hp, rfl⟩
        rw [hdrop, hc, List.count_cons_self]
        omega
      · rw [if_neg hp]
        rcases ih (i + 1) (cc + 1) (by omega) (by omega) with ⟨h1, h2⟩ | ⟨h0, j, h1, h2, h3, h4, h5⟩
        · refine Or.inl ⟨?_, h2⟩
          rw [hdrop, hc, List.count_cons_self]
          omega
        · refine Or.inr ⟨?_, j, by omega, by omega, h3, ?_, h5⟩
          · rw [hdrop, hc, List.count_cons_self]
            omega
          · have : j - i = (j - (i + 1)) + 1 := by omega
            rw [this, hdrop, hc, List.count_cons_self]
            omega
    · rw [if_neg hc]
      rcases ih (i + 1) cc (by omega) hcc with ⟨h1, h2⟩ | ⟨h0, j, h1, h2, h3, h4, h5⟩
      · refine Or.inl ⟨?_, h2⟩
        rw [hdrop, List.count_cons_of_ne (fun e => hc e.symm)]
        exact h1
      · refine Or.inr ⟨?_, j, by omega, by omega, h3, ?_, h5⟩
        · rw [hdrop, List.count_cons_of_ne (fun e => hc e.symm)]
          exact h0
        · have : j - i = (j - (i + 1)) + 1 := by omega
          rw [this, hdrop, List.count_cons_of_ne (fun e => hc e.symm)]
          exact h4

/-- The comma scan of the three check functions on a buffer of at least 60 bytes. -/
theorem comma_scan_spec (pos : Nat) (hpos : 0 < pos) (input : List Nat)
    (hlen : 60 ≤ input.length) :
    (∃ r, comma_loop pos input 60 0 0 = some r ∧ (r = -1 ∨ (1 ≤ r ∧ r ≤ 60))) ∧
    (∀ i : Nat, i < 60 → input[i]? = some 44 → (input.take i).count 44 + 1 = pos →
      comma_loop pos input 60 0 0 = some ((i : Int) + 1)) ∧
    (comma_loop pos input 60 0 0 = some (-1) ↔ (input.take 60).count 44 < pos) ∧
    (∀ r, comma_loop pos input 60 0 0 = some r → r ≠ -1 →
      ∃ i : Nat, r = (i : Int) + 1 ∧ i < 60 ∧ input[i]? = some 44 ∧
        (input.take i).count 44 + 1 = pos) := by
  have key := comma_loop_total pos input 60 0 0 (by omega) hpos
  simp only [List.drop_zero, Nat.add_zero, Nat.zero_add, Nat.sub_zero] at key
  refine ⟨?_, ?_, ?_, ?_⟩
  · rcases key with ⟨_, h⟩ | ⟨_, j, _, hj, _, _, h⟩
    · exact ⟨_, h, Or.inl rfl⟩
    · exact ⟨_, h, Or.inr ⟨by omega, by omega⟩⟩
  · intro i hi hget hcount
    obtain ⟨hlt, _⟩ : i < input.length ∧ True := ⟨by omega, trivial⟩
    have hsplit : input.drop 0 = input.take i ++ 44 :: input.drop (i + 1) := by
      rw [List.drop_zero]
      have h44 : input[i] = 44 := by
        rw [List.getElem?_eq_getElem hlt] at hget
        exact Option.some.inj hget
      rw [← h44, ← List.drop_eq_getElem_cons hlt, List.take_append_drop]
    have := comma_loop_spec pos input (input.drop (i + 1)) (input.take i) 60 0 0 hsplit
      (by omega) (by rw [List.length_take]; omega)
    rw [this, List.length_take, Nat.min_eq_left (by omega)]
    simp
  · constructor
    · intro h
      rcases key with ⟨hc, _⟩ | ⟨_, j, _, _, _, _, h2⟩
      · exact hc
      · rw [h2, Option.some.injEq] at h
        omega
    · intro h
      rcases key with ⟨_, h2⟩ | ⟨hc, _⟩
      · exact h2
      · omega
  · intro r hr hne
    rcases key with ⟨_, h⟩ | ⟨_, j, _, hj, hget, hcount, h⟩
    · rw [h, Option.some.injEq] at hr
      exact absurd hr.symm hne
    · rw [h, Option.some.injEq] at hr
      exact ⟨j, hr.symm, hj, hget, hcount⟩

/-- C28. For every buffer of at least 60 bytes (the sentence slots have 100),
`gps_fix_check`, `valid_data_check` and `speed_data_check` (comma number 6, 2 and 7)
return; each returns `i + 1` when `i < 60` is the index of its comma (a comma with one
less than that number of commas before it), so that the result is in 1..60 and the byte
before it is a comma; and each returns -1 exactly when the first 60 bytes hold fewer
commas than that. -/
theorem C28_comma_checks (input : List Nat) (hlen : 60 ≤ input.length) :
    ∀ pos check, (pos, check) ∈ [(6, gps_fix_check), (2, valid_data_check),
        (7, speed_data_check)] →
      (∃ r, check input = some r ∧ (r = -1 ∨ (1 ≤ r ∧ r ≤ 60))) ∧
      (∀ i : Nat, i < 60 → input[i]? = some 44 → (input.take i).count 44 + 1 = pos →
        check input = some ((i : Int) + 1)) ∧
      (check input = some (-1) ↔ (input.take 60).count 44 < pos) ∧
      (∀ r, check input = some r → r ≠ -1 →
        ∃ i : Nat, r = (i : Int) + 1 ∧ i < 60 ∧ input[i]? = some 44 ∧
          (input.take i).count 44 + 1 = pos) := by
  intro pos check hmem
  simp only [List.mem_cons, Prod.mk.injEq, List.mem_singleton, List.not_mem_nil,
    or_false] at hmem
  rcases hmem with ⟨rfl, rfl⟩ | ⟨rfl, rfl⟩ | ⟨rfl, rfl⟩
  · exact comma_scan_spec 6 (by norm_num) input hlen
  · exact comma_scan_spec 2 (by norm_num) input hlen
  · exact comma_scan_spec 7 (by norm_num) input hlen

set_option maxRecDepth 1000000 in
/-- C28, witness: on a slot that holds the scenario sentence from byte offset 1 the three
functions return 38, 15 and 40 (the commas at the indices 37, 14 and 39), and on a slot
without commas `gps_fix_check` returns -1. -/
theorem C28_comma_checks_witness :
    (60 ≤ slot_sample.length ∧ 60 ≤ slot_blank.length) ∧
    gps_fix_check slot_sample = some 38 ∧ valid_data_check slot_sample = some 15 ∧
    speed_data_check slot_sample = some 40 ∧ gps_fix_check slot_blank = some (-1) := by
  refine ⟨⟨by decide, by decide⟩, ?_, ?_, ?_, ?_⟩
  · exact (C28_comma_checks slot_sample (by decide) 6 gps_fix_check (by simp)).2.1 37
      (by decide) (by decide) (by decide)
  · exact (C28_comma_checks slot_sample (by decide) 2 valid_data_check (by simp)).2.1 14
      (by decide) (by decide) (by decide)
  · exact (C28_comma_checks slot_sample (by decide) 7 speed_data_check (by simp)).2.1 39
      (by decide) (by decide) (by decide)
  · exact (C28_comma_checks slot_blank (by decide) 6 gps_fix_check (by simp)).2.2.1.2
      (by decide)

/-! ## The receive handler and the analyzer data -/

/-- The parser dispatch of lines 152-164 leaves the analyzer data as they are. -/
theorem usart2_dispatch_frame {t t2 : Device} (h : usart2_dispatch t = some t2) :
    t2.analyzer_data = t.analyzer_data := by
  unfold usart2_dispatch at h
  by_cases he : t.even_counter % 2 = 0
  · simp only [he, if_true, Option.bind_eq_some, Option.map_eq_some'] at h
    obtain ⟨_, _, _, _, rfl⟩ := h
    rfl
  · simp only [he, if_false, Option.bind_eq_some, Option.map_eq_some'] at h
    obtain ⟨_, _, _, _, rfl⟩ := h
    rfl

/-- C29. For every state, every value of the RXNE flag and every received byte, a call of
`usart2_call` that returns, the call on a round-completing line feed that dispatches a
parser included, leaves the three sample batches, the per-axis minimum, maximum, range
and average and the three event counters as they were. -/
theorem C29_analyzer_frame (sr_rxne : Bool) (dr : Nat) (s s2 : Device)
    (h : usart2_call sr_rxne dr s = some s2) :
    s2.x_axis_buffer = s.x_axis_buffer ∧ s2.y_axis_buffer = s.y_axis_buffer ∧
    s2.z_axis_buffer = s.z_axis_buffer ∧
    s2.buffer_min = s.buffer_min ∧ s2.buffer_max = s.buffer_max ∧
    s2.buffer_range = s.buffer_range ∧ s2.buffer_average = s.buffer_average ∧
    s2.lane_change = s.lane_change ∧ s2.irregular_accel = s.irregular_accel ∧
    s2.rash_driving = s.rash_driving := by
  have key : s2.analyzer_data = s.analyzer_data := by
    cases sr_rxne with
    | false =>
      rw [usart2_call_idle, Option.some.injEq] at h
      rw [h]
    | true =>
      rcases usart2_rx_cases h with ⟨_, _, rfl⟩ | ⟨_, _, _, rfl⟩ | ⟨_, _, _, hd⟩
      · rfl
      · rfl
      · exact (usart2_dispatch_frame hd).trans rfl
  simp only [Device.analyzer_data, Prod.mk.injEq] at key
  obtain ⟨⟨a1, a2, a3⟩, ⟨b1, b2, b3, b4⟩, c1, c2, c3⟩ := key
  exact ⟨a1, a2, a3, b1, b2, b3, b4, c1, c2, c3⟩

set_option maxRecDepth 1000000 in
/-- C29, witness: the last line feed of a round, which dispatches `GGA_analysis`, in a
state with analyzer data other than zero; and a byte other than line feed. -/
theorem C29_analyzer_frame_witness :
    (∃ s2, usart2_call true 10 round_pending_analyzed = some s2 ∧
      s2.parser_calls = [ParserCall.GGA_analysis 2] ∧
      s2.x_axis_buffer = List.replicate 51 (-75) ∧ s2.buffer_average = [-75, -90, 2090] ∧
      s2.lane_change = 3 ∧ s2.irregular_accel = 2 ∧ s2.rash_driving = 1) ∧
    (∃ s2, usart2_call true 36 analyzed = some s2 ∧
      s2.buffer_min = [-75, -90, 2090] ∧ s2.rash_driving = 1) := by
  constructor
  · have hsome : (usart2_call true 10 round_pending_analyzed).map (fun t => t.parser_calls)
        = some [ParserCall.GGA_analysis 2] := by decide
    obtain ⟨s2, h2, hp⟩ := Option.map_eq_some'.1 hsome
    obtain ⟨a1, _, _, _, _, _, b4, c1, c2, c3⟩ :=
      C29_analyzer_frame true 10 round_pending_analyzed s2 h2
    exact ⟨s2, h2, hp, a1, b4, c1, c2, c3⟩
  · have hsome : (usart2_call true 36 analyzed).isSome = true := by decide
    obtain ⟨s2, h2⟩ := Option.isSome_iff_exists.1 hsome
    obtain ⟨_, _, _, b1, _, _, _, _, _, c3⟩ := C29_analyzer_frame true 36 analyzed s2 h2
    exact ⟨s2, h2, b1, c3⟩

/-! ## The capture of whole sentences -/

theorem set_same {α : Type} {l : List α} {n : Nat} {a : α} (h : l[n]? = some a) :
    l.set n a = l := by
  apply List.ext_getElem?
  intro i
  by_cases hi : i = n
  · subst hi
    rw [set_get_self h, h]
  · rw [List.getElem?_set_ne (fun e => hi e.symm)]

/-- The handler over a run of bytes without line feed: the bytes overwrite the slot from
the cursor on, and the cursor advances by their number. -/
theorem usart2_run_bytes (l : List Nat) :
    ∀ (hole : List Nat) (s : Device) (pre post : List Nat),
      s.NMEA[s.nmea_count]? = some (pre ++ hole ++ post) → s.buf_count = (pre.length : Int) →
      hole.length = l.length → 10 ∉ l → (∀ c ∈ l, c < 256) →
      usart2_run l s = some { s with
        NMEA := s.NMEA.set s.nmea_count (pre ++ l ++ post)
        buf_count := (pre.length : Int) + (l.length : Int) } ∧
      ∀ place ∈ usart2_trace l s, place.1 = s.nmea_count ∧ (pre.length : Int) ≤ place.2 := by
  induction l with
  | nil =>
    intro hole s pre post hslot hb hlen _ _
    obtain rfl : hole = [] := List.eq_nil_of_length_eq_zero hlen
    simp only [List.append_nil] at hslot
    refine ⟨?_, by simp [usart2_trace]⟩
    simp only [usart2_run, List.append_nil, List.length_nil, Nat.cast_zero, add_zero]
    rw [set_same hslot, ← hb]
  | cons c l ih =>
    intro hole s pre post hslot hb hlen h10 hbytes
    obtain ⟨h, hole', rfl⟩ : ∃ h hole', hole = h :: hole' := by
      match hole, hlen with
      | h :: t, _ => exact ⟨h, t, rfl⟩
    have hc10 : c ≠ 10 := fun e => h10 (by simp [e])
    have hc256 : c % 256 = c := Nat.mod_eq_of_lt (hbytes c (by simp))
    have hk : s.buf_count.toNat = pre.length := by rw [hb]; simp
    have hstep := usart2_rx_byte hslot (by rw [hb]; omega) (by rw [hk]; simp) hc10
    have hset : (pre ++ h :: hole' ++ post).set s.buf_count.toNat (c % 256)
        = (pre ++ [c]) ++ hole' ++ post := by
      rw [hk, hc256]
      simp
    rw [hset] at hstep
    obtain ⟨hrun, htrace⟩ := ih hole'
      { s with
        NMEA := s.NMEA.set s.nmea_count (pre ++ [c] ++ hole' ++ post)
        buf_count := s.buf_count + 1 } (pre ++ [c]) post
      (show (s.NMEA.set s.nmea_count (pre ++ [c] ++ hole' ++ post))[s.nmea_count]? = _ from
        set_get_self hslot)
      (show s.buf_count + 1 = ((pre ++ [c]).length : Int) by
        rw [hb, List.length_append, List.length_singleton]; push_cast; rfl)
      (by simpa using hlen) (fun e => h10 (List.mem_cons_of_mem _ e))
      (fun d hd => hbytes d (List.mem_cons_of_mem _ hd))
    constructor
    · rw [usart2_run, hstep, Option.some_bind, hrun]
      simp only [List.set_set, List.append_assoc, List.singleton_append, List.length_append,
        List.length_singleton, List.length_cons, List.length_nil, Nat.cast_add, Nat.cast_one,
        Nat.cast_zero, zero_add]
      rw [show (pre.length : Int) + 1 + (l.length : Int) = (pre.length : Int) + ((l.length : Int) + 1)
        by omega]
    · intro place hp
      rw [usart2_trace, hstep] at hp
      rcases List.mem_append.1 hp with h1 | h1
      · simp only [usart2_stores, hc10, if_false, List.mem_singleton] at h1
        rw [h1]
        exact ⟨rfl, by rw [hb]⟩
      · obtain ⟨e1, e2⟩ := htrace place h1
        refine ⟨e1, ?_⟩
        simp only [List.length_append, List.length_singleton, Nat.cast_add, Nat.cast_one] at e2
        omega

theorem set_after (a : List Nat) (x y v : Nat) (b : List Nat) :
    (a ++ x :: y :: b).set (a.length + 1) v = a ++ x :: v :: b := by
  rw [List.set_append_right _ _ (by omega)]
  simp

theorem set_at (a : List Nat) (x v : Nat) (b : List Nat) :
    (a ++ x :: b).set a.length v = a ++ v :: b := by
  rw [List.set_append_right _ _ (le_refl _)]
  simp

/-- The two NUL stores of a line feed received right after a CR. -/
theorem trim_line {NMEA : List (List Nat)} {n : Nat} {slot : List Nat}
    (hslot : NMEA[n]? = some slot) (pre l post : List Nat) (h2 : Nat) :
    trim_slots (NMEA.set n (pre ++ (l ++ [13]) ++ ([h2] ++ post))) n
        (pre.length + l.length + 1)
      = NMEA.set n (pre ++ l ++ 0 :: 0 :: post) := by
  have hn : n < NMEA.length := by
    by_contra hc
    rw [List.getElem?_eq_none (by omega)] at hslot
    exact absurd hslot (by simp)
  unfold trim_slots
  rw [List.set_set]
  congr 1
  rw [List.getD_eq_getElem?_getD, List.getElem?_set_self hn, Option.getD_some]
  have e : pre ++ (l ++ [13]) ++ ([h2] ++ post) = (pre ++ l) ++ 13 :: h2 :: post := by simp
  have hl : pre.length + l.length = (pre ++ l).length := by simp
  rw [e, hl, set_after, Nat.add_sub_cancel, set_at]

/-- The handler over a sentence, its CR and, separately, its LF: in slot `n`, from the
byte offset `pre.length`. The sentence and two NUL overwrite the slot from the cursor on;
the line feed moves the cursor to byte offset 1 of the next slot, or, in slot 7, goes on
with the parser dispatch. Every store is in slot `n` at the cursor or after it. -/
theorem capture_line (l hole : List Nat) (s : Device) (pre post : List Nat)
    (hslot : s.NMEA[s.nmea_count]? = some (pre ++ hole ++ post))
    (hb : s.buf_count = (pre.length : Int)) (hlen : hole.length = l.length + 2)
    (hn : s.nmea_count < 8) (hl : 10 ∉ l) (hbytes : ∀ c ∈ l, c < 256) :
    ∃ p, usart2_run (l ++ [13]) s = some p ∧
      usart2_call true 10 p =
        (if s.nmea_count = 7 then
          usart2_dispatch { s with
            NMEA := s.NMEA.set s.nmea_count (pre ++ l ++ 0 :: 0 :: post)
            buf_count := 0
            nmea_count := 0
            uart_incr_ticks := (s.uart_incr_ticks + 1) % UINT32_MOD
            usart2_ue := false
            usart2_irq := false }
        else
          some { s with
            NMEA := s.NMEA.set s.nmea_count (pre ++ l ++ 0 :: 0 :: post)
            buf_count := 1
            nmea_count := s.nmea_count + 1 }) ∧
      ∀ place ∈ usart2_trace (l ++ [13]) s ++ usart2_stores 10 p,
        place.1 = s.nmea_count ∧ (pre.length : Int) ≤ place.2 := by
  obtain ⟨hole1, h2, rfl⟩ : ∃ hole1 h2, hole = hole1 ++ [h2] := by
    have hne : hole ≠ [] := by
      intro e; rw [e] at hlen; simp at hlen
    exact ⟨hole.dropLast, hole.getLast hne, (List.dropLast_append_getLast hne).symm⟩
  have hslot1 : s.NMEA[s.nmea_count]? = some (pre ++ hole1 ++ ([h2] ++ post)) := by
    rw [hslot]; simp
  obtain ⟨hrun, htrace⟩ := usart2_run_bytes (l ++ [13]) hole1 s pre ([h2] ++ post) hslot1 hb
    (by simp at hlen ⊢; omega)
    (by
      intro e
      rcases List.mem_append.1 e with e | e
      · exact hl e
      · simp at e)
    (by
      intro c hc
      rcases List.mem_append.1 hc with e | e
      · exact hbytes c e
      · simp at e; omega)
  refine ⟨_, hrun, ?_, ?_⟩
  · have hslotp := set_get_self (x := pre ++ (l ++ [13]) ++ ([h2] ++ post)) hslot
    have hstep := usart2_rx_line_feed
      (s := { s with
        NMEA := s.NMEA.set s.nmea_count (pre ++ (l ++ [13]) ++ ([h2] ++ post))
        buf_count := (pre.length : Int) + ((l ++ [13]).length : Int) })
      hslotp
      (by simp only [List.length_append, List.length_singleton]; push_cast; omega)
      (by simp only [List.length_append, List.length_singleton, List.length_cons,
            List.length_nil]; push_cast; omega)
      hn
    rw [hstep]
    have hk : ((pre.length : Int) + ((l ++ [13]).length : Int)).toNat
        = pre.length + l.length + 1 := by
      simp only [List.length_append, List.length_singleton]; push_cast; omega
    simp only [Device.round_end, hk, trim_line hslot]
  · intro place hp
    rcases List.mem_append.1 hp with h1 | h1
    · exact htrace place h1
    · simp only [usart2_stores, if_true, List.mem_cons, List.mem_singleton, List.not_mem_nil,
        or_false] at h1
      simp only [List.length_append, List.length_singleton, Nat.cast_add, Nat.cast_one] at h1
      rcases h1 with e | e | e <;> rw [e] <;> exact ⟨rfl, by simp only []; omega⟩

theorem usart2_trace_append (p q : List Nat) (s : Device) :
    usart2_trace (p ++ q) s = usart2_trace p s ++
      (match usart2_run p s with
       | some s2 => usart2_trace q s2
       | none => []) := by
  induction p generalizing s with
  | nil => simp [usart2_trace, usart2_run]
  | cons b rest ih =>
    simp only [List.cons_append, usart2_trace, usart2_run]
    cases usart2_call true b s with
    | none => simp
    | some s1 => simp [ih]

theorem slot_split (slot : List Nat) (k m : Nat) :
    slot = slot.take k ++ (slot.drop k).take m ++ slot.drop (k + m) := by
  rw [List.append_assoc, ← List.drop_drop, List.take_append_drop, List.take_append_drop]

theorem captured_length (slot : List Nat) (k : Nat) (l : List Nat)
    (h : k + l.length + 2 ≤ slot.length) : (captured slot k l).length = slot.length := by
  simp only [captured, List.length_append, List.length_take, List.length_cons,
    List.length_drop]
  omega

theorem slots_ok_set {s : Device} (hs : s.slots_ok) (n : Nat) (slot : List Nat)
    (hl : slot.length = 100) (t : Device) (ht : t.NMEA = s.NMEA.set n slot) : t.slots_ok := by
  unfold Device.slots_ok
  rw [ht]
  refine ⟨by rw [List.length_set]; exact hs.1, fun x hx => ?_⟩
  rcases List.mem_or_eq_of_mem_set hx with h | h
  · exact hs.2 x h
  · rw [h]; exact hl

/-- The handler over the sentences `ls`, each with its CR LF, captured in the slots
`n`, `n + 1`, ... up to slot 6: every sentence lies in its slot from the start offset on,
and every store is at or after the start offset of its slot. -/
theorem capture_lines (ls : List (List Nat)) :
    ∀ (s : Device), s.slots_ok → s.buf_count = (start_offset s.nmea_count : Int) →
      s.nmea_count + ls.length ≤ 7 → (∀ l ∈ ls, sentence_ok l) →
      usart2_run (round_bytes ls) s = some { s with
        NMEA := capture_slots s.NMEA s.nmea_count ls
        buf_count := (start_offset (s.nmea_count + ls.length) : Int)
        nmea_count := s.nmea_count + ls.length } ∧
      (capture_slots s.NMEA s.nmea_count ls).length = 8 ∧
      (∀ slot ∈ capture_slots s.NMEA s.nmea_count ls, slot.length = 100) ∧
      ∀ place ∈ usart2_trace (round_bytes ls) s,
        (start_offset place.1 : Int) ≤ place.2 ∧ place.1 < 7 := by
  induction ls with
  | nil =>
    intro s hs hb _ _
    refine ⟨?_, hs.1, hs.2, by simp [round_bytes, usart2_trace]⟩
    simp only [round_bytes, usart2_run, capture_slots, List.length_nil, Nat.add_zero]
    rw [← hb]
  | cons l ls ih =>
    intro s hs hb hn hok
    obtain ⟨h10, hbytes, hlen⟩ := hok l (by simp)
    simp only [List.length_cons] at hn
    obtain ⟨slot, hslot, hslen⟩ := slots_get hs (show s.nmea_count < 8 by omega)
    have hk : start_offset s.nmea_count ≤ 1 := by unfold start_offset; split <;> omega
    have hsplit := slot_split slot (start_offset s.nmea_count) (l.length + 2)
    have hpre : (slot.take (start_offset s.nmea_count)).length = start_offset s.nmea_count := by
      rw [List.length_take]; omega
    obtain ⟨p, hrun, hlf, htrace⟩ := capture_line l
      ((slot.drop (start_offset s.nmea_count)).take (l.length + 2)) s
      (slot.take (start_offset s.nmea_count))
      (slot.drop (start_offset s.nmea_count + (l.length + 2)))
      (by rw [← hsplit]; exact hslot) (by rw [hb, hpre])
      (by rw [List.length_take, List.length_drop]; omega) (by omega) h10 hbytes
    rw [if_neg (by omega)] at hlf
    have hcap : slot.take (start_offset s.nmea_count) ++ l
          ++ 0 :: 0 :: slot.drop (start_offset s.nmea_count + (l.length + 2))
        = captured (s.NMEA.getD s.nmea_count []) (start_offset s.nmea_count) l := by
      rw [List.getD_eq_getElem?_getD, hslot, Option.getD_some]
      rfl
    rw [hcap] at hlf
    have hclen : (captured (s.NMEA.getD s.nmea_count []) (start_offset s.nmea_count) l).length
        = 100 := by
      rw [List.getD_eq_getElem?_getD, hslot, Option.getD_some, captured_length _ _ _ (by omega)]
      exact hslen
    obtain ⟨irun, ilen, islots, itrace⟩ := ih
      { s with
        NMEA := s.NMEA.set s.nmea_count
          (captured (s.NMEA.getD s.nmea_count []) (start_offset s.nmea_count) l)
        buf_count := 1
        nmea_count := s.nmea_count + 1 }
      (slots_ok_set hs _ _ hclen _ rfl)
      (show (1 : Int) = (start_offset (s.nmea_count + 1) : Int) by
        unfold start_offset; rw [if_neg (by omega)]; rfl)
      (show s.nmea_count + 1 + ls.length ≤ 7 by omega)
      (fun x hx => hok x (List.mem_cons_of_mem _ hx))
    have hbytes_eq : round_bytes (l :: ls) = (l ++ [13]) ++ 10 :: round_bytes ls := by
      simp [round_bytes]
    refine ⟨?_, ilen, islots, ?_⟩
    · rw [hbytes_eq, usart2_run_append, hrun, Option.some_bind, usart2_run, hlf,
        Option.some_bind, irun]
      simp only [capture_slots, List.length_cons]
      rw [show s.nmea_count + 1 + ls.length = s.nmea_count + (ls.length + 1) by omega]
    · intro place hp
      rw [hbytes_eq, usart2_trace_append, hrun] at hp
      simp only [usart2_trace, hlf] at hp
      rw [← List.append_assoc] at hp
      rcases List.mem_append.1 hp with h1 | h1
      · obtain ⟨e1, e2⟩ := htrace place h1
        rw [e1]
        exact ⟨by rw [hpre] at e2; exact e2, by omega⟩
      · exact itrace place h1

theorem round_bytes_append (a b : List (List Nat)) :
    round_bytes (a ++ b) = round_bytes a ++ round_bytes b := by
  induction a with
  | nil => rfl
  | cons l a ih => simp [round_bytes, ih]

theorem capture_slots_append (a b : List (List Nat)) :
    ∀ (NMEA : List (List Nat)) (n : Nat),
      capture_slots NMEA n (a ++ b) = capture_slots (capture_slots NMEA n a) (n + a.length) b := by
  induction a with
  | nil => intro NMEA n; rfl
  | cons l a ih =>
    intro NMEA n
    rw [List.cons_append, capture_slots, capture_slots, ih, List.length_cons,
      show n + 1 + a.length = n + (a.length + 1) by omega]

/-- The content of slot `k` after the capture of the sentences `ls` in the slots from `n`
on: the slots outside `n .. n + ls.length - 1` are kept, and slot `n + i` holds sentence
`i` from its start offset. -/
theorem capture_slots_get (ls : List (List Nat)) :
    ∀ (NMEA : List (List Nat)) (n k : Nat), n + ls.length ≤ NMEA.length →
      ((k < n ∨ n + ls.length ≤ k) → (capture_slots NMEA n ls)[k]? = NMEA[k]?) ∧
      (∀ l, n ≤ k → ls[k - n]? = some l →
        (capture_slots NMEA n ls)[k]?
          = some (captured (NMEA.getD k []) (start_offset k) l)) := by
  induction ls with
  | nil =>
    intro NMEA n k _
    exact ⟨fun _ => rfl, fun l _ h => by simp at h⟩
  | cons l0 ls ih =>
    intro NMEA n k hlen
    simp only [List.length_cons] at hlen
    obtain ⟨i1, i2⟩ := ih (NMEA.set n (captured (NMEA.getD n []) (start_offset n) l0)) (n + 1) k
      (by rw [List.length_set]; omega)
    constructor
    · intro hk
      rw [capture_slots, i1 (by simp only [List.length_cons] at hk; omega),
        List.getElem?_set_ne (by simp only [List.length_cons] at hk; omega)]
    · intro l hnk hget
      rw [capture_slots]
      by_cases hkn : k = n
      · subst hkn
        simp only [Nat.sub_self, List.getElem?_cons_zero, Option.some.injEq] at hget
        subst hget
        rw [i1 (Or.inl (by omega)), List.getElem?_set_self (by omega)]
      · have hsub : k - n = (k - (n + 1)) + 1 := by omega
        rw [hsub, List.getElem?_cons_succ] at hget
        rw [i2 l (by omega) hget, List.getD_eq_getElem?_getD,
          List.getElem?_set_ne (fun e => hkn e.symm), ← List.getD_eq_getElem?_getD]

/-- The handler over a round of eight sentences, each with its CR LF, from a state with
the cursor at byte offset 0 of slot 0: the round up to its last line feed is captured,
the last line feed goes on with the parser dispatch in `round_state`, and no store of the
round is at byte offset 0 of a slot 1..7. -/
theorem capture_round (s : Device) (ls : List (List Nat)) (hs : s.slots_ok)
    (hn : s.nmea_count = 0) (hb : s.buf_count = 0) (hlen : ls.length = 8)
    (hok : ∀ l ∈ ls, sentence_ok l) :
    (∃ p, usart2_run (round_bytes ls).dropLast s = some p ∧
      usart2_call true 10 p = usart2_dispatch (round_state s ls)) ∧
    usart2_run (round_bytes ls) s = usart2_dispatch (round_state s ls) ∧
    (round_state s ls).slots_ok ∧
    ∀ place ∈ usart2_trace (round_bytes ls) s,
      place.1 < 8 ∧ (start_offset place.1 : Int) ≤ place.2 := by
  obtain ⟨front, last, rfl⟩ : ∃ front last, ls = front ++ [last] := by
    have hne : ls ≠ [] := by intro e; rw [e] at hlen; simp at hlen
    exact ⟨ls.dropLast, ls.getLast hne, (List.dropLast_append_getLast hne).symm⟩
  have hfl : front.length = 7 := by simpa using hlen
  obtain ⟨frun, flen, fslots, ftrace⟩ := capture_lines front s hs
    (by rw [hb, hn]; rfl) (by omega) (fun l hl => hok l (by simp [hl]))
  rw [hn, hfl] at frun
  rw [hn] at flen fslots
  obtain ⟨h10, hbytes, hllen⟩ := hok last (by simp)
  have hs1 : Device.slots_ok { s with
      NMEA := capture_slots s.NMEA 0 front
      buf_count := (start_offset (0 + 7) : Int)
      nmea_count := 0 + 7 } := ⟨flen, fslots⟩
  obtain ⟨slot, hslot, hslen⟩ := slots_get hs1 (show (0 + 7 : Nat) < 8 by norm_num)
  have hsplit := slot_split slot 1 (last.length + 2)
  have hpre : (slot.take 1).length = 1 := by rw [List.length_take]; omega
  obtain ⟨p, hrun, hlf, htrace⟩ := capture_line last ((slot.drop 1).take (last.length + 2))
    { s with
      NMEA := capture_slots s.NMEA 0 front
      buf_count := (start_offset (0 + 7) : Int)
      nmea_count := 0 + 7 }
    (slot.take 1) (slot.drop (1 + (last.length + 2)))
    (by rw [← hsplit]; exact hslot) (by rw [hpre]; rfl)
    (by rw [List.length_take, List.length_drop]; omega) (by norm_num) h10 hbytes
  rw [if_pos (by rfl)] at hlf
  have hcapt : slot.take 1 ++ last ++ 0 :: 0 :: slot.drop (1 + (last.length + 2))
      = captured slot (start_offset 7) last := rfl
  have hstate : round_state s (front ++ [last]) = { s with
      NMEA := (capture_slots s.NMEA 0 front).set 7
        (slot.take 1 ++ last ++ 0 :: 0 :: slot.drop (1 + (last.length + 2)))
      buf_count := 0
      nmea_count := 0
      uart_incr_ticks := (s.uart_incr_ticks + 1) % UINT32_MOD
      usart2_ue := false
      usart2_irq := false } := by
    unfold round_state
    rw [capture_slots_append, hfl]
    simp only [capture_slots, Nat.zero_add]
    rw [List.getD_eq_getElem?_getD]
    have : (capture_slots s.NMEA 0 front)[7]? = some slot := hslot
    rw [this, Option.getD_some, hcapt]
  have hdisp : usart2_call true 10 p = usart2_dispatch (round_state s (front ++ [last])) := by
    rw [hlf, hstate]
  have hb1 : round_bytes (front ++ [last]) = (round_bytes front ++ (last ++ [13])) ++ [10] := by
    rw [round_bytes_append]
    simp [round_bytes]
  have hpre_run : usart2_run (round_bytes front ++ (last ++ [13])) s = some p := by
    rw [usart2_run_append, frun, Option.some_bind]
    exact hrun
  refine ⟨⟨p, ?_, hdisp⟩, ?_, ?_, ?_⟩
  · rw [hb1, List.dropLast_concat]
    exact hpre_run
  · rw [hb1, usart2_run_append, hpre_run, Option.some_bind, usart2_run, hdisp]
    cases usart2_dispatch (round_state s (front ++ [last])) <;> rfl
  · rw [hstate]
    refine slots_ok_set hs1 7 _ ?_ _ rfl
    rw [hcapt, captured_length _ _ _ (by unfold start_offset; simp; omega)]
    exact hslen
  · intro place hp
    rw [hb1, usart2_trace_append, hpre_run, usart2_trace_append, frun] at hp
    simp only [usart2_trace, List.append_nil] at hp
    rcases List.mem_append.1 hp with h1 | h1
    · rcases List.mem_append.1 h1 with h2 | h2
      · obtain ⟨e1, e2⟩ := ftrace place h2
        exact ⟨by omega, e1⟩
      · obtain ⟨e1, e2⟩ := htrace place (List.mem_append_left _ h2)
        have e1' : place.1 = 7 := e1
        rw [e1', hpre] at *
        exact ⟨by norm_num, e2⟩
    · have h3 : place ∈ usart2_stores 10 p := by
        cases hd : usart2_call true 10 p with
        | none => rw [hd] at h1; simpa using h1
        | some s2 => rw [hd] at h1; simpa [usart2_trace] using h1
      obtain ⟨e1, e2⟩ := htrace place (List.mem_append_right _ h3)
      have e1' : place.1 = 7 := e1
      rw [e1', hpre] at *
      exact ⟨by norm_num, e2⟩

/-- After whole rounds from a state with the cursor at byte offset 0 of slot 0, the cursor
is there again, and no store was at byte offset 0 of a slot 1..7. -/
theorem capture_rounds (rs : List (List (List Nat))) :
    ∀ (s0 s : Device), s0.slots_ok → s0.nmea_count = 0 → s0.buf_count = 0 →
      (∀ r ∈ rs, round_ok r) → usart2_run (stream_bytes rs) s0 = some s →
      s.slots_ok ∧ s.nmea_count = 0 ∧ s.buf_count = 0 ∧
      ∀ place ∈ usart2_trace (stream_bytes rs) s0,
        place.1 < 8 ∧ (start_offset place.1 : Int) ≤ place.2 := by
  induction rs with
  | nil =>
    intro s0 s hs hn hb _ hrun
    simp only [stream_bytes, usart2_run, Option.some.injEq] at hrun
    subst hrun
    exact ⟨hs, hn, hb, by simp [stream_bytes, usart2_trace]⟩
  | cons r rs ih =>
    intro s0 s hs hn hb hok hrun
    obtain ⟨hlen, hsent⟩ := hok r (by simp)
    obtain ⟨_, hround, hsok, htrace⟩ := capture_round s0 r hs hn hb hlen hsent
    rw [stream_bytes, usart2_run_append] at hrun
    cases hd : usart2_run (round_bytes r) s0 with
    | none => rw [hd] at hrun; simp at hrun
    | some s1 =>
      rw [hd, Option.some_bind] at hrun
      rw [hround] at hd
      obtain ⟨e1, e2, e3, _⟩ := usart2_dispatch_effect hd
      have hs1 : s1.slots_ok := by
        unfold Device.slots_ok
        rw [e1]
        exact hsok
      obtain ⟨i1, i2, i3, i4⟩ := ih s1 s hs1 (by rw [e3]; rfl) (by rw [e2]; rfl)
        (fun x hx => hok x (List.mem_cons_of_mem _ hx)) hrun
      refine ⟨i1, i2, i3, fun place hp => ?_⟩
      rw [stream_bytes, usart2_trace_append, hround, hd] at hp
      rcases List.mem_append.1 hp with h | h
      · exact htrace place h
      · exact i4 place h

theorem round_bytes_line_feeds (ls : List (List Nat)) (hok : ∀ l ∈ ls, sentence_ok l) :
    (round_bytes ls).count 10 = ls.length := by
  induction ls with
  | nil => rfl
  | cons l ls ih =>
    have h10 : l.count 10 = 0 := List.count_eq_zero_of_not_mem (hok l (by simp)).1
    simp only [round_bytes, List.count_append, List.count_cons, h10, List.length_cons,
      ih (fun x hx => hok x (List.mem_cons_of_mem _ hx))]
    simp

theorem stream_bytes_line_feeds (rs : List (List (List Nat))) (hok : ∀ r ∈ rs, round_ok r) :
    (stream_bytes rs).count 10 = 8 * rs.length := by
  induction rs with
  | nil => rfl
  | cons r rs ih =>
    obtain ⟨hlen, hsent⟩ := hok r (by simp)
    simp only [stream_bytes, List.count_append, round_bytes_line_feeds r hsent, hlen,
      ih (fun x hx => hok x (List.mem_cons_of_mem _ hx)), List.length_cons]
    omega

theorem stream_bytes_concat (rs : List (List (List Nat))) (ls : List (List Nat)) :
    stream_bytes (rs ++ [ls]) = stream_bytes rs ++ round_bytes ls := by
  induction rs with
  | nil => simp [stream_bytes]
  | cons r rs ih => simp [stream_bytes, ih]

/-- C30. From start-up, after any number of whole rounds of eight CR-LF-terminated
sentences (state `s`), the next round `ls` is captured as follows. The run of the handler
over the round is the parser dispatch in the state where slot 0 holds its sentence from
byte offset 0 and each slot 1..7 holds its sentence from byte offset 1 (the sentence, two
NUL over CR and LF, the other bytes of the slot kept). No store of the handler, in any
round, is at byte offset 0 of a slot 1..7. Consequently, in a round that dispatches
`GGA_analysis` (the first, third, ... round) whose slot 2 then holds a well-formed
position sentence `$GPGGA,hhmmss,...` after its byte 0, index 8 of the slot is the first
digit of the time field, the handler returns, and the stored hour, minute and second are
HH + 5 - 12, MM and SS. -/
theorem C30_capture_offsets (rs : List (List (List Nat))) (ls : List (List Nat)) (s : Device)
    (hrs : ∀ r ∈ rs, round_ok r) (hls : round_ok ls)
    (hrun : usart2_run (stream_bytes rs) Device.init = some s) :
    usart2_run (stream_bytes (rs ++ [ls])) Device.init = usart2_dispatch (round_state s ls) ∧
    (∀ (k : Nat) (l slot : List Nat), ls[k]? = some l → s.NMEA[k]? = some slot →
      (round_state s ls).NMEA[k]?
        = some (slot.take (if k = 0 then 0 else 1) ++ l
            ++ 0 :: 0 :: slot.drop ((if k = 0 then 0 else 1) + l.length + 2))) ∧
    (∀ place ∈ usart2_trace (stream_bytes (rs ++ [ls])) Device.init,
      place.1 < 8 ∧ 0 ≤ place.2 ∧ (1 ≤ place.1 → 1 ≤ place.2)) ∧
    (rs.length % 2 = 0 →
      ∀ (t : GGAText) (b h1 h2 m1 m2 s1 s2 : Nat)
        (lat_i lat_f lon_i lon_f alt_i alt_f : List Nat),
        t.well_formed lat_i lat_f lon_i lon_f alt_i alt_f → t.lead = b :: gga_header →
        t.time = [h1, h2, m1, m2, s1, s2] → (∀ c ∈ [h1, h2, m1, m2, s1, s2], is_digit c) →
        (round_state s ls).NMEA[2]? = some t.render →
        ∃ e, usart2_run (stream_bytes (rs ++ [ls])) Device.init = some e ∧
          e.parser_calls = s.parser_calls ++ [ParserCall.GGA_analysis 2] ∧
          t.render[8]? = some h1 ∧
          e.gnssTransfer.GGA.hour = (digits_value [h1, h2] : Int) + 5 - 12 ∧
          e.gnssTransfer.GGA.min = (digits_value [m1, m2] : Int) ∧
          e.gnssTransfer.GGA.sec = (digits_value [s1, s2] : Int)) := by
  obtain ⟨hs, hn, hb, htrace0⟩ := capture_rounds rs Device.init s (by decide) rfl rfl hrs hrun
  obtain ⟨_, hround, _, htrace⟩ := capture_round s ls hs hn hb hls.1 hls.2
  have hfull : usart2_run (stream_bytes (rs ++ [ls])) Device.init
      = usart2_dispatch (round_state s ls) := by
    rw [stream_bytes_concat, usart2_run_append, hrun, Option.some_bind, hround]
  have hoff : ∀ k, start_offset k = if k = 0 then 0 else 1 := fun k => rfl
  refine ⟨hfull, ?_, ?_, ?_⟩
  · intro k l slot hl hslot
    have hk : k < ls.length := by
      by_contra hc
      rw [List.getElem?_eq_none (by omega)] at hl
      exact absurd hl (by simp)
    have := (capture_slots_get ls s.NMEA 0 k (by rw [hs.1, hls.1])).2 l (by omega)
      (by simpa using hl)
    rw [List.getD_eq_getElem?_getD, hslot, Option.getD_some] at this
    show (capture_slots s.NMEA 0 ls)[k]? = _
    rw [this, captured, hoff]
  · intro place hp
    rw [stream_bytes_concat, usart2_trace_append, hrun] at hp
    have key : place.1 < 8 ∧ (start_offset place.1 : Int) ≤ place.2 := by
      rcases List.mem_append.1 hp with h | h
      · exact htrace0 place h
      · exact htrace place h
    obtain ⟨k1, k2⟩ := key
    rw [hoff] at k2
    refine ⟨k1, by split at k2 <;> omega, fun h1 => ?_⟩
    rw [if_neg (by omega)] at k2
    exact_mod_cast k2
  · intro heven t b h1 h2 m1 m2 s1 s2 lat_i lat_f lon_i lon_f alt_i alt_f hwf hlead htime
      hdig hslot
    have hcount := usart2_run_line_feeds (stream_bytes rs) Device.init s 0 hrun
      init_after_line_feeds
    rw [stream_bytes_line_feeds rs hrs] at hcount
    have he : s.even_counter % 2 = 0 := by
      rw [hcount.2.2]
      omega
    have hparse := GGA_analysis_well_formed t hwf s.gnssTransfer.GGA s.sink
    have hdisp : usart2_dispatch (round_state s ls) = some { round_state s ls with
        gnssTransfer := { s.gnssTransfer with
          GGA := { store_time { s.gnssTransfer.GGA with fixbit_gga := 1 } (pad t.time) with
            latitude := (digits_value lat_i : ℚ) / 100
              + (digits_value lat_f : ℚ) / (10 : ℚ) ^ (lat_f.length + 2),
            NS := t.ns,
            longitude := (digits_value lon_i : ℚ) / 100
              + (digits_value lon_f : ℚ) / (10 : ℚ) ^ (lon_f.length + 2),
            EW := t.ew,
            numofsat := (digits_value t.sats : Int),
            altitude := fixed_point_float alt_i alt_f, unit := t.unit } }
        sink := s.sink ++ GGA_log (pad t.time) (pad t.lat) (pad t.lon) (pad t.sats) (pad t.alt)
            t.ns t.ew
        even_counter := 1
        systick_count := 0
        parser_calls := s.parser_calls ++ [ParserCall.GGA_analysis 2] } := by
      unfold usart2_dispatch
      have he2 : (round_state s ls).even_counter % 2 = 0 := he
      rw [if_pos he2, hslot, Option.some_bind]
      show (GGA_analysis t.render s.gnssTransfer.GGA s.sink).map _ = _
      rw [hparse]
      rfl
    refine ⟨_, hfull.trans hdisp, rfl, ?_, ?_, ?_, ?_⟩
    · simp [GGAText.render, hlead, htime, gga_header]
    · show digit_pair (pad t.time) 0 + GMT / 100 - 12 = _
      rw [htime, digit_pair_pad _ 0 h1 h2 rfl rfl (hdig _ (by simp)) (hdig _ (by simp))]
      rfl
    · show digit_pair (pad t.time) 2 + GMT % 100 = _
      rw [htime, digit_pair_pad _ 2 m1 m2 rfl rfl (hdig _ (by simp)) (hdig _ (by simp))]
      show _ + (0 : Int) = _
      rw [add_zero]
    · show digit_pair (pad t.time) 4 = _
      rw [htime, digit_pair_pad _ 4 s1 s2 rfl rfl (hdig _ (by simp)) (hdig _ (by simp))]

set_option maxRecDepth 1000000 in
/-- C30, witness: the first round from start-up, `round_stream`. Slot 2 holds the scenario
sentence from byte offset 1, index 8 of the slot is the first digit of the time field
123519, and the handler returns with hour 5, minute 35 and second 19. -/
theorem C30_capture_offsets_witness :
    (round_ok sample_round ∧ stream_bytes ([] ++ [sample_round]) = round_stream ∧
      gga_captured_text.well_formed (bytes "4807") (bytes "038") (bytes "01131")
        (bytes "000") (bytes "545") (bytes "4") ∧
      (round_state Device.init sample_round).NMEA[2]? = some gga_captured_text.render ∧
      gga_captured_text.render = 0 :: gga_sample ++ List.replicate 37 0) ∧
    ∃ e, usart2_run round_stream Device.init = some e ∧
      e.parser_calls = [ParserCall.GGA_analysis 2] ∧
      gga_captured_text.render[8]? = some 49 ∧
      e.gnssTransfer.GGA.hour = 5 ∧ e.gnssTransfer.GGA.min = 35 ∧
      e.gnssTransfer.GGA.sec = 19 := by
  have hstream : stream_bytes ([] ++ [sample_round]) = round_stream := by decide
  refine ⟨⟨by decide, hstream, by decide, by decide, by decide⟩, ?_⟩
  obtain ⟨e, hrun, hp, h8, hh, hm, hsec⟩ :=
    (C30_capture_offsets [] sample_round Device.init (by simp) (by decide) rfl).2.2.2 rfl
      gga_captured_text 0 49 50 51 53 49 57
      (bytes "4807") (bytes "038") (bytes "01131") (bytes "000") (bytes "545") (bytes "4")
      (by decide) rfl rfl (by decide) (by decide)
  rw [hstream] at hrun
  exact ⟨e, hrun, hp, h8, hh.trans (by decide), hm.trans (by decide), hsec.trans (by decide)⟩

/-! ## The write index of the sampling loop -/

/-- The sampling loop inside its first window: from a state with `j` samples taken and no
analysis made yet, `n` more passes with `j + n ≤ 50` return, store at the indices
`j .. j + n - 1`, call `event_analysis` at no time, and leave `systick_count` and
`buff_incr` at `j + n`. -/
theorem main_loop_window (readings : List (List Nat)) :
    ∀ (j : Nat) (s : Device), (∀ r ∈ readings, r.length = 6) → j + readings.length ≤ 50 →
      s.systick_count = j → s.buff_incr = j →
      s.x_axis_buffer.length = 51 → s.y_axis_buffer.length = 51 →
      s.z_axis_buffer.length = 51 →
      ∃ s2, loop_run (readings.map LoopEvent.pass) s = some s2 ∧
        s2.systick_count = ((j + readings.length : Nat) : Int) ∧
        s2.buff_incr = j + readings.length ∧
        sample_indices (readings.map LoopEvent.pass) s = List.range' j readings.length ∧
        analysis_indices (readings.map LoopEvent.pass) s = [] := by
  induction readings with
  | nil =>
    intro j s _ _ hc hb _ _ _
    exact ⟨s, rfl, by simpa using hc, by simpa using hb, rfl, rfl⟩
  | cons r rest ih =>
    intro j s hr hj hc hb hx hy hz
    have hr6 : r.length = 6 := hr r (by simp)
    obtain ⟨d0, d1, d2, d3, d4, d5, rfl⟩ :
        ∃ d0 d1 d2 d3 d4 d5, r = [d0, d1, d2, d3, d4, d5] := by
      match r, hr6 with
      | [d0, d1, d2, d3, d4, d5], _ => exact ⟨d0, d1, d2, d3, d4, d5, rfl⟩
    simp only [List.length_cons] at hj
    have hne : ¬ s.systick_count = 50 := by rw [hc]; omega
    have hi : s.buff_incr < 51 := by rw [hb]; omega
    obtain ⟨t, hstep, t1, t2, t3, t4, t5⟩ : ∃ t,
        loop_event (LoopEvent.pass [d0, d1, d2, d3, d4, d5]) s = some t ∧
        t.systick_count = to_int16 (s.systick_count + 1) ∧
        t.buff_incr = (s.buff_incr + 1) % 256 ∧ t.x_axis_buffer.length = 51 ∧
        t.y_axis_buffer.length = 51 ∧ t.z_axis_buffer.length = 51 := by
      refine ⟨{ s with
          systick_count := to_int16 (s.systick_count + 1)
          x_axis_buffer := s.x_axis_buffer.set s.buff_incr
            (to_int16 (((d0 % 256) <<< 8 ||| (d1 % 256) : Nat) : Int))
          y_axis_buffer := s.y_axis_buffer.set s.buff_incr
            (to_int16 (((d2 % 256) <<< 8 ||| (d3 % 256) : Nat) : Int))
          z_axis_buffer := s.z_axis_buffer.set s.buff_incr
            (to_int16 (((d4 % 256) <<< 8 ||| (d5 % 256) : Nat) : Int))
          buff_incr := (s.buff_incr + 1) % 256 }, ?_, rfl, rfl, ?_, ?_, ?_⟩
      · simp only [loop_event, main_loop, hne, if_false, Option.some_bind, MPU6050_Read_Accel,
          List.getElem?_cons_zero, List.getElem?_cons_succ, stat_store, hx, hy, hz, hi,
          if_true, Option.map_some']
      · simp only [List.length_set]; exact hx
      · simp only [List.length_set]; exact hy
      · simp only [List.length_set]; exact hz
    obtain ⟨s2, hrun, h1, h2, h3, h4⟩ := ih (j + 1) t
      (fun x hx => hr x (List.mem_cons_of_mem _ hx)) (by omega)
      (by rw [t1, hc]; unfold to_int16; omega)
      (by rw [t2, hb]; omega) t3 t4 t5
    refine ⟨s2, ?_, ?_, ?_, ?_, ?_⟩
    · rw [List.map_cons, loop_run, hstep, Option.some_bind, hrun]
    · rw [h1]; simp only [List.length_cons]; congr 1; omega
    · rw [h2]; simp only [List.length_cons]; omega
    · rw [List.map_cons, sample_indices, hstep]
      simp only [hne, if_false]
      rw [h3, hb, List.length_cons, List.range'_succ]
      rfl
    · rw [List.map_cons, analysis_indices, hstep]
      simp only [hne, if_false]
      rw [h4]
      rfl

set_option maxRecDepth 1000000 in
/-- C31. Two executions from start-up. In `schedule_one` the receive handler completes a
round (and resets `systick_count`) after one sample of the second window: the second call
of `event_analysis` is made with `buff_incr` = 51, the samples since the first call having
been stored at the indices 0..50. In `schedule_two` the round is completed after four
samples: 47 passes later `buff_incr` is 51 with `systick_count` = 47, and the next sample
is stored at index 51, outside the 51-entry arrays, before `event_analysis` is called
again. -/
theorem C31_write_index :
    (analysis_indices schedule_one Device.init = [50, 51] ∧
      (sample_indices schedule_one Device.init).drop 50 = List.range 51 ++ [0] ∧
      (loop_run schedule_one Device.init).isSome = true) ∧
    ((List.flatten (List.map round_chunk [0, 1, 2, 3]) = round_events) ∧
      ((loop_run (schedule_two 47) Device.init).map fun s =>
        (s.systick_count, s.buff_incr, s.x_axis_buffer.length, s.y_axis_buffer.length,
          s.z_axis_buffer.length)) = some (47, 51, 51, 51, 51) ∧
      analysis_indices (schedule_two 48) Device.init = [50] ∧
      (sample_indices (schedule_two 48) Device.init).drop 50 = List.range 52 ∧
      (loop_run (schedule_two 48) Device.init).isSome = false) := by
  decide

/-! ## The stores of the receive handler stay inside the slots -/

/-- The handler over a run of bytes without line feed that fits the slot from the cursor
on: it returns, the cursor advances by the number of bytes, and every store is in the slot
of the cursor, from the byte offset of the cursor on and inside the run. -/
theorem usart2_run_plain (l : List Nat) :
    ∀ (s : Device), s.slots_ok → s.nmea_count < 8 → 0 ≤ s.buf_count →
      s.buf_count + l.length ≤ 100 → 10 ∉ l →
      ∃ s2, usart2_run l s = some s2 ∧ s2.slots_ok ∧ s2.nmea_count = s.nmea_count ∧
        s2.buf_count = s.buf_count + l.length ∧
        ∀ place ∈ usart2_trace l s,
          place.1 = s.nmea_count ∧ s.buf_count ≤ place.2 ∧ place.2 < s.buf_count + l.length := by
  induction l with
  | nil =>
    intro s hs _ _ _ _
    exact ⟨s, rfl, hs, rfl, by simp, by simp [usart2_trace]⟩
  | cons c l ih =>
    intro s hs hn h0 hfit h10
    obtain ⟨slot, hslot, hslen⟩ := slots_get hs hn
    simp only [List.length_cons, Nat.cast_add, Nat.cast_one] at hfit
    have hc10 : c ≠ 10 := fun e => h10 (by simp [e])
    have hstep := @usart2_rx_byte s c slot hslot h0 (by omega) hc10
    obtain ⟨s2, hrun, hs2, hn2, hb2, htrace⟩ := ih
      { s with
        NMEA := s.NMEA.set s.nmea_count (slot.set s.buf_count.toNat (c % 256))
        buf_count := s.buf_count + 1 }
      (slots_ok_set hs _ _ (by rw [List.length_set]; exact hslen) _ rfl)
      hn (show 0 ≤ s.buf_count + 1 by omega)
      (show s.buf_count + 1 + (l.length : Int) ≤ 100 by omega)
      (fun e => h10 (List.mem_cons_of_mem _ e))
    refine ⟨s2, by rw [usart2_run, hstep, Option.some_bind, hrun], hs2, hn2, ?_, ?_⟩
    · rw [hb2]
      simp only [List.length_cons, Nat.cast_add, Nat.cast_one]
      omega
    · intro place hp
      rw [usart2_trace, hstep] at hp
      simp only [List.length_cons, Nat.cast_add, Nat.cast_one]
      rcases List.mem_append.1 hp with h1 | h1
      · simp only [usart2_stores, hc10, if_false, List.mem_singleton] at h1
        rw [h1]
        exact ⟨rfl, le_refl _, by simp only []; omega⟩
      · obtain ⟨e1, e2, e3⟩ := htrace place h1
        exact ⟨e1, by simp only [] at e2; omega, by simp only [] at e3; omega⟩

theorem trim_slots_ok {s : Device} (hs : s.slots_ok) (n k : Nat) (hn : n < 8) (t : Device)
    (ht : t.NMEA = trim_slots s.NMEA n k) : t.slots_ok := by
  obtain ⟨slot, hslot, hslen⟩ := slots_get hs hn
  refine slots_ok_set hs n _ ?_ t ht
  rw [List.length_set, List.length_set, List.getD_eq_getElem?_getD, hslot, Option.getD_some]
  exact hslen

/-- The handler on a line feed with the cursor inside the slot at a byte offset of at
least 1: its three stores are in the slot, and when the call returns the cursor is at the
start offset of the next slot (of slot 0 after slot 7). -/
theorem usart2_line_feed_places (p : Device) (hs : p.slots_ok) (hn : p.nmea_count < 8)
    (h1 : 1 ≤ p.buf_count) (h100 : p.buf_count < 100) :
    (∀ place ∈ usart2_stores 10 p,
      place.1 = p.nmea_count ∧ p.buf_count - 1 ≤ place.2 ∧ place.2 ≤ p.buf_count) ∧
    (p.nmea_count < 7 → (usart2_call true 10 p).isSome = true) ∧
    ∀ s2, usart2_call true 10 p = some s2 →
      s2.slots_ok ∧ s2.nmea_count < 8 ∧ s2.buf_count = (start_offset s2.nmea_count : Int) := by
  obtain ⟨slot, hslot, hslen⟩ := slots_get hs hn
  have hstep := usart2_rx_line_feed hslot h1 (by omega) hn
  refine ⟨?_, ?_, ?_⟩
  · intro place hp
    simp only [usart2_stores, if_true, List.mem_cons, List.mem_singleton, List.not_mem_nil,
      or_false] at hp
    rcases hp with e | e | e <;> rw [e] <;> exact ⟨rfl, by simp only []; omega, by simp only []; omega⟩
  · intro h7
    rw [hstep, if_neg (by omega)]
    rfl
  · intro s2 h2
    rw [hstep] at h2
    by_cases h7 : p.nmea_count = 7
    · rw [if_pos h7] at h2
      obtain ⟨e1, e2, e3, _⟩ := usart2_dispatch_effect h2
      refine ⟨trim_slots_ok hs _ _ hn s2 e1, by rw [e3]; exact Nat.zero_lt_succ _, ?_⟩
      rw [e2, e3]
      rfl
    · rw [if_neg h7, Option.some.injEq] at h2
      subst h2
      refine ⟨trim_slots_ok hs _ _ hn _ rfl, ?_, ?_⟩
      · show p.nmea_count + 1 < 8
        omega
      · show (1 : Int) = (start_offset (p.nmea_count + 1) : Int)
        unfold start_offset
        rw [if_neg (by omega)]
        rfl

/-- The stores of the handler over whole lines and an unfinished last line, from a state
with the cursor at the start offset of a slot. -/
theorem usart2_trace_lines (ls : List (List Nat)) (tail : List Nat)
    (htail : 10 ∉ tail ∧ tail.length ≤ 99) :
    ∀ (s : Device), s.slots_ok → s.nmea_count < 8 →
      s.buf_count = (start_offset s.nmea_count : Int) → (∀ l ∈ ls, line_ok l) →
      ∀ place ∈ usart2_trace (line_stream ls ++ tail) s,
        place.1 < 8 ∧ 0 ≤ place.2 ∧ place.2 < 100 := by
  have hoff : ∀ n, (start_offset n : Int) = 0 ∨ (start_offset n : Int) = 1 := by
    intro n
    unfold start_offset
    split
    · exact Or.inl rfl
    · exact Or.inr rfl
  induction ls with
  | nil =>
    intro s hs hn hb _ place hp
    rw [line_stream, List.nil_append] at hp
    obtain ⟨_, _, _, _, _, htrace⟩ := usart2_run_plain tail s hs hn
      (by rw [hb]; rcases hoff s.nmea_count with e | e <;> omega)
      (by rw [hb]; have := htail.2; rcases hoff s.nmea_count with e | e <;> omega) htail.1
    obtain ⟨e1, e2, e3⟩ := htrace place hp
    rw [hb] at e2 e3
    have := htail.2
    refine ⟨by rw [e1]; exact hn, ?_, ?_⟩ <;> rcases hoff s.nmea_count with e | e <;> omega
  | cons l ls ih =>
    intro s hs hn hb hok place hp
    obtain ⟨h10, hl1, hl98⟩ := hok l (by simp)
    obtain ⟨p, hrun, hps, hpn, hpb, htrace⟩ := usart2_run_plain l s hs hn
      (by rw [hb]; rcases hoff s.nmea_count with e | e <;> omega)
      (by rw [hb]; rcases hoff s.nmea_count with e | e <;> omega) h10
    have hp1 : 1 ≤ p.buf_count := by rw [hpb, hb]; rcases hoff s.nmea_count with e | e <;> omega
    have hp100 : p.buf_count < 100 := by
      rw [hpb, hb]; rcases hoff s.nmea_count with e | e <;> omega
    obtain ⟨hstores, _, hnext⟩ := usart2_line_feed_places p hps (by rw [hpn]; exact hn) hp1 hp100
    have hsplit : line_stream (l :: ls) ++ tail = l ++ 10 :: (line_stream ls ++ tail) := by
      simp [line_stream]
    rw [hsplit, usart2_trace_append, hrun] at hp
    simp only [usart2_trace] at hp
    rcases List.mem_append.1 hp with h | h
    · obtain ⟨e1, e2, e3⟩ := htrace place h
      rw [hb] at e2 e3
      refine ⟨by rw [e1]; exact hn, ?_, ?_⟩ <;> rcases hoff s.nmea_count with e | e <;> omega
    · rcases List.mem_append.1 h with h | h
      · obtain ⟨e1, e2, e3⟩ := hstores place h
        exact ⟨by rw [e1, hpn]; exact hn, by omega, by omega⟩
      · cases hcall : usart2_call true 10 p with
        | none => rw [hcall] at h; simp at h
        | some s2 =>
          rw [hcall] at h
          obtain ⟨a1, a2, a3⟩ := hnext s2 hcall
          exact ih s2 a1 a2 a3 (fun x hx => hok x (List.mem_cons_of_mem _ hx)) place h

/-- C32. From start-up, for every byte stream made of lines that are, line feed included,
2 to 99 bytes long, followed by an unfinished last line of at most 99 bytes: every store
of `usart2_call` while the stream is received (the received byte and, on a line feed, the
two NUL) goes to a slot index 0..7 and a byte offset 0..99, inside the 100-byte slot. The
stores of a call that does not return are counted too. -/
theorem C32_stores_in_slot (ls : List (List Nat)) (tail : List Nat)
    (hls : ∀ l ∈ ls, line_ok l) (htail : 10 ∉ tail ∧ tail.length ≤ 99) :
    Device.init.slots_ok ∧
    ∀ place ∈ usart2_trace (line_stream ls ++ tail) Device.init,
      place.1 < 8 ∧ 0 ≤ place.2 ∧ place.2 < 100 :=
  ⟨by decide, usart2_trace_lines ls tail htail Device.init (by decide) (by decide) rfl hls⟩

set_option maxRecDepth 1000000 in
/-- C32, witness: the round `round_stream` followed by the first bytes `$GP` of a next
line. -/
theorem C32_stores_in_slot_witness :
    ((∀ l ∈ sample_lines, line_ok l) ∧ 10 ∉ bytes "$GP" ∧ (bytes "$GP").length ≤ 99 ∧
      line_stream sample_lines ++ bytes "$GP" = round_stream ++ bytes "$GP") ∧
    (usart2_trace (round_stream ++ bytes "$GP") Device.init).length = 402 ∧
    ∀ place ∈ usart2_trace (round_stream ++ bytes "$GP") Device.init,
      place.1 < 8 ∧ 0 ≤ place.2 ∧ place.2 < 100 := by
  have hstream : line_stream sample_lines ++ bytes "$GP" = round_stream ++ bytes "$GP" := by
    decide
  refine ⟨⟨by decide, by decide, by decide, hstream⟩, by decide, ?_⟩
  have := (C32_stores_in_slot sample_lines (bytes "$GP") (by decide)
    ⟨by decide, by decide⟩).2
  rw [hstream] at this
  exact this

/-! ## `GGA_analysis` returns -/

theorem atoi_digits_some : ∀ (s : List Nat) (acc : Nat), 0 ∈ s →
    ∃ v, atoi_digits s acc = some v := by
  intro s
  induction s with
  | nil => intro _ h; simp at h
  | cons c cs ih =>
    intro acc h
    rw [atoi_digits]
    by_cases hd : 48 ≤ c ∧ c ≤ 57
    · rw [if_pos hd]
      have : 0 ∈ cs := by
        rcases List.mem_cons.1 h with e | e
        · omega
        · exact e
      exact ih _ this
    · rw [if_neg hd]
      exact ⟨acc, rfl⟩

theorem atoi_sign_some (s : List Nat) (h : 0 ∈ s) : ∃ v, atoi_sign s = some v := by
  cases s with
  | nil => simp at h
  | cons c cs =>
    rw [atoi_sign]
    have hcs : c ≠ 0 → 0 ∈ cs := by
      intro hc
      rcases List.mem_cons.1 h with e | e
      · exact absurd e.symm hc
      · exact e
    by_cases h45 : c = 45
    · obtain ⟨v, hv⟩ := atoi_digits_some cs 0 (hcs (by omega))
      exact ⟨_, by rw [if_pos h45, hv]; rfl⟩
    · by_cases h43 : c = 43
      · obtain ⟨v, hv⟩ := atoi_digits_some cs 0 (hcs (by omega))
        exact ⟨_, by rw [if_neg h45, if_pos h43, hv]; rfl⟩
      · obtain ⟨v, hv⟩ := atoi_digits_some (c :: cs) 0 h
        exact ⟨_, by rw [if_neg h45, if_neg h43, hv]; rfl⟩

/-- The scan of `atoi` stays inside an array that holds a NUL. -/
theorem atoi_space_some : ∀ (s : List Nat), 0 ∈ s → ∃ v, atoi_space s = some v := by
  intro s
  induction s with
  | nil => intro h; simp at h
  | cons c cs ih =>
    intro h
    rw [atoi_space]
    by_cases hsp : isspace c = true
    · rw [if_pos hsp]
      have hc : c ≠ 0 := by
        intro e; rw [e] at hsp; exact absurd hsp (by decide)
      rcases List.mem_cons.1 h with e | e
      · exact absurd e.symm hc
      · exact ih e
    · rw [if_neg hsp]
      exact atoi_sign_some _ h

/-- The call `atoi(buf + k)` on a 12-byte field buffer returns: the field leaves a NUL in
the buffer, and the number read fits an `int`. -/
theorem atoi_pad_some (fld : List Nat) (hlen : fld.length ≤ 11) (k : Nat)
    (hk : k ≤ fld.length) (hfit : atoi_in_range (pad fld)) :
    ∃ v, atoi ((pad fld).drop k) = some v := by
  have h0 : 0 ∈ (pad fld).drop k := by
    rw [pad_eq hlen, List.drop_append_of_le_length hk]
    simp
  obtain ⟨v, hv⟩ := atoi_space_some _ h0
  obtain ⟨r1, r2⟩ := hfit k (by omega) v (by rw [hv]; rfl)
  exact ⟨v, by rw [atoi, hv, Option.some_bind, if_pos ⟨r1, r2⟩]⟩

/-- The search of the decimal point stays inside a field that holds one. -/
theorem find_dot_some : ∀ (fld t : List Nat), 46 ∈ fld →
    ∃ j, find_dot (fld ++ t) = some j ∧ j < fld.length := by
  intro fld
  induction fld with
  | nil => intro _ h; simp at h
  | cons c cs ih =>
    intro t h
    rw [List.cons_append, find_dot]
    by_cases hc : c = 46
    · exact ⟨0, by rw [if_pos hc], by simp⟩
    · have : 46 ∈ cs := by
        rcases List.mem_cons.1 h with e | e
        · exact absurd e.symm hc
        · exact e
      obtain ⟨j, hj, hlt⟩ := ih t this
      exact ⟨j + 1, by rw [if_neg hc, hj]; rfl, by simp; omega⟩

/-- The latitude/longitude conversion block returns on a field of at most 11 characters
that holds a decimal point, when the numbers read fit an `int`. -/
theorem degrees_value_some (fld : List Nat) (hlen : fld.length ≤ 11) (hdot : 46 ∈ fld)
    (hfit : atoi_in_range (pad fld)) : ∃ v, degrees_value (pad fld) = some v := by
  obtain ⟨num, hnum⟩ := atoi_pad_some fld hlen 0 (by omega) hfit
  rw [List.drop_zero] at hnum
  obtain ⟨j, hj, hjlt⟩ := find_dot_some fld (List.replicate (12 - fld.length) 0) hdot
  obtain ⟨len, hl, _⟩ := strlen_le fld (List.replicate (11 - fld.length) 0)
  rw [← pad_eq hlen] at hl
  obtain ⟨dec, hdec⟩ := atoi_pad_some fld hlen (j + 1) (by omega) hfit
  have hj2 : find_dot (pad fld) = some j := hj
  have run : degrees_value (pad fld)
      = some ((num : ℚ) / 100 + (dec : ℚ) / pow10 ((len : Int) - ((j + 1 : Nat) : Int) + 2)) := by
    simp only [degrees_value, hnum, hj2, hl, hdec, Option.bind_eq_bind, Option.some_bind,
      Option.pure_def]
  exact ⟨_, run⟩

/-- The altitude conversion block returns under the same conditions. -/
theorem altitude_value_some (fld : List Nat) (hlen : fld.length ≤ 11) (hdot : 46 ∈ fld)
    (hfit : atoi_in_range (pad fld)) : ∃ v, altitude_value (pad fld) = some v := by
  obtain ⟨num, hnum⟩ := atoi_pad_some fld hlen 0 (by omega) hfit
  rw [List.drop_zero] at hnum
  obtain ⟨j, hj, hjlt⟩ := find_dot_some fld (List.replicate (12 - fld.length) 0) hdot
  obtain ⟨len, hl, _⟩ := strlen_le fld (List.replicate (11 - fld.length) 0)
  rw [← pad_eq hlen] at hl
  obtain ⟨dec, hdec⟩ := atoi_pad_some fld hlen (j + 1) (by omega) hfit
  have hj2 : find_dot (pad fld) = some j := hj
  have run : altitude_value (pad fld)
      = some (float_sum num dec ((len : Int) - ((j + 1 : Nat) : Int))) := by
    simp only [altitude_value, hnum, hj2, hl, hdec, Option.bind_eq_bind, Option.some_bind,
      Option.pure_def]
  exact ⟨_, run⟩

/-- When `strlen` of the latitude buffer is below 6, the body stops after the time
stores. -/
theorem GGA_fields_stop {input : List Nat} {time lat rest : List Nat} {k : Nat}
    (hd : input.drop 8 = time ++ 44 :: (lat ++ 44 :: rest))
    (ht : 44 ∉ time) (htl : time.length ≤ 12)
    (hlt : 44 ∉ lat) (hltl : lat.length ≤ 12)
    (hk : strlen (pad lat) = some k) (hk6 : k < 6)
    (gga : GGASTRUCT) (sink : List SinkOp) :
    GGA_fields input gga sink = some (store_time gga (pad time), sink) := by
  have c1 := copy_field_spec hd ht htl
  have h1 := (drop_head (drop_append_len hd)).2
  have c2 := copy_field_spec h1 hlt hltl
  simp only [GGA_fields, c1, c2, hk, hk6, if_true,
    Option.bind_eq_bind, Option.some_bind, Option.pure_def]

/-- For every buffer that holds a position sentence with a valid fix, laid out so that one
comma lies before index 8, the time field starts at index 8 and every field read ends at a
comma of the buffer, with time, latitude, longitude, satellite and altitude fields of at
most 11 characters and a `.` in the latitude, longitude and altitude fields, and such that
the numbers that `atoi` reads fit an `int`: `GGA_analysis` returns. -/
theorem GGA_analysis_returns (t : GGAText)
    (hlead : t.lead.length = 8 ∧ t.lead.count 44 = 1)
    (htime : 44 ∉ t.time ∧ t.time.length ≤ 11)
    (hlat : 44 ∉ t.lat ∧ t.lat.length ≤ 11 ∧ 46 ∈ t.lat) (hns : t.ns ≠ 44)
    (hlon : 44 ∉ t.lon ∧ t.lon.length ≤ 11 ∧ 46 ∈ t.lon) (hew : t.ew ≠ 44)
    (hfix : t.fix ≠ 48)
    (hsats : 44 ∉ t.sats ∧ t.sats.length ≤ 11) (hhdop : 44 ∉ t.hdop)
    (halt : 44 ∉ t.alt ∧ t.alt.length ≤ 11 ∧ 46 ∈ t.alt)
    (hfit : ∀ fld ∈ [t.lat, t.lon, t.sats, t.alt], atoi_in_range (pad fld))
    (gga : GGASTRUCT) (sink : List SinkOp) :
    ∃ r, GGA_analysis t.render gga sink = some r ∧ r.1.fixbit_gga = 1 ∧
      (∃ i : Nat, i < 60 ∧ t.render[i]? = some 44 ∧ (t.render.take i).count 44 = 5 ∧
        gps_fix_check t.render = some ((i : Int) + 1)) := by
  have hf : t.framed := ⟨hlead.1, hlead.2, htime.1, by omega, hlat.1, hlat.2.1, hns,
    hlon.1, hlon.2.1, hew⟩
  have ht : t.tail_framed := ⟨hsats.1, hsats.2, hhdop, halt.1, halt.2.1⟩
  obtain ⟨hc, hl⟩ := t.sixth_comma hf
  have hentry := GGA_analysis_entry t.render_split hc hl gga sink
  have hfixcheck := (comma_check_spec FIX_POS t.render_split (by simp [hc, FIX_POS]) hl).1
  have hcomma : ∃ i : Nat, i < 60 ∧ t.render[i]? = some 44 ∧ (t.render.take i).count 44 = 5 ∧
      gps_fix_check t.render = some ((i : Int) + 1) := by
    refine ⟨_, hl, ?_, ?_, hfixcheck⟩
    · rw [t.render_split, List.getElem?_append_right (le_refl _)]
      simp
    · rw [t.render_split, List.take_left]
      exact hc
  obtain ⟨k, hk, _⟩ := strlen_le t.lat (List.replicate (11 - t.lat.length) 0)
  rw [← pad_eq hlat.2.1] at hk
  by_cases hk6 : k < 6
  · have hd := t.drop_eight hf
    have run := GGA_fields_stop hd htime.1 (by omega) hlat.1 (by omega) hk hk6
      { gga with fixbit_gga := 1 } sink
    exact ⟨_, by rw [hentry, if_neg hfix, run], rfl, hcomma⟩
  · obtain ⟨la, hla⟩ := degrees_value_some t.lat hlat.2.1 hlat.2.2 (hfit _ (by simp))
    obtain ⟨lo, hlo⟩ := degrees_value_some t.lon hlon.2.1 hlon.2.2 (hfit _ (by simp))
    obtain ⟨n, hn⟩ := atoi_pad_some t.sats hsats.2 0 (by omega) (hfit _ (by simp))
    rw [List.drop_zero] at hn
    obtain ⟨al, hal⟩ := altitude_value_some t.alt halt.2.1 halt.2.2 (hfit _ (by simp))
    exact ⟨_, GGA_analysis_text t hf ht hfix ⟨k, hk, by omega⟩ hla hlo hn hal gga sink, rfl,
      hcomma⟩

/-! ## The comma scans and the bytes after the terminator -/

/-- The comma scan reads the bytes below index `i + n` only. -/
theorem comma_loop_take (pos : Nat) :
    ∀ (n : Nat) (input : List Nat) (i cc : Nat),
      comma_loop pos input n i cc = comma_loop pos (input.take (i + n)) n i cc := by
  intro n
  induction n with
  | zero => intro input i cc; simp [comma_loop]
  | succ n ih =>
    intro input i cc
    have hget : (input.take (i + (n + 1)))[i]? = input[i]? := by
      rw [List.getElem?_take]
      simp
    have htake : (input.take (i + (n + 1))).take (i + 1 + n) = input.take (i + 1 + n) := by
      rw [List.take_take]
      congr 1
      omega
    rw [comma_loop, comma_loop, hget]
    cases input[i]? with
    | none => rfl
    | some c =>
      simp only []
      rw [ih input (i + 1) (cc + 1), ih input (i + 1) cc,
        ih (input.take (i + (n + 1))) (i + 1) (cc + 1),
        ih (input.take (i + (n + 1))) (i + 1) cc, htake]

/-- The comma scan on a buffer that begins with the text `p` holding comma number `pos`
at an index `i < 60`. -/
theorem comma_scan_found (pos : Nat) (p rest : List Nat) (i : Nat) (hi : i < 60)
    (hget : p[i]? = some 44) (hcount : (p.take i).count 44 + 1 = pos) :
    comma_loop pos (p ++ rest) 60 0 0 = some ((i : Int) + 1) := by
  have hlt : i < p.length := by
    by_contra hc
    rw [List.getElem?_eq_none (by omega)] at hget
    exact absurd hget (by simp)
  have h44 : p[i] = 44 := by
    rw [List.getElem?_eq_getElem hlt] at hget
    exact Option.some.inj hget
  have hsplit : (p ++ rest).drop 0 = p.take i ++ 44 :: (p.drop (i + 1) ++ rest) := by
    rw [List.drop_zero, ← h44, ← List.cons_append, ← List.drop_eq_getElem_cons hlt,
      ← List.append_assoc, List.take_append_drop]
  have := comma_loop_spec pos (p ++ rest) (p.drop (i + 1) ++ rest) (p.take i) 60 0 0 hsplit
    (by omega) (by rw [List.length_take]; omega)
  rw [this, List.length_take, Nat.min_eq_left (by omega)]
  simp

set_option maxRecDepth 1000000 in
/-- C34, counterexample. Two 100-byte slots hold the same bytes up to and including the
first NUL, the sentence `$GPGGA,123519` and its terminator; in one the bytes of an earlier,
longer sentence follow, in the other NUL bytes. `gps_fix_check` returns 39 on the first
(the sixth comma, at index 38, lies after the terminator) and -1 on the second;
`valid_data_check` returns 23 and -1. -/
theorem C34_counterexample :
    slot_stale.length = 100 ∧ slot_fresh.length = 100 ∧
    slot_stale.take 14 = bytes "$GPGGA,123519" ++ [0] ∧
    slot_fresh.take 14 = bytes "$GPGGA,123519" ++ [0] ∧
    0 ∉ bytes "$GPGGA,123519" ∧
    gps_fix_check slot_stale = some 39 ∧ gps_fix_check slot_fresh = some (-1) ∧
    valid_data_check slot_stale = some 23 ∧ valid_data_check slot_fresh = some (-1) := by
  refine ⟨by decide, by decide, by decide, by decide, by decide, by decide, by decide,
    by decide, by decide⟩

/-- C34, amended. The result of `gps_fix_check`, `valid_data_check` and `speed_data_check`
(comma number 6, 2 and 7) depends on the first 60 bytes of the buffer only, wherever a NUL
lies among them: two buffers that agree on their first 60 bytes give the same result; and
two buffers that agree on every byte up to and including the first NUL (the sentence `p`
and its terminator) give the same index, `i + 1`, whenever the sentence itself holds the
comma of the function at an index `i < 60`, whatever bytes follow the terminator. -/
theorem C34_comma_checks_sentence (p : List Nat) (_hp : 0 ∉ p) :
    ∀ pos check, (pos, check) ∈ [(6, gps_fix_check), (2, valid_data_check),
        (7, speed_data_check)] →
      (∀ a b : List Nat, a.take 60 = b.take 60 → check a = check b) ∧
      (∀ (i : Nat) (ta tb : List Nat), i < 60 → p[i]? = some 44 →
        (p.take i).count 44 + 1 = pos →
        check (p ++ 0 :: ta) = some ((i : Int) + 1) ∧
        check (p ++ 0 :: tb) = some ((i : Int) + 1)) := by
  intro pos check hmem
  have key : ∀ q : Nat,
      (∀ a b : List Nat, a.take 60 = b.take 60 →
        comma_loop q a 60 0 0 = comma_loop q b 60 0 0) ∧
      (∀ (i : Nat) (ta tb : List Nat), i < 60 → p[i]? = some 44 →
        (p.take i).count 44 + 1 = q →
        comma_loop q (p ++ 0 :: ta) 60 0 0 = some ((i : Int) + 1) ∧
        comma_loop q (p ++ 0 :: tb) 60 0 0 = some ((i : Int) + 1)) := by
    intro q
    constructor
    · intro a b hab
      have ha := comma_loop_take q 60 a 0 0
      have hb := comma_loop_take q 60 b 0 0
      simp only [Nat.zero_add] at ha hb
      rw [ha, hb, hab]
    · intro i ta tb hi hget hcount
      exact ⟨comma_scan_found q p (0 :: ta) i hi hget hcount,
        comma_scan_found q p (0 :: tb) i hi hget hcount⟩
  simp only [List.mem_cons, Prod.mk.injEq, List.mem_singleton, List.not_mem_nil,
    or_false] at hmem
  rcases hmem with ⟨rfl, rfl⟩ | ⟨rfl, rfl⟩ | ⟨rfl, rfl⟩
  · exact key 6
  · exact key 2
  · exact key 7

set_option maxRecDepth 1000000 in
/-- C34, witness: the scenario sentence (sixth comma at index 36) with its terminator,
followed once by NUL bytes and once by other bytes with commas: `gps_fix_check` returns 37
on both. -/
theorem C34_comma_checks_sentence_witness :
    (0 ∉ gga_sample ∧ gga_sample[36]? = some 44 ∧ (gga_sample.take 36).count 44 + 1 = 6) ∧
    gps_fix_check (gga_sample ++ 0 :: List.replicate 37 0) = some 37 ∧
    gps_fix_check (gga_sample ++ 0 :: bytes ",,1,,,,,") = some 37 := by
  refine ⟨⟨by decide, by decide, by decide⟩, ?_⟩
  exact (C34_comma_checks_sentence gga_sample (by decide) 6 gps_fix_check (by simp)).2 36
    (List.replicate 37 0) (bytes ",,1,,,,,") (by decide) (by decide) (by decide)

/-! ## The event counters and the Z axis -/

/-- C35. For every two calls of `event_analysis` that start from the same three event
counters (the rest of the two states being any) and are given the same X-axis and Y-axis
batches, whatever the two Z-axis batches: both calls return, and leave the same
lane-change, irregular-acceleration and rash-driving counters. -/
theorem C35_counters_ignore_z (x y z1 z2 : List Int) (s1 s2 : Device)
    (hx : is_batch x) (hy : is_batch y) (hz1 : is_batch z1) (hz2 : is_batch z2)
    (hs1 : s1.stats_ok) (hs2 : s2.stats_ok)
    (hl : s1.lane_change = s2.lane_change) (hi : s1.irregular_accel = s2.irregular_accel)
    (hr : s1.rash_driving = s2.rash_driving) :
    ∃ t1 t2, event_analysis x y z1 s1 = some t1 ∧ event_analysis x y z2 s2 = some t2 ∧
      t1.lane_change = t2.lane_change ∧ t1.irregular_accel = t2.irregular_accel ∧
      t1.rash_driving = t2.rash_driving := by
  obtain ⟨t1, h1, _, _, el1, ei1, er1⟩ := event_analysis_counters x y z1 s1 hx hy hz1 hs1
  obtain ⟨t2, h2, _, _, el2, ei2, er2⟩ := event_analysis_counters x y z2 s2 hx hy hz2 hs2
  exact ⟨t1, t2, h1, h2, by rw [el1, el2, hl], by rw [ei1, ei2, hi], by rw [er1, er2, hr]⟩

set_option maxRecDepth 1000000 in
/-- C35, witness: X average -75 and Y average -90 from the counters 7, 8 and 9, once with
the Z batch of readings 2090 in the start-up state and once with the Z batch of readings
-32768 in a state with other statistics: both calls leave the counters 8, 9 and 10. -/
theorem C35_counters_ignore_z_witness :
    (is_batch window_minus_75 ∧ is_batch window_minus_90 ∧ is_batch window_2090 ∧
      is_batch window_floor ∧ (counters_at 7 8 9).stats_ok ∧
      stale_counters.stats_ok) ∧
    ∃ t1 t2, event_analysis window_minus_75 window_minus_90 window_2090 (counters_at 7 8 9)
        = some t1 ∧
      event_analysis window_minus_75 window_minus_90 window_floor stale_counters = some t2 ∧
      t1.lane_change = t2.lane_change ∧ t1.irregular_accel = t2.irregular_accel ∧
      t1.rash_driving = t2.rash_driving ∧
      (t1.lane_change, t1.irregular_accel, t1.rash_driving) = (8, 9, 10) := by
  refine ⟨⟨by decide, by decide, by decide, by decide, by decide, by decide⟩, ?_⟩
  obtain ⟨t1, t2, h1, h2, e1, e2, e3⟩ := C35_counters_ignore_z window_minus_75
    window_minus_90 window_2090 window_floor (counters_at 7 8 9) stale_counters
    (by decide) (by decide) (by decide) (by decide) (by decide) (by decide) rfl rfl rfl
  have v : (event_analysis window_minus_75 window_minus_90 window_2090
      (counters_at 7 8 9)).map (fun t => (t.lane_change, t.irregular_accel, t.rash_driving))
      = some (8, 9, 10) := by decide
  rw [h1, Option.map_some', Option.some.injEq] at v
  exact ⟨t1, t2, h1, h2, e1, e2, e3, v⟩

/-! ## The indices of `GGA_analysis` whatever `atoi` returns -/

theorem atoi_any_extends (ovf : Int → Int) {s : List Nat} {v : Int} (h : atoi s = some v) :
    atoi_any ovf s = some v := by
  unfold atoi at h
  unfold atoi_any
  cases hs : atoi_space s with
  | none => rw [hs] at h; simp at h
  | some w =>
    rw [hs, Option.some_bind] at h
    by_cases hr : INT_MIN ≤ w ∧ w ≤ INT_MAX
    · rw [if_pos hr] at h
      rw [Option.map_some', if_pos hr, h]
    · rw [if_neg hr] at h
      exact absurd h (by simp)

theorem degrees_value_any_extends (ovf : Int → Int) {buf : List Nat} {v : ℚ}
    (h : degrees_value buf = some v) : degrees_value_any ovf buf = some v := by
  simp only [degrees_value, Option.bind_eq_bind, Option.bind_eq_some, Option.pure_def,
    Option.some.injEq] at h
  obtain ⟨num, h1, j, h2, len, h3, dec, h4, h5⟩ := h
  simp only [degrees_value_any, atoi_any_extends ovf h1, h2, h3, atoi_any_extends ovf h4, h5,
    Option.bind_eq_bind, Option.some_bind, Option.pure_def]

theorem altitude_value_any_extends (ovf : Int → Int) {buf : List Nat} {v : ℚ}
    (h : altitude_value buf = some v) : altitude_value_any ovf buf = some v := by
  simp only [altitude_value, Option.bind_eq_bind, Option.bind_eq_some, Option.pure_def,
    Option.some.injEq] at h
  obtain ⟨num, h1, j, h2, len, h3, dec, h4, h5⟩ := h
  simp only [altitude_value_any, atoi_any_extends ovf h1, h2, h3, atoi_any_extends ovf h4, h5,
    Option.bind_eq_bind, Option.some_bind, Option.pure_def]

theorem GGA_altitude_any_extends (ovf : Int → Int) {input : List Nat} {gga : GGASTRUCT}
    {sink : List SinkOp} {tb lab lob : List Nat} {ns ew index1 : Nat}
    {r : GGASTRUCT × List SinkOp}
    (h : GGA_altitude input gga sink tb lab lob ns ew index1 = some r) :
    GGA_altitude_any ovf input gga sink tb lab lob ns ew index1 = some r := by
  simp only [GGA_altitude, Option.bind_eq_bind, Option.bind_eq_some, Option.pure_def,
    Option.some.injEq] at h
  obtain ⟨c1, h1, sats, h2, i2, h3, c3, h4, alt, h5, unit, h6, h7⟩ := h
  simp only [GGA_altitude_any, h1, atoi_any_extends ovf h2, h3, h4,
    altitude_value_any_extends ovf h5, h6, h7, Option.bind_eq_bind, Option.some_bind,
    Option.pure_def]

theorem GGA_position_any_extends (ovf : Int → Int) {input : List Nat} {gga : GGASTRUCT}
    {sink : List SinkOp} {tb lab : List Nat} {index1 : Nat} {r : GGASTRUCT × List SinkOp}
    (h : GGA_position input gga sink tb lab index1 = some r) :
    GGA_position_any ovf input gga sink tb lab index1 = some r := by
  simp only [GGA_position, Option.bind_eq_bind, Option.bind_eq_some, Option.pure_def] at h
  obtain ⟨lat, h1, ns, h2, c3, h3, lon, h4, ew, h5, h6⟩ := h
  simp only [GGA_position_any, degrees_value_any_extends ovf h1, h2, h3,
    degrees_value_any_extends ovf h4, h5, GGA_altitude_any_extends ovf h6,
    Option.bind_eq_bind, Option.some_bind, Option.pure_def]

theorem GGA_fields_any_extends (ovf : Int → Int) {input : List Nat} {gga : GGASTRUCT}
    {sink : List SinkOp} {r : GGASTRUCT × List SinkOp}
    (h : GGA_fields input gga sink = some r) : GGA_fields_any ovf input gga sink = some r := by
  simp only [GGA_fields, Option.bind_eq_bind, Option.bind_eq_some, Option.pure_def] at h
  obtain ⟨c1, h1, c2, h2, k, h3, h4⟩ := h
  simp only [GGA_fields_any, h1, h2, h3, Option.bind_eq_bind, Option.some_bind,
    Option.pure_def]
  by_cases hk : k < 6
  · rw [if_pos hk] at h4 ⊢
    exact h4
  · rw [if_neg hk] at h4 ⊢
    exact GGA_position_any_extends ovf h4

/-- Where `GGA_analysis` has a result, `GGA_analysis_any` has the same result, whatever
`atoi` is taken to return on overflow. -/
theorem GGA_analysis_any_extends (ovf : Int → Int) {input : List Nat} {gga : GGASTRUCT}
    {sink : List SinkOp} {r : GGASTRUCT × List SinkOp}
    (h : GGA_analysis input gga sink = some r) :
    GGA_analysis_any ovf input gga sink = some r := by
  simp only [GGA_analysis, Option.bind_eq_bind, Option.bind_eq_some, Option.pure_def] at h
  obtain ⟨i, h1, fix, h2, h3⟩ := h
  simp only [GGA_analysis_any, h1, h2, Option.bind_eq_bind, Option.some_bind,
    Option.pure_def]
  by_cases hf : fix = 48
  · rw [if_pos hf] at h3 ⊢
    exact h3
  · rw [if_neg hf] at h3 ⊢
    exact GGA_fields_any_extends ovf h3

/-- The call `atoi(buf + k)` on a 12-byte field buffer reads inside the buffer: the field
leaves a NUL in it. -/
theorem atoi_any_pad (ovf : Int → Int) (fld : List Nat) (hlen : fld.length ≤ 11) (k : Nat)
    (hk : k ≤ fld.length) : ∃ v, atoi_any ovf ((pad fld).drop k) = some v := by
  have h0 : 0 ∈ (pad fld).drop k := by
    rw [pad_eq hlen, List.drop_append_of_le_length hk]
    simp
  obtain ⟨v, hv⟩ := atoi_space_some _ h0
  exact ⟨_, by rw [atoi_any, hv]; rfl⟩

/-- The latitude/longitude conversion block stays inside a field buffer that holds a field
of at most 11 characters with a decimal point. -/
theorem degrees_value_any_some (ovf : Int → Int) (fld : List Nat) (hlen : fld.length ≤ 11)
    (hdot : 46 ∈ fld) : ∃ v, degrees_value_any ovf (pad fld) = some v := by
  obtain ⟨num, hnum⟩ := atoi_any_pad ovf fld hlen 0 (by omega)
  rw [List.drop_zero] at hnum
  obtain ⟨j, hj, hjlt⟩ := find_dot_some fld (List.replicate (12 - fld.length) 0) hdot
  obtain ⟨len, hl, _⟩ := strlen_le fld (List.replicate (11 - fld.length) 0)
  rw [← pad_eq hlen] at hl
  obtain ⟨dec, hdec⟩ := atoi_any_pad ovf fld hlen (j + 1) (by omega)
  have hj2 : find_dot (pad fld) = some j := hj
  have run : degrees_value_any ovf (pad fld)
      = some ((num : ℚ) / 100 + (dec : ℚ) / pow10 ((len : Int) - ((j + 1 : Nat) : Int) + 2)) := by
    simp only [degrees_value_any, hnum, hj2, hl, hdec, Option.bind_eq_bind, Option.some_bind,
      Option.pure_def]
  exact ⟨_, run⟩

/-- The altitude conversion block stays inside such a field buffer. -/
theorem altitude_value_any_some (ovf : Int → Int) (fld : List Nat) (hlen : fld.length ≤ 11)
    (hdot : 46 ∈ fld) : ∃ v, altitude_value_any ovf (pad fld) = some v := by
  obtain ⟨num, hnum⟩ := atoi_any_pad ovf fld hlen 0 (by omega)
  rw [List.drop_zero] at hnum
  obtain ⟨j, hj, hjlt⟩ := find_dot_some fld (List.replicate (12 - fld.length) 0) hdot
  obtain ⟨len, hl, _⟩ := strlen_le fld (List.replicate (11 - fld.length) 0)
  rw [← pad_eq hlen] at hl
  obtain ⟨dec, hdec⟩ := atoi_any_pad ovf fld hlen (j + 1) (by omega)
  have hj2 : find_dot (pad fld) = some j := hj
  have run : altitude_value_any ovf (pad fld)
      = some (float_sum num dec ((len : Int) - ((j + 1 : Nat) : Int))) := by
    simp only [altitude_value_any, hnum, hj2, hl, hdec, Option.bind_eq_bind, Option.some_bind,
      Option.pure_def]
  exact ⟨_, run⟩

theorem GGA_altitude_any_run (ovf : Int → Int) {input : List Nat} {index1 : Nat}
    {ew fix unit : Nat} {sats hdop alt rest : List Nat} {n : Int} {al : ℚ}
    (hd : input.drop index1
      = ew :: 44 :: fix :: 44 :: (sats ++ 44 :: (hdop ++ 44 :: (alt ++ 44 :: unit :: rest))))
    (hs : 44 ∉ sats) (hsl : sats.length ≤ 12) (hh : 44 ∉ hdop)
    (ha : 44 ∉ alt) (hal : alt.length ≤ 12)
    (hn : atoi_any ovf (pad sats) = some n) (hv : altitude_value_any ovf (pad alt) = some al)
    (gga : GGASTRUCT) (sink : List SinkOp) (tb lab lob : List Nat) (ns ew2 : Nat) :
    GGA_altitude_any ovf input gga sink tb lab lob ns ew2 index1
      = some ({ gga with numofsat := n, altitude := al, unit := unit },
          sink ++ GGA_log tb lab lob (pad sats) (pad alt) ns ew2) := by
  have h1 := (drop_head hd).2
  have h2 := (drop_head h1).2
  have h3 := (drop_head h2).2
  have h4 := (drop_head h3).2
  have c1 := copy_field_spec h4 hs hsl
  have h5 := (drop_head (drop_append_len h4)).2
  have c2 := skip_field_spec h5 hh
  have h6 := (drop_head (drop_append_len h5)).2
  have c3 := copy_field_spec h6 ha hal
  have h7 := (drop_head (drop_append_len h6)).2
  have c4 := (drop_head h7).1
  simp only [Nat.add_assoc] at c1 c2 c3 c4
  simp only [GGA_altitude_any, Nat.add_assoc, Nat.reduceAdd, c1, c2, c3, hn, hv, rd_succ,
    rd_nat, Option.bind_eq_bind, Option.some_bind, Option.pure_def]
  rw [c4]
  rfl

theorem GGA_position_any_run (ovf : Int → Int) {input : List Nat} {index1 : Nat}
    {ns ew fix unit : Nat} {lon sats hdop alt rest : List Nat} {lo al : ℚ} {n : Int}
    (la : ℚ) (lab : List Nat)
    (hd : input.drop index1 = 44 :: ns :: 44 :: (lon ++ 44 :: ew :: 44 :: fix :: 44 ::
      (sats ++ 44 :: (hdop ++ 44 :: (alt ++ 44 :: unit :: rest)))))
    (hla : degrees_value_any ovf lab = some la)
    (hl : 44 ∉ lon) (hll : lon.length ≤ 12) (hlo : degrees_value_any ovf (pad lon) = some lo)
    (hs : 44 ∉ sats) (hsl : sats.length ≤ 12) (hh : 44 ∉ hdop)
    (ha : 44 ∉ alt) (hal : alt.length ≤ 12)
    (hn : atoi_any ovf (pad sats) = some n) (hv : altitude_value_any ovf (pad alt) = some al)
    (gga : GGASTRUCT) (sink : List SinkOp) (tb : List Nat) :
    GGA_position_any ovf input gga sink tb lab index1
      = some ({ gga with latitude := la, NS := ns, longitude := lo, EW := ew,
                         numofsat := n, altitude := al, unit := unit },
          sink ++ GGA_log tb lab (pad lon) (pad sats) (pad alt) ns ew) := by
  have h1 := drop_head hd
  have h2 := drop_head h1.2
  have h3 := (drop_head h2.2).2
  have c1 := copy_field_spec h3 hl hll
  have h4 := drop_head (drop_append_len h3)
  have h5 := drop_head h4.2
  have run := GGA_altitude_any_run ovf h4.2 hs hsl hh ha hal hn hv
    { gga with latitude := la, NS := ns, longitude := lo, EW := ew } sink tb lab (pad lon) ns ew
  simp only [GGA_position_any, hla, rd_nat, h2.1, c1, hlo, h5.1, run,
    Option.bind_eq_bind, Option.some_bind, Option.pure_def]

theorem GGA_fields_any_run (ovf : Int → Int) {input : List Nat} {ns ew fix unit : Nat}
    {time lat lon sats hdop alt rest : List Nat} {la lo al : ℚ} {n : Int}
    (hd : input.drop 8 = time ++ 44 :: (lat ++ 44 :: ns :: 44 :: (lon ++ 44 :: ew :: 44 ::
      fix :: 44 :: (sats ++ 44 :: (hdop ++ 44 :: (alt ++ 44 :: unit :: rest))))))
    (ht : 44 ∉ time) (htl : time.length ≤ 12)
    (hlt : 44 ∉ lat) (hltl : lat.length ≤ 12)
    (hlen : ∃ k, strlen (pad lat) = some k ∧ 6 ≤ k)
    (hla : degrees_value_any ovf (pad lat) = some la)
    (hl : 44 ∉ lon) (hll : lon.length ≤ 12) (hlo : degrees_value_any ovf (pad lon) = some lo)
    (hs : 44 ∉ sats) (hsl : sats.length ≤ 12) (hh : 44 ∉ hdop)
    (ha : 44 ∉ alt) (hal : alt.length ≤ 12)
    (hn : atoi_any ovf (pad sats) = some n) (hv : altitude_value_any ovf (pad alt) = some al)
    (gga : GGASTRUCT) (sink : List SinkOp) :
    GGA_fields_any ovf input gga sink
      = some ({ store_time gga (pad time) with
                  latitude := la, NS := ns, longitude := lo, EW := ew,
                  numofsat := n, altitude := al, unit := unit },
          sink ++ GGA_log (pad time) (pad lat) (pad lon) (pad sats) (pad alt) ns ew) := by
  have c1 := copy_field_spec hd ht htl
  have h1 := (drop_head (drop_append_len hd)).2
  have c2 := copy_field_spec h1 hlt hltl
  have h2 := drop_append_len h1
  obtain ⟨k, hk, hk6⟩ := hlen
  have hnot : ¬ k < 6 := by omega
  have run := GGA_position_any_run ovf la (pad lat) h2 hla hl hll hlo hs hsl hh ha hal hn hv
    (store_time gga (pad time)) sink (pad time)
  simp only [GGA_fields_any, c1, c2, hk, hnot, if_false, run,
    Option.bind_eq_bind, Option.some_bind, Option.pure_def]

/-- C33. For every buffer that holds a position sentence with a valid fix (fix byte other
than `0`), laid out so that one comma lies before index 8, the time field starts at
index 8 and every field read ends at a comma of the buffer (so that the sixth comma lies
in the first 60 bytes), with time, latitude, longitude, satellite and altitude fields of
at most 11 characters and a `.` in the latitude, longitude and altitude fields:
`GGA_analysis_any` has a result whatever `int` the library `atoi` gives for a number
outside `int`, that is, every read of the sentence buffer and every read and write of the
12-byte field buffers is inside its array and every scanning loop ends; the result has
`fixbit_gga = 1`, the sixth comma lies at an index below 60, and any result of
`GGA_analysis`, which exists when no number read overflows, is that result. -/
theorem C33_indices_in_range (t : GGAText)
    (hlead : t.lead.length = 8 ∧ t.lead.count 44 = 1)
    (htime : 44 ∉ t.time ∧ t.time.length ≤ 11)
    (hlat : 44 ∉ t.lat ∧ t.lat.length ≤ 11 ∧ 46 ∈ t.lat) (hns : t.ns ≠ 44)
    (hlon : 44 ∉ t.lon ∧ t.lon.length ≤ 11 ∧ 46 ∈ t.lon) (hew : t.ew ≠ 44)
    (hfix : t.fix ≠ 48)
    (hsats : 44 ∉ t.sats ∧ t.sats.length ≤ 11) (hhdop : 44 ∉ t.hdop)
    (halt : 44 ∉ t.alt ∧ t.alt.length ≤ 11 ∧ 46 ∈ t.alt)
    (ovf : Int → Int) (gga : GGASTRUCT) (sink : List SinkOp) :
    ∃ r, GGA_analysis_any ovf t.render gga sink = some r ∧ r.1.fixbit_gga = 1 ∧
      (∃ i : Nat, i < 60 ∧ t.render[i]? = some 44 ∧ (t.render.take i).count 44 = 5 ∧
        gps_fix_check t.render = some ((i : Int) + 1)) ∧
      (∀ r0, GGA_analysis t.render gga sink = some r0 → r0 = r) ∧
      ((∀ fld ∈ [t.lat, t.lon, t.sats, t.alt], atoi_in_range (pad fld)) →
        GGA_analysis t.render gga sink = some r) := by
  have hf : t.framed := ⟨hlead.1, hlead.2, htime.1, by omega, hlat.1, hlat.2.1, hns,
    hlon.1, hlon.2.1, hew⟩
  obtain ⟨hc, hl⟩ := t.sixth_comma hf
  obtain ⟨e1, e2⟩ := comma_check_spec FIX_POS t.render_split (by simp [hc, FIX_POS]) hl
  have hentry : GGA_analysis_any ovf t.render gga sink
      = GGA_fields_any ovf t.render { gga with fixbit_gga := 1 } sink := by
    simp only [GGA_analysis_any, gps_fix_check, e1, e2, hfix, if_false, Option.bind_eq_bind,
      Option.some_bind, Option.pure_def]
  have hcomma : ∃ i : Nat, i < 60 ∧ t.render[i]? = some 44 ∧ (t.render.take i).count 44 = 5 ∧
      gps_fix_check t.render = some ((i : Int) + 1) := by
    refine ⟨_, hl, ?_, ?_, e1⟩
    · rw [t.render_split, List.getElem?_append_right (le_refl _)]
      simp
    · rw [t.render_split, List.take_left]
      exact hc
  have key : ∃ r, GGA_analysis_any ovf t.render gga sink = some r ∧ r.1.fixbit_gga = 1 := by
    have hd := t.drop_eight hf
    obtain ⟨k, hk, _⟩ := strlen_le t.lat (List.replicate (11 - t.lat.length) 0)
    rw [← pad_eq hlat.2.1] at hk
    by_cases hk6 : k < 6
    · have c1 := copy_field_spec hd htime.1 (by omega : t.time.length ≤ 12)
      have h1 := (drop_head (drop_append_len hd)).2
      have c2 := copy_field_spec h1 hlat.1 (by omega : t.lat.length ≤ 12)
      have run : GGA_fields_any ovf t.render { gga with fixbit_gga := 1 } sink
          = some (store_time { gga with fixbit_gga := 1 } (pad t.time), sink) := by
        simp only [GGA_fields_any, c1, c2, hk, hk6, if_true,
          Option.bind_eq_bind, Option.some_bind, Option.pure_def]
      exact ⟨_, hentry.trans run, rfl⟩
    · obtain ⟨la, hla⟩ := degrees_value_any_some ovf t.lat hlat.2.1 hlat.2.2
      obtain ⟨lo, hlo⟩ := degrees_value_any_some ovf t.lon hlon.2.1 hlon.2.2
      obtain ⟨n, hn⟩ := atoi_any_pad ovf t.sats hsats.2 0 (by omega)
      rw [List.drop_zero] at hn
      obtain ⟨al, hal⟩ := altitude_value_any_some ovf t.alt halt.2.1 halt.2.2
      have run := GGA_fields_any_run ovf hd htime.1 (by omega) hlat.1 (by omega)
        ⟨k, hk, by omega⟩ hla hlon.1 (by omega) hlo hsats.1 (by omega) hhdop halt.1 (by omega)
        hn hal { gga with fixbit_gga := 1 } sink
      exact ⟨_, hentry.trans run, rfl⟩
  obtain ⟨r, hr, hfb⟩ := key
  have same : ∀ r0, GGA_analysis t.render gga sink = some r0 → r0 = r := by
    intro r0 h0
    have := GGA_analysis_any_extends ovf h0
    rw [hr] at this
    exact (Option.some.inj this).symm
  refine ⟨r, hr, hfb, hcomma, same, fun hfit => ?_⟩
  obtain ⟨r0, h0, _⟩ := GGA_analysis_returns t hlead htime hlat hns hlon hew hfix hsats hhdop
    halt hfit gga sink
  rw [h0, same r0 h0]

set_option maxRecDepth 1000000 in
/-- C33, witness: the scenario sentence with the satellite field `99999999999`, 11
characters that spell a number outside `int`, held from byte offset 1 of its slot, with
an `atoi` that gives `INT_MAX` on overflow: `GGA_analysis_any` has a result, with satellite
count `INT_MAX` and altitude the `float` 545.4. -/
theorem C33_indices_in_range_witness :
    ((gga_overflow_text.lead.length = 8 ∧ gga_overflow_text.lead.count 44 = 1) ∧
      (44 ∉ gga_overflow_text.sats ∧ gga_overflow_text.sats.length ≤ 11) ∧
      ¬ atoi_in_range (pad gga_overflow_text.sats) ∧
      GGA_analysis gga_overflow_text.render gga_zero [] = none) ∧
    ∃ r, GGA_analysis_any (fun _ => INT_MAX) gga_overflow_text.render gga_zero [] = some r ∧
      r.1.fixbit_gga = 1 ∧ r.1.numofsat = 2147483647 ∧ r.1.altitude = 4467917 / 8192 := by
  have hnone : GGA_analysis gga_overflow_text.render gga_zero [] = none := by
    with_unfolding_all rfl
  refine ⟨⟨by decide, by decide, by decide, hnone⟩, ?_⟩
  obtain ⟨r, hr, hfb, _⟩ := C33_indices_in_range gga_overflow_text (by decide) (by decide)
    (by decide) (by decide) (by decide) (by decide) (by decide) (by decide) (by decide)
    (by decide) (fun _ => INT_MAX) gga_zero []
  have e : (GGA_analysis_any (fun _ => INT_MAX) gga_overflow_text.render gga_zero []).map
      (fun r => (r.1.numofsat, r.1.altitude)) = some (2147483647, 4467917 / 8192) := by
    with_unfolding_all rfl
  rw [hr] at e
  simp only [Option.map_some', Option.some.injEq, Prod.mk.injEq] at e
  exact ⟨r, hr, hfb, e.1, e.2⟩

/-! ## The early return of `GGA_analysis` -/

set_option maxRecDepth 1000000 in
/-- C7, evaluation at the failing input. The scenario sentence with the latitude field cut
to `48.03` (five characters) is parsed into the record that the scenario sentence itself
has left. `GGA_analysis` returns with an empty sink and with the record as it was: the
same record, with `fixbit_gga = 1`, that a successful parse of the scenario sentence
leaves from that state. From the zero record the early return leaves `fixbit_gga = 1`, the
time 5:35:19 and the other fields 0. The `return 2` of line 129 has no effect: the
function is `void`. -/
theorem C7_error_code_lost :
    (gga_short_text.framed ∧ gga_short_text.fix ≠ 48 ∧ gga_short_text.lat.length < 6) ∧
    GGA_analysis gga_short_text.render gga_sample_record_slot []
      = some (gga_sample_record_slot, []) ∧
    (GGA_analysis (gga_sample_text 0).render gga_sample_record_slot []).map (fun r => r.1)
      = some gga_sample_record_slot ∧
    GGA_analysis gga_short_text.render gga_zero []
      = some ({ gga_zero with fixbit_gga := 1, hour := 5, min := 35, sec := 19 }, []) := by
  refine ⟨⟨by decide, by decide, by decide⟩, ?_, ?_, ?_⟩
  · rw [GGA_analysis_short gga_short_text (by decide) (by decide) (by decide)]
    rfl
  · rw [gga_sample_text_render, gga_sample_run_slot]
    rfl
  · rw [GGA_analysis_short gga_short_text (by decide) (by decide) (by decide)]
    rfl

end Telematics
